import Mathlib

/-!
Shallow embedding of the account-state engine of quarkchain
(src/quarkchain/evm/state.py) and proofs about it.

Modelling conventions, used throughout:

* Python byte strings are modelled as lists of naturals (one element per
  byte); Python ints as Lean Int (or Nat where the source value is a
  count/identifier that is never negative, e.g. token ids, addresses).
* A 20-byte address is modelled by its big-endian numeric value (Nat);
  addresses are opaque trie keys in the source, no arithmetic is done on
  them.  The special address THREE = b"\x00"*19 + b"\x03" has value 3.
* Python dicts are modelled as association lists.  Insertion of a new key
  appends at the end and update of an existing key rewrites it in place,
  which reproduces Python dict iteration-order semantics (dicts never hold
  duplicate keys, so first-occurrence update is exact).
* The secure trie and the account storage tries are external collaborators
  whose contract is a key-value map with a root hash that commits to the
  content.  We identify a root hash with the trie content itself (the
  commitment is collision resistant, so content equality and root-hash
  equality coincide).  Likewise code is content-addressed by its hash; we
  identify code_hash with the code bytes (BLANK_HASH is the hash of the
  empty byte string, identified with the empty list).
* The rlp pair-list codec is an external collaborator with a deterministic
  invertible encode/decode contract; it is modelled by a concrete
  invertible flat encoding of (token_id, balance) pairs.
* Python exceptions (assert failures, raise) are modelled with
  Option/Except; the try/except in State.revert's journal replay, which
  logs and skips a failing undo record, is modelled by the failing undo
  acting as the identity.
* The db side-mirror writes guarded by executing_on_head, the deleted-node
  accounting lists (State.deletes, State.changed) and log_listeners are
  bookkeeping for external collaborators (the backing store) and are not
  modelled; they do not feed back into any behaviour the claims mention.
-/

/-! ### Definitions -/

/-- Lookup in an association list (Python dict get): value of the first
pair whose key matches. -/
def getk {α : Type} : List (Nat × α) → Nat → Option α
  | [], _ => none
  | p :: t, k => if p.1 = k then some p.2 else getk t k

/-- Write to an association list with Python dict semantics: an existing
key is updated in place, a new key is appended at the end. -/
def setk {α : Type} : List (Nat × α) → Nat → α → List (Nat × α)
  | [], k, v => [(k, v)]
  | p :: t, k, v => if p.1 = k then (k, v) :: t else p :: setk t k v

/-- Remove a key from an association list (Python dict pop). -/
def popk {α : Type} (l : List (Nat × α)) (k : Nat) : List (Nat × α) :=
  l.filter (fun p => p.1 != k)

/-- Keys of an association list. -/
def keysOf {α : Type} (l : List (Nat × α)) : List Nat :=
  l.map Prod.fst

/-- Well-formedness of an association list as a dict: no duplicate keys. -/
def KeysNodup {α : Type} (l : List (Nat × α)) : Prop :=
  (keysOf l).Nodup

instance {α : Type} (l : List (Nat × α)) : Decidable (KeysNodup l) := by
  unfold KeysNodup; infer_instance

/-- Python dict equality of two association lists: the same keys mapped to
the same values (checked extensionally over the union of the key sets). -/
def dictEq {α : Type} [BEq α] (l1 l2 : List (Nat × α)) : Bool :=
  (keysOf l1 ++ keysOf l2).all (fun k => getk l1 k == getk l2 k)

/-! ### Sorting of (token_id, balance) pairs

TokenBalances.serialize sorts the pair list by token id
(state.py line 112, a stable sort on distinct keys) before encoding. -/

/-- Insert a pair into a key-sorted list of pairs. -/
def insPair (p : Nat × Int) : List (Nat × Int) → List (Nat × Int)
  | [] => [p]
  | q :: t => if p.1 ≤ q.1 then p :: q :: t else q :: insPair p t

/-- Sort a pair list by ascending token id (models list.sort(key=token_id);
keys are dict keys, hence distinct, so stability is irrelevant). -/
def sortPairs (l : List (Nat × Int)) : List (Nat × Int) :=
  l.foldr insPair []

/-- Pairwise key-sortedness of a pair list. -/
def SortedKeys (l : List (Nat × Int)) : Prop :=
  List.Pairwise (fun a b : Nat × Int => a.1 ≤ b.1) l

/-! ### The rlp pair-list codec (external collaborator, see header). -/

/-- Encode an integer balance as a single code unit (invertible). -/
def encInt : Int → Nat
  | .ofNat n => 2 * n
  | .negSucc n => 2 * n + 1

/-- Decode a single code unit back to an integer balance. -/
def decInt (n : Nat) : Int :=
  if n % 2 = 0 then Int.ofNat (n / 2) else Int.negSucc ((n - 1) / 2)

/-- Deterministic encoding of a (token_id, balance) pair list (models
rlp.encode of a CountableList of TokenBalancePair). -/
def encodePairs : List (Nat × Int) → List Nat
  | [] => []
  | p :: t => p.1 :: encInt p.2 :: encodePairs t

/-- Decoding of a (token_id, balance) pair list (models rlp.decode). -/
def decodePairs : List Nat → List (Nat × Int)
  | t :: b :: rest => (t, decInt b) :: decodePairs rest
  | _ => []

/-! ### TokenBalances (state.py lines 84-124)

The version-1 (trie-backed) representation is reserved and unimplemented:
both the constructor and serialize raise on it. -/

/-- Failure modes of the TokenBalances codec: the unimplemented
trie-backed mode ("Token balance trie is not yet implemented") versus a
corrupt version tag ("Unknown enum byte in token_balances"). -/
inductive TBErr
  | notImplemented
  | unknownEnum
deriving DecidableEq

/-- In-memory multi-token balance ledger of one account: a token-id to
balance dict plus the format-version byte (enum, b"\x00" for the explicit
pair-list format). -/
structure TokenBalances where
  balances : List (Nat × Int)
  enum : List Nat
deriving DecidableEq

/-- Version-0 decoding of serialized token balances into the balances
dict: skip the version byte, decode the pair list, insert into a fresh
dict (total version of the only decode path State ever stores). -/
def decodeBal (data : List Nat) : List (Nat × Int) :=
  if data.length = 0 then []
  else (decodePairs (data.drop 1)).foldl (fun m p => setk m p.1 p.2) []

/-- Version-0 serialization of a balances dict: empty dict encodes to the
empty byte string, otherwise the version byte 0x00 followed by the encoded
pair list sorted by ascending token id (state.py lines 103-113). -/
def serializeBal (l : List (Nat × Int)) : List Nat :=
  if l.length = 0 then [] else 0 :: encodePairs (sortPairs l)

/-- TokenBalances.__init__ (state.py lines 89-101): empty input yields the
empty dict; version byte 0x00 decodes the pair list; version byte 0x01
(trie-backed) raises "not yet implemented"; any other first byte raises
"Unknown enum byte". -/
def TokenBalances.init (data : List Nat) : Except TBErr TokenBalances :=
  if data.length = 0 then .ok { balances := [], enum := [0] }
  else if data.take 1 = [0] then .ok { balances := decodeBal data, enum := [0] }
  else if data.take 1 = [1] then .error .notImplemented
  else .error .unknownEnum

/-- TokenBalances.serialize (state.py lines 103-118): empty dict yields
the empty byte string; version 0x00 emits the sorted pair encoding behind
the version byte; version 0x01 raises "not yet implemented"; any other
enum raises "Unknown enum byte". -/
def TokenBalances.serialize (tb : TokenBalances) : Except TBErr (List Nat) :=
  if tb.balances.length = 0 then .ok []
  else if tb.enum = [0] then .ok (serializeBal tb.balances)
  else if tb.enum = [1] then .error .notImplemented
  else .error .unknownEnum

/-- TokenBalances.balance (state.py lines 120-121): 0 for absent tokens. -/
def TokenBalances.balance (tb : TokenBalances) (token_id : Nat) : Int :=
  (getk tb.balances token_id).getD 0

/-- TokenBalances.is_empty (state.py lines 123-124): true iff every value
in the dict is zero (explicit zero entries still count as empty). -/
def TokenBalances.is_empty (tb : TokenBalances) : Bool :=
  tb.balances.all (fun p => p.2 == 0)

/-! ### Auxiliary per-execution-context variables (STATE_DEFAULTS,
state.py lines 47-67)

Opaque external container values (log entries, receipts, cross-shard
messages, block headers, hashes, the cursor record) are modelled as
naturals; the claims never inspect their structure. -/

/-- The fixed set of auxiliary State variables with their defaults. -/
structure Aux where
  txindex : Int := 0
  gas_used : Int := 0
  xshard_receive_gas_used : Int := 0
  gas_limit : Int := 3141592
  block_number : Int := 0
  block_coinbase : List Nat := List.replicate 20 0
  block_difficulty : Int := 1
  block_fee : Int := 0
  timestamp : Int := 0
  logs : List Nat := []
  receipts : List Nat := []
  bloom : Int := 0
  suicides : List Nat := []
  recent_uncles : List (Nat × List Nat) := []
  prev_headers : List Nat := []
  refunds : Int := 0
  xshard_list : List Nat := []
  full_shard_key : Nat := 0
  xshard_tx_cursor_info : Option Nat := none
deriving DecidableEq

/-- Names of the auxiliary variables (the keys of STATE_DEFAULTS). -/
inductive AuxKey
  | txindex
  | gas_used
  | xshard_receive_gas_used
  | gas_limit
  | block_number
  | block_coinbase
  | block_difficulty
  | block_fee
  | timestamp
  | logs
  | receipts
  | bloom
  | suicides
  | recent_uncles
  | prev_headers
  | refunds
  | xshard_list
  | full_shard_key
  | xshard_tx_cursor_info
deriving DecidableEq

/-- Dynamically-typed value of an auxiliary variable (the variables have
heterogeneous Python types). -/
inductive AuxVal
  | vint (i : Int)
  | vnat (n : Nat)
  | vbytes (b : List Nat)
  | vlist (l : List Nat)
  | vuncles (u : List (Nat × List Nat))
  | vcursor (c : Option Nat)
deriving DecidableEq

/-- Read an auxiliary variable by name (getattr). -/
def getAux (k : AuxKey) (a : Aux) : AuxVal :=
  match k with
  | .txindex => .vint a.txindex
  | .gas_used => .vint a.gas_used
  | .xshard_receive_gas_used => .vint a.xshard_receive_gas_used
  | .gas_limit => .vint a.gas_limit
  | .block_number => .vint a.block_number
  | .block_coinbase => .vbytes a.block_coinbase
  | .block_difficulty => .vint a.block_difficulty
  | .block_fee => .vint a.block_fee
  | .timestamp => .vint a.timestamp
  | .logs => .vlist a.logs
  | .receipts => .vlist a.receipts
  | .bloom => .vint a.bloom
  | .suicides => .vlist a.suicides
  | .recent_uncles => .vuncles a.recent_uncles
  | .prev_headers => .vlist a.prev_headers
  | .refunds => .vint a.refunds
  | .xshard_list => .vlist a.xshard_list
  | .full_shard_key => .vnat a.full_shard_key
  | .xshard_tx_cursor_info => .vcursor a.xshard_tx_cursor_info

/-- Write an auxiliary variable by name (setattr).  Python is dynamically
typed; callers only ever store a value of the variable's own type, so a
variant-mismatched write (unreachable) is a no-op. -/
def setAux (k : AuxKey) (v : AuxVal) (a : Aux) : Aux :=
  match k, v with
  | .txindex, .vint i => { a with txindex := i }
  | .gas_used, .vint i => { a with gas_used := i }
  | .xshard_receive_gas_used, .vint i => { a with xshard_receive_gas_used := i }
  | .gas_limit, .vint i => { a with gas_limit := i }
  | .block_number, .vint i => { a with block_number := i }
  | .block_coinbase, .vbytes b => { a with block_coinbase := b }
  | .block_difficulty, .vint i => { a with block_difficulty := i }
  | .block_fee, .vint i => { a with block_fee := i }
  | .timestamp, .vint i => { a with timestamp := i }
  | .logs, .vlist l => { a with logs := l }
  | .receipts, .vlist l => { a with receipts := l }
  | .bloom, .vint i => { a with bloom := i }
  | .suicides, .vlist l => { a with suicides := l }
  | .recent_uncles, .vuncles u => { a with recent_uncles := u }
  | .prev_headers, .vlist l => { a with prev_headers := l }
  | .refunds, .vint i => { a with refunds := i }
  | .xshard_list, .vlist l => { a with xshard_list := l }
  | .full_shard_key, .vnat n => { a with full_shard_key := n }
  | .xshard_tx_cursor_info, .vcursor c => { a with xshard_tx_cursor_info := c }
  | _, _ => a

/-! ### Configuration constants consumed from Env/ShardConfig -/

/-- The configuration values the embedded operations read (env.config and
shard_config are external collaborators fixed for the life of a State). -/
structure Config where
  spurious_dragon_blknum : Int := 0
  account_initial_nonce : Int := 0
  default_chain_token : Nat := 0
  prev_header_depth : Nat := 256
deriving DecidableEq

/-! ### Account (state.py lines 70-78 and 127-236) -/

/-- Exact content of one account entry in the main trie: the rlp-encoded
_Account record (nonce, serialized token balances, storage trie root,
code hash, full shard key) — state.py lines 70-77.  Root hash and code
hash stand for the committed content (see header). -/
structure AccountRecord where
  nonce : Int
  token_balances : List Nat
  storage : List (Nat × Int)
  code_hash : List Nat
  full_shard_key : Nat
deriving DecidableEq

/-- In-memory account object (state.py lines 127-157): decoded balances,
storage trie plus write-through cache of storage slots, code, and the
lifecycle flags.  The token_balances format byte is invariantly b"\x00"
on this path (version 1 raises at decode time), so only the balances dict
is carried. -/
structure Account where
  nonce : Int
  balances : List (Nat × Int)
  storage_trie : List (Nat × Int)
  storage_cache : List (Nat × Int)
  code : List Nat
  full_shard_key : Nat
  touched : Bool
  existent_at_start : Bool
  deleted : Bool
deriving DecidableEq

/-- Decode a trie record into a cached Account (the Account constructor as
invoked from State.get_and_cache_account, state.py lines 300-310). -/
def Account.ofRecord (r : AccountRecord) : Account :=
  { nonce := r.nonce
    balances := decodeBal r.token_balances
    storage_trie := r.storage
    storage_cache := []
    code := r.code_hash
    full_shard_key := r.full_shard_key
    touched := false
    existent_at_start := true
    deleted := false }

/-- Account.blank_account (state.py lines 191-207): empty balances, blank
storage and code, existent_at_start cleared. -/
def Account.blank (full_shard_key : Nat) (initial_nonce : Int) : Account :=
  { nonce := initial_nonce
    balances := []
    storage_trie := []
    storage_cache := []
    code := []
    full_shard_key := full_shard_key
    touched := false
    existent_at_start := false
    deleted := false }

/-- Account.is_blank (state.py lines 209-214): zero nonce, empty token
balances (all-zero values count), blank code. -/
def Account.is_blank (a : Account) : Bool :=
  a.nonce == 0 && a.balances.all (fun p => p.2 == 0) && a.code == []

/-- Account.exists property (state.py lines 216-220). -/
def Account.exists_ (a : Account) : Bool :=
  if a.is_blank then a.touched || (a.existent_at_start && !a.deleted) else true

/-- Account.get_storage_data (state.py lines 180-186): serve from the
slot cache, else read the storage trie (0 when absent) and cache the
result; returns the value together with the possibly-extended account. -/
def Account.get_storage_data (a : Account) (key : Nat) : Int × Account :=
  match getk a.storage_cache key with
  | some v => (v, a)
  | none =>
      let v := (getk a.storage_trie key).getD 0
      (v, { a with storage_cache := setk a.storage_cache key v })

/-- Account.set_storage_data (state.py lines 188-189): cache-only write. -/
def Account.set_storage_data (a : Account) (key : Nat) (value : Int) : Account :=
  { a with storage_cache := setk a.storage_cache key value }

/-- Account.commit (state.py lines 159-166): flush the slot cache into
the storage trie — a zero value deletes the slot — then clear the cache
and refresh the root. -/
def Account.commit (a : Account) : Account :=
  let newTrie := a.storage_cache.foldl
    (fun tr p => if p.2 = 0 then popk tr p.1 else setk tr p.1 p.2) a.storage_trie
  { a with storage_cache := [], storage_trie := newTrie }

/-- Re-encode a committed account into its trie record (the _Account
construction in State.commit, state.py lines 560-566). -/
def Account.toRecord (a : Account) : AccountRecord :=
  { nonce := a.nonce
    token_balances := serializeBal a.balances
    storage := a.storage_trie
    code_hash := a.code
    full_shard_key := a.full_shard_key }

/-! ### State (state.py lines 240-714) -/

/-- Address b"\x00"*19 + b"\x03" (state.py line 35), subject of the
geth+parity compatibility carve-out in revert. -/
def THREE : Nat := 3

/-- One journal undo record.  The source journal holds closures (one
lambda per append site); each constructor here is the shallow embedding
of one such lambda, with the captured previous value stored explicitly.
The captured account object is identified by its cache address (between
commits the cache never evicts, so the address names the object). -/
inductive JEntry
  | touchedFlag (a : Nat) (pre : Bool)
  | nonceVal (a : Nat) (pre : Int)
  | codeVal (a : Nat) (pre : List Nat)
  | balancesMap (a : Nat) (pre : List (Nat × Int))
  | deletedFlag (a : Nat) (pre : Bool)
  | tokenPop (a : Nat) (t : Nat)
  | tokenSet (a : Nat) (t : Nat) (pre : Int)
  | storageSet (a : Nat) (k : Nat) (pre : Int)
  | suicidesPop
  | logsPop
  | receiptsPop
  | storageCacheRestore (a : Nat) (pre : List (Nat × Int))
  | storageRootRestore (a : Nat) (pre : List (Nat × Int))
  | auxParam (k : AuxKey) (pre : AuxVal)
  | refundsBroken
deriving DecidableEq

/-- The ledger-wide State: main trie (content ≡ root hash), account
cache, journal (stored newest-first; Python appends at the end and pops
from the end), auxiliary variables and configuration. -/
structure State where
  trie : List (Nat × AccountRecord)
  cache : List (Nat × Account)
  journal : List JEntry
  aux : Aux
  cfg : Config
deriving DecidableEq

/-- Snapshot (state.py lines 445-450): trie root, journal length, and a
shallow copy of every auxiliary variable. -/
structure Snapshot where
  root : List (Nat × AccountRecord)
  journal_len : Nat
  auxvars : Aux
deriving DecidableEq

/-- Fresh State over a blank root with all STATE_DEFAULTS
(State.__init__, state.py lines 241-265). -/
def State.mk0 (cfg : Config) : State :=
  { trie := [], cache := [], journal := [], aux := {}, cfg := cfg }

/-- State.get_and_cache_account (state.py lines 289-322): serve from the
cache, else decode the trie record, else build a blank account carrying
the current full_shard_key and the configured initial nonce; the loaded
account is inserted into the cache. -/
def State.get_and_cache_account (s : State) (address : Nat) : Account × State :=
  match getk s.cache address with
  | some o => (o, s)
  | none =>
    match getk s.trie address with
    | some r =>
        let o := Account.ofRecord r
        (o, { s with cache := setk s.cache address o })
    | none =>
        let o := Account.blank s.aux.full_shard_key s.cfg.account_initial_nonce
        (o, { s with cache := setk s.cache address o })

/-- State.get_balance (state.py lines 329-334) with the token id passed
explicitly (a None argument resolves to shard_config.default_chain_token
at the call site). -/
def State.get_balance (s : State) (address : Nat) (token_id : Nat) : Int × State :=
  let (a, s1) := s.get_and_cache_account address
  ((getk a.balances token_id).getD 0, s1)

/-- Update an already-cached account in place (the effect of mutating the
shared account object held by the cache).  A miss is a no-op: it models a
journal closure whose captured object is no longer reachable from the
State (possible only after the cache was discarded, when the closure's
effect is unobservable). -/
def State.updateCached (s : State) (address : Nat) (f : Account → Account) : State :=
  match getk s.cache address with
  | some o => { s with cache := setk s.cache address (f o) }
  | none => s

/-- Journal entries of set_and_journal(acct, "touched", v)
(state.py lines 347-351). -/
def State.jSetTouched (s : State) (address : Nat) (v : Bool) : State :=
  match getk s.cache address with
  | some o =>
    { s with
      cache := setk s.cache address { o with touched := v }
      journal := JEntry.touchedFlag address o.touched :: s.journal }
  | none => s

/-- Journal entries of set_and_journal(acct, "nonce", v). -/
def State.jSetNonce (s : State) (address : Nat) (v : Int) : State :=
  match getk s.cache address with
  | some o =>
    { s with
      cache := setk s.cache address { o with nonce := v }
      journal := JEntry.nonceVal address o.nonce :: s.journal }
  | none => s

/-- Journal entries of set_and_journal(acct, "code", v); the recorded
previous value is acct.code, i.e. the code bytes themselves. -/
def State.jSetCode (s : State) (address : Nat) (v : List Nat) : State :=
  match getk s.cache address with
  | some o =>
    { s with
      cache := setk s.cache address { o with code := v }
      journal := JEntry.codeVal address o.code :: s.journal }
  | none => s

/-- Journal entries of set_and_journal(acct.token_balances, "balances", v). -/
def State.jSetBalances (s : State) (address : Nat) (v : List (Nat × Int)) : State :=
  match getk s.cache address with
  | some o =>
    { s with
      cache := setk s.cache address { o with balances := v }
      journal := JEntry.balancesMap address o.balances :: s.journal }
  | none => s

/-- Journal entries of set_and_journal(acct, "deleted", v). -/
def State.jSetDeleted (s : State) (address : Nat) (v : Bool) : State :=
  match getk s.cache address with
  | some o =>
    { s with
      cache := setk s.cache address { o with deleted := v }
      journal := JEntry.deletedFlag address o.deleted :: s.journal }
  | none => s

/-- State.set_balances (state.py lines 353-359): replace the whole
balances dict unless it already equals the argument; always touch. -/
def State.set_balances (s : State) (address : Nat) (token_balances : List (Nat × Int)) : State :=
  let (acct, s1) := s.get_and_cache_account address
  if dictEq acct.balances token_balances then
    s1.jSetTouched address true
  else
    (s1.jSetBalances address token_balances).jSetTouched address true

/-- State.set_code (state.py lines 361-365). -/
def State.set_code (s : State) (address : Nat) (value : List Nat) : State :=
  let (_, s1) := s.get_and_cache_account address
  (s1.jSetCode address value).jSetTouched address true

/-- State.set_nonce (state.py lines 367-370). -/
def State.set_nonce (s : State) (address : Nat) (value : Int) : State :=
  let (_, s1) := s.get_and_cache_account address
  (s1.jSetNonce address value).jSetTouched address true

/-- State._set_token_balance_and_journal (state.py lines 385-395): write
one token balance, journaling either a pop (token was absent, so revert
erases it) or a restore of the previous value. -/
def State.set_token_balance_and_journal (s : State) (address token_id : Nat) (val : Int) : State :=
  match getk s.cache address with
  | some acct =>
    let e := match getk acct.balances token_id with
      | none => JEntry.tokenPop address token_id
      | some preval => JEntry.tokenSet address token_id preval
    { s with
      cache := setk s.cache address { acct with balances := setk acct.balances token_id val }
      journal := e :: s.journal }
  | none => s

/-- State.set_token_balance (state.py lines 372-378): a write of the
current value only touches; otherwise write and journal, then touch. -/
def State.set_token_balance (s : State) (address token_id : Nat) (val : Int) : State :=
  let (acct, s1) := s.get_and_cache_account address
  if val = (getk acct.balances token_id).getD 0 then
    s1.jSetTouched address true
  else
    (s1.set_token_balance_and_journal address token_id val).jSetTouched address true

/-- State.set_balance (state.py lines 380-383): default-token write. -/
def State.set_balance (s : State) (address : Nat) (val : Int) : State :=
  s.set_token_balance address s.cfg.default_chain_token val

/-- State.delta_token_balance (state.py lines 397-405): a zero delta only
touches; otherwise write old+delta and journal, then touch. -/
def State.delta_token_balance (s : State) (address token_id : Nat) (value : Int) : State :=
  let (acct, s1) := s.get_and_cache_account address
  if value = 0 then
    s1.jSetTouched address true
  else
    let newbal := (getk acct.balances token_id).getD 0 + value
    (s1.set_token_balance_and_journal address token_id newbal).jSetTouched address true

/-- State.increment_nonce (state.py lines 407-412). -/
def State.increment_nonce (s : State) (address : Nat) : State :=
  let (acct, s1) := s.get_and_cache_account address
  (s1.jSetNonce address (acct.nonce + 1)).jSetTouched address true

/-- State.get_storage_data (state.py lines 414-417); the read extends the
account's slot cache. -/
def State.get_storage_data (s : State) (address key : Nat) : Int × State :=
  let (acct, s1) := s.get_and_cache_account address
  let (v, acct1) := acct.get_storage_data key
  (v, { s1 with cache := setk s1.cache address acct1 })

/-- State.set_storage_data (state.py lines 419-424): read the previous
value (caching it), write the slot cache, journal the restore, touch. -/
def State.set_storage_data (s : State) (address key : Nat) (value : Int) : State :=
  let (acct, s1) := s.get_and_cache_account address
  let (preval, acct1) := acct.get_storage_data key
  let acct2 := acct1.set_storage_data key value
  let s2 :=
    { s1 with
      cache := setk s1.cache address acct2
      journal := JEntry.storageSet address key preval :: s1.journal }
  s2.jSetTouched address true

/-- State.add_suicide (state.py lines 426-428). -/
def State.add_suicide (s : State) (address : Nat) : State :=
  { s with
    aux := { s.aux with suicides := s.aux.suicides ++ [address] }
    journal := JEntry.suicidesPop :: s.journal }

/-- State.add_log (state.py lines 430-434); log listeners are external
observers and not modelled. -/
def State.add_log (s : State) (log : Nat) : State :=
  { s with
    aux := { s.aux with logs := s.aux.logs ++ [log] }
    journal := JEntry.logsPop :: s.journal }

/-- State.add_receipt (state.py lines 436-438). -/
def State.add_receipt (s : State) (receipt : Nat) : State :=
  { s with
    aux := { s.aux with receipts := s.aux.receipts ++ [receipt] }
    journal := JEntry.receiptsPop :: s.journal }

/-- State.add_refund (state.py lines 440-443).  The journaled lambda
setattr(self.refunds, preval) is malformed (two-argument setattr) and
raises at replay time, where revert catches and skips it — hence the
inert undo record. -/
def State.add_refund (s : State) (value : Int) : State :=
  { s with
    aux := { s.aux with refunds := s.aux.refunds + value }
    journal := JEntry.refundsBroken :: s.journal }

/-- State.set_param (state.py lines 473-476): generic journaled write of
an auxiliary variable. -/
def State.set_param (s : State) (k : AuxKey) (v : AuxVal) : State :=
  { s with
    aux := setAux k v s.aux
    journal := JEntry.auxParam k (getAux k s.aux) :: s.journal }

/-- State.snapshot (state.py lines 445-450). -/
def State.snapshot (s : State) : Snapshot :=
  { root := s.trie, journal_len := s.journal.length, auxvars := s.aux }

/-- Replay one journal undo record (the invocation of one popped closure
inside revert's loop; a failing closure is caught there, so failure is
modelled as the identity, see JEntry.refundsBroken and updateCached). -/
def applyUndo (e : JEntry) (s : State) : State :=
  match e with
  | .touchedFlag a pre => s.updateCached a (fun o => { o with touched := pre })
  | .nonceVal a pre => s.updateCached a (fun o => { o with nonce := pre })
  | .codeVal a pre => s.updateCached a (fun o => { o with code := pre })
  | .balancesMap a pre => s.updateCached a (fun o => { o with balances := pre })
  | .deletedFlag a pre => s.updateCached a (fun o => { o with deleted := pre })
  | .tokenPop a t => s.updateCached a (fun o => { o with balances := popk o.balances t })
  | .tokenSet a t pre => s.updateCached a (fun o => { o with balances := setk o.balances t pre })
  | .storageSet a k pre => s.updateCached a (fun o => o.set_storage_data k pre)
  | .suicidesPop => { s with aux := { s.aux with suicides := s.aux.suicides.dropLast } }
  | .logsPop => { s with aux := { s.aux with logs := s.aux.logs.dropLast } }
  | .receiptsPop => { s with aux := { s.aux with receipts := s.aux.receipts.dropLast } }
  | .storageCacheRestore a pre => s.updateCached a (fun o => { o with storage_cache := pre })
  | .storageRootRestore a pre => s.updateCached a (fun o => { o with storage_trie := pre })
  | .auxParam k pre => { s with aux := setAux k pre s.aux }
  | .refundsBroken => s

/-- Replay a list of undo records in order (the records are stored
newest-first, so this is the source's LIFO pop loop). -/
def replayJournal : List JEntry → State → State
  | [], s => s
  | e :: es, s => replayJournal es (applyUndo e s)

/-- Final step of revert (state.py lines 468-471): the geth+parity
compatibility carve-out re-touches address THREE via a zero delta when it
was touched before the replay and the restored block number lies strictly
inside (2675000, 2675200). -/
def State.revertTail (three_touched : Bool) (s : State) : State :=
  if three_touched ∧ 2675000 < s.aux.block_number ∧ s.aux.block_number < 2675200 then
    s.delta_token_balance THREE s.cfg.default_chain_token 0
  else s

/-- State.revert (state.py lines 452-471): capture THREE's touched flag,
pop and invoke journal entries down to the snapshot length, roll back the
trie root (legal only when the snapshot's journal length was zero —
the assert; its failure is modelled as none) discarding the whole cache,
restore the auxiliary variables wholesale, and apply the carve-out.
Since applyUndo never reads or writes the journal, popping entries one at
a time equals replaying the taken prefix and dropping it at once. -/
def State.revert (s : State) (snap : Snapshot) : Option State :=
  let three_touched := match getk s.cache THREE with
    | some o => o.touched
    | none => false
  let n := s.journal.length - snap.journal_len
  let s1 := { replayJournal (s.journal.take n) s with journal := s.journal.drop n }
  if snap.root = s1.trie then
    some (State.revertTail three_touched { s1 with aux := snap.auxvars })
  else if snap.journal_len = 0 then
    some (State.revertTail three_touched
      { s1 with trie := snap.root, cache := [], aux := snap.auxvars })
  else none

/-- State.is_SPURIOUS_DRAGON (state.py lines 508-512). -/
def State.is_SPURIOUS_DRAGON (s : State) (at_fork_height : Bool := false) : Bool :=
  if at_fork_height then s.aux.block_number == s.cfg.spurious_dragon_blknum
  else decide (s.cfg.spurious_dragon_blknum ≤ s.aux.block_number)

/-- State.account_exists (state.py lines 520-533): from Spurious Dragon
onward existence is "not blank"; before it, the touched/deleted/
existent-at-start flags decide. -/
def State.account_exists (s : State) (address : Nat) : Bool × State :=
  if s.is_SPURIOUS_DRAGON then
    let (a, s1) := s.get_and_cache_account address
    (!a.is_blank, s1)
  else
    let (a, s1) := s.get_and_cache_account address
    if a.deleted && !a.touched then (false, s1)
    else if a.touched then (true, s1)
    else (a.existent_at_start, s1)

/-- State.transfer_value (state.py lines 535-541): assert value >= 0
(violation modelled as none); on sufficient balance debit the sender and
credit the receiver and return True, else return False untouched. -/
def State.transfer_value (s : State) (from_addr to_addr token_id : Nat) (value : Int) :
    Option (Bool × State) :=
  if value < 0 then none
  else
    let (bal, s1) := s.get_balance from_addr token_id
    if value ≤ bal then
      let s2 := s1.delta_token_balance from_addr token_id (-value)
      let s3 := s2.delta_token_balance to_addr token_id value
      some (true, s3)
    else some (false, s1)

/-- State.deduct_value (state.py lines 543-548): like transfer_value but
credits nowhere. -/
def State.deduct_value (s : State) (from_addr token_id : Nat) (value : Int) :
    Option (Bool × State) :=
  if value < 0 then none
  else
    let (bal, s1) := s.get_balance from_addr token_id
    if value ≤ bal then
      some (true, s1.delta_token_balance from_addr token_id (-value))
    else some (false, s1)

/-- Existence test applied by commit to a just-storage-committed cached
account (State.account_exists inlined on its cache hit). -/
def existsAfterCommit (cfg : Config) (bn : Int) (a : Account) : Bool :=
  if cfg.spurious_dragon_blknum ≤ bn then !a.is_blank
  else if a.deleted && !a.touched then false
  else if a.touched then true
  else a.existent_at_start

/-- State.commit (state.py lines 553-580): for every cached account that
is touched or deleted, flush its storage, then insert/update its record
if it still exists (or empties are forced), else delete its trie entry;
finally clear the cache and the journal.  The deleted-node accounting and
the executing_on_head db mirror are external-store bookkeeping (header
note). -/
def State.commit (s : State) (allow_empties : Bool := false) : State :=
  let tr := s.cache.foldl (fun tr p =>
    if p.2.touched || p.2.deleted then
      let acct1 := p.2.commit
      if existsAfterCommit s.cfg s.aux.block_number acct1 || allow_empties then
        setk tr p.1 acct1.toRecord
      else popk tr p.1
    else tr) s.trie
  { s with trie := tr, cache := [], journal := [] }

/-- State.reset_storage (state.py lines 604-611): blank the slot cache
and the storage root, journaling restores for both (cache first, root
second, so the root is replayed first). -/
def State.reset_storage (s : State) (address : Nat) : State :=
  let (acct, s1) := s.get_and_cache_account address
  { s1 with
    cache := setk s1.cache address { acct with storage_cache := [], storage_trie := [] }
    journal := JEntry.storageRootRestore address acct.storage_trie
      :: JEntry.storageCacheRestore address acct.storage_cache :: s1.journal }

/-- State.del_account (state.py lines 587-602): empty balances, zero
nonce, blank code, reset storage, then set deleted and clear touched
(both journaled). -/
def State.del_account (s : State) (address : Nat) : State :=
  let s1 := s.set_balances address []
  let s2 := s1.set_nonce address 0
  let s3 := s2.set_code address []
  let s4 := s3.reset_storage address
  (s4.jSetDeleted address true).jSetTouched address false

/-! ### Snapshot serialization (state.py lines 582-585 and 613-698)

The portable text encodings are invertible transport (decimal strings for
ints, hex for byte strings, one record per header); they are modelled by
carrying the values themselves, absent fields by none. -/

/-- One account's entry in a full snapshot dump (Account.to_dict output /
from_snapshot alloc input, state.py lines 222-236 and 648-666). -/
structure AccountDump where
  token_balances : Option (List (Nat × Int)) := none
  wei : Option (List (Nat × Int)) := none
  code : Option (List Nat) := none
  nonce : Option Int := none
  storage : Option (List (Nat × Int)) := none
deriving DecidableEq

/-- Account.to_dict (state.py lines 222-236): dump balances, nonce, code,
and the storage trie overridden by the slot cache (cache entries keep
explicit zeros; the lstripped hex keys of trie and cache coincide, and
the cache entry, inserted later, wins in the final comprehension). -/
def Account.to_dict (a : Account) : AccountDump :=
  { token_balances := some a.balances
    wei := none
    code := some a.code
    nonce := some a.nonce
    storage := some (a.storage_cache.foldl (fun od p => setk od p.1 p.2) a.storage_trie) }

/-- State.to_dict (state.py lines 582-585): load every account listed in
the trie into the cache, then dump every cached account (accounts cached
but absent from the trie are dumped too).  Returns the dump together with
the cache-extended state. -/
def State.to_dict (s : State) : List (Nat × AccountDump) × State :=
  let s1 := (keysOf s.trie).foldl (fun st a => (st.get_and_cache_account a).2) s
  (s1.cache.map (fun p => (p.1, p.2.to_dict)), s1)

/-- The auxiliary variables as saved in a snapshot (to_snapshot's
per-type encoding, state.py lines 623-640): numeric and byte-string
variables are always saved; prev_headers (truncated to PREV_HEADER_DEPTH)
and recent_uncles only when prev-blocks are not suppressed.  The
list-valued variables (logs, receipts, suicides, xshard_list) and the
cursor have no branch in either loop and are never transported. -/
structure AuxDump where
  txindex : Option Int := none
  gas_used : Option Int := none
  xshard_receive_gas_used : Option Int := none
  gas_limit : Option Int := none
  block_number : Option Int := none
  block_coinbase : Option (List Nat) := none
  block_difficulty : Option Int := none
  block_fee : Option Int := none
  timestamp : Option Int := none
  bloom : Option Int := none
  refunds : Option Int := none
  full_shard_key : Option Nat := none
  prev_headers : Option (List Nat) := none
  recent_uncles : Option (List (Nat × List Nat)) := none
deriving DecidableEq

/-- A portable State snapshot (to_snapshot output / from_snapshot input):
either a full account dump or a bare state root, plus the saved
auxiliary variables. -/
structure SnapshotDump where
  alloc : Option (List (Nat × AccountDump)) := none
  state_root : Option (List (Nat × AccountRecord)) := none
  vars : AuxDump := {}
deriving DecidableEq

/-- The auxiliary-variable part of to_snapshot (state.py lines 623-640). -/
def dumpAuxVars (s : State) (no_prevblocks : Bool) : AuxDump :=
  { txindex := some s.aux.txindex
    gas_used := some s.aux.gas_used
    xshard_receive_gas_used := some s.aux.xshard_receive_gas_used
    gas_limit := some s.aux.gas_limit
    block_number := some s.aux.block_number
    block_coinbase := some s.aux.block_coinbase
    block_difficulty := some s.aux.block_difficulty
    block_fee := some s.aux.block_fee
    timestamp := some s.aux.timestamp
    bloom := some s.aux.bloom
    refunds := some s.aux.refunds
    full_shard_key := some s.aux.full_shard_key
    prev_headers := if no_prevblocks then none
      else some (s.aux.prev_headers.take s.cfg.prev_header_depth)
    recent_uncles := if no_prevblocks then none else some s.aux.recent_uncles }

/-- State.to_snapshot (state.py lines 614-641); returns the dump and the
cache-extended state (to_dict loads every trie account). -/
def State.to_snapshot (s : State) (root_only : Bool := false) (no_prevblocks : Bool := false) :
    SnapshotDump × State :=
  if root_only then
    ({ state_root := some s.trie, vars := dumpAuxVars s no_prevblocks }, s)
  else
    let (alloc, s1) := s.to_dict
    ({ alloc := some alloc, vars := dumpAuxVars s no_prevblocks }, s1)

/-- Restoration of the auxiliary variables by from_snapshot (state.py
lines 671-693): saved fields are parsed back, absent fields get their
STATE_DEFAULTS value; the never-transported list variables and the
cursor keep their defaults. -/
def AuxDump.restore (v : AuxDump) : Aux :=
  { txindex := v.txindex.getD 0
    gas_used := v.gas_used.getD 0
    xshard_receive_gas_used := v.xshard_receive_gas_used.getD 0
    gas_limit := v.gas_limit.getD 3141592
    block_number := v.block_number.getD 0
    block_coinbase := v.block_coinbase.getD (List.replicate 20 0)
    block_difficulty := v.block_difficulty.getD 1
    block_fee := v.block_fee.getD 0
    timestamp := v.timestamp.getD 0
    logs := []
    receipts := []
    bloom := v.bloom.getD 0
    suicides := []
    recent_uncles := v.recent_uncles.getD []
    prev_headers := v.prev_headers.getD []
    refunds := v.refunds.getD 0
    xshard_list := []
    full_shard_key := v.full_shard_key.getD 0
    xshard_tx_cursor_info := none }

/-- Application of one alloc entry by from_snapshot (state.py lines
648-666): wei, then token_balances, then code, then nonce, then the
storage slots in dump order, through the normal mutators. -/
def applyAccountDump (st : State) (addr : Nat) (dmp : AccountDump) : State :=
  let st := match dmp.wei with
    | some w => st.set_balances addr w
    | none => st
  let st := match dmp.token_balances with
    | some tb => st.set_balances addr tb
    | none => st
  let st := match dmp.code with
    | some c => st.set_code addr c
    | none => st
  let st := match dmp.nonce with
    | some n => st.set_nonce addr n
    | none => st
  match dmp.storage with
  | some slots => slots.foldl (fun st2 kv => st2.set_storage_data addr kv.1 kv.2) st
  | none => st

/-- State.from_snapshot (state.py lines 644-698): build a fresh State,
apply the alloc through the normal mutators (or install the bare root),
restore the auxiliary variables, then commit once.  A snapshot carrying
neither alloc nor state root raises (modelled as none). -/
def State.from_snapshot (d : SnapshotDump) (cfg : Config) : Option State :=
  let state0 := State.mk0 cfg
  match d.alloc with
  | some alloc =>
      let st1 := alloc.foldl (fun st p => applyAccountDump st p.1 p.2) state0
      some ({ st1 with aux := d.vars.restore }).commit
  | none =>
    match d.state_root with
    | some r => some ({ state0 with trie := r, aux := d.vars.restore }).commit
    | none => none

/-! ### Observables

The observable queries of a State at one address: what the read accessors
(get_nonce, get_code, get_balance, get_storage_data and the lifecycle
flags) would answer, without the cache-extension bookkeeping. -/

/-- The account as the readers see it: the cached object, else the
decoded trie record, else a fresh blank account. -/
def loadView (s : State) (address : Nat) : Account :=
  match getk s.cache address with
  | some o => o
  | none =>
    match getk s.trie address with
    | some r => Account.ofRecord r
    | none => Account.blank s.aux.full_shard_key s.cfg.account_initial_nonce

/-- Observable nonce of an address. -/
def nonceObs (s : State) (a : Nat) : Int := (loadView s a).nonce

/-- Observable code of an address. -/
def codeObs (s : State) (a : Nat) : List Nat := (loadView s a).code

/-- Observable touched flag of an address. -/
def touchedObs (s : State) (a : Nat) : Bool := (loadView s a).touched

/-- Observable deleted flag of an address. -/
def deletedObs (s : State) (a : Nat) : Bool := (loadView s a).deleted

/-- Observable balance of an address for one token. -/
def balanceObs (s : State) (a : Nat) (t : Nat) : Int :=
  (getk (loadView s a).balances t).getD 0

/-- Observable storage slot value of an address. -/
def storageObs (s : State) (a : Nat) (k : Nat) : Int :=
  let o := loadView s a
  match getk o.storage_cache k with
  | some v => v
  | none => (getk o.storage_trie k).getD 0

/-- Observational equivalence of two States: identical auxiliary
variables, trie, and per-address observables. -/
def ObsEq (s1 s2 : State) : Prop :=
  s1.aux = s2.aux ∧ s1.trie = s2.trie ∧
  ∀ a, nonceObs s1 a = nonceObs s2 a ∧ codeObs s1 a = codeObs s2 a ∧
    touchedObs s1 a = touchedObs s2 a ∧ deletedObs s1 a = deletedObs s2 a ∧
    (∀ t, balanceObs s1 a t = balanceObs s2 a t) ∧
    (∀ k, storageObs s1 a k = storageObs s2 a k)

/-! ### Lemma toolkit for the State operations -/

/-- The state effect of get_and_cache_account: identity on a cache hit,
else loadView is inserted. -/
def cacheFill (s : State) (a : Nat) : State :=
  match getk s.cache a with
  | some _ => s
  | none => { s with cache := setk s.cache a (loadView s a) }

/-- The storage value an account answers for a slot: the cached value,
else the storage-trie value (0 when absent). -/
def storageView (o : Account) (k : Nat) : Int :=
  match getk o.storage_cache k with
  | some w => w
  | none => (getk o.storage_trie k).getD 0

/-- A committed state whose trie holds one blank account record (as a
pre-fork commit with allow_empties could have produced). -/
def blankRecordState : State :=
  { trie := [(5, { nonce := 0, token_balances := [], storage := [], code_hash := []
                   full_shard_key := 0 })]
    cache := []
    journal := []
    aux := {}
    cfg := {} }

/-- A state with THREE touched in the cache and one journal entry, whose
snapshot carries a different (empty) root, zero journal length, and a
block number inside the carve-out window. -/
def revertCexState : State :=
  { trie := [(1, { nonce := 1, token_balances := [], storage := [], code_hash := []
                   full_shard_key := 0 })]
    cache := [(THREE, { Account.blank 0 0 with touched := true })]
    journal := [JEntry.touchedFlag THREE false]
    aux := { block_number := 2675100 }
    cfg := {} }

/-- The snapshot revertCexState is reverted to. -/
def revertCexSnap : Snapshot :=
  { root := [], journal_len := 0, auxvars := { block_number := 2675100 } }

/-- The account from_snapshot rebuilds for one dumped trie record: the
record's content under the rebuilding state's full_shard_key, storage
still in the slot cache, freshly created (not existent at start) and
touched by every applied mutator. -/
def rebuiltAccount (fsk : Nat) (r : AccountRecord) : Account :=
  { nonce := r.nonce
    balances := decodeBal r.token_balances
    storage_trie := []
    storage_cache := r.storage
    code := r.code_hash
    full_shard_key := fsk
    touched := true
    existent_at_start := false
    deleted := false }

/-- The per-account body of the cache fold in State.commit (state.py
lines 555-576), as a named function. -/
def commitStep (cfg : Config) (bn : Int) (ae : Bool)
    (tr : List (Nat × AccountRecord)) (q : Nat × Account) : List (Nat × AccountRecord) :=
  if q.2.touched || q.2.deleted then
    let acct1 := q.2.commit
    if existsAfterCommit cfg bn acct1 || ae then setk tr q.1 acct1.toRecord
    else popk tr q.1
  else tr

/-- A state whose trie records are canonical for the snapshot codec:
full_shard_key 0, canonical token-balance bytes, duplicate-free nonzero
storage, non-blank content. -/
def wSnapRec : AccountRecord :=
  { nonce := 1, token_balances := serializeBal [(1, 5)], storage := [(2, 3)], code_hash := [7], full_shard_key := 0 }

def wSnapState : State :=
  { trie := [(5, wSnapRec)]
    cache := []
    journal := []
    aux := {}
    cfg := {} }

/-- A state with a single trie record carrying full_shard_key 1: the
snapshot dump does not transport the key, so the round trip rebuilds the
record with the restoring state's key instead. -/
def cexSnapRec : AccountRecord :=
  { nonce := 1, token_balances := serializeBal [(1, 5)], storage := [], code_hash := [], full_shard_key := 1 }

def cexSnapState : State :=
  { trie := [(5, cexSnapRec)]
    cache := []
    journal := []
    aux := {}
    cfg := {} }

/-! ### The mutator sequences quantified over by the revert law -/

/-- One mutator call (the operations listed by the revert invariant,
each embedding the State method of the same name). -/
inductive Mutation
  | set_nonce (a : Nat) (v : Int)
  | set_code (a : Nat) (c : List Nat)
  | set_balances (a : Nat) (m : List (Nat × Int))
  | set_token_balance (a t : Nat) (v : Int)
  | delta_token_balance (a t : Nat) (v : Int)
  | increment_nonce (a : Nat)
  | set_storage_data (a k : Nat) (v : Int)
  | add_suicide (a : Nat)
  | add_log (l : Nat)
  | add_receipt (r : Nat)
  | set_param (k : AuxKey) (v : AuxVal)

def applyMutation (m : Mutation) (s : State) : State :=
  match m with
  | .set_nonce a v => s.set_nonce a v
  | .set_code a c => s.set_code a c
  | .set_balances a m' => s.set_balances a m'
  | .set_token_balance a t v => s.set_token_balance a t v
  | .delta_token_balance a t v => s.delta_token_balance a t v
  | .increment_nonce a => s.increment_nonce a
  | .set_storage_data a k v => s.set_storage_data a k v
  | .add_suicide a => s.add_suicide a
  | .add_log l => s.add_log l
  | .add_receipt r => s.add_receipt r
  | .set_param k v => s.set_param k v

def applyMutations : List Mutation → State → State
  | [], s => s
  | m :: M, s => applyMutations M (applyMutation m s)

/-- The journal entries a mutator call pushes (newest first) when run on
state s. -/
def mutJournal (m : Mutation) (s : State) : List JEntry :=
  match m with
  | .set_nonce a _ =>
      [.touchedFlag a (loadView s a).touched, .nonceVal a (loadView s a).nonce]
  | .set_code a _ =>
      [.touchedFlag a (loadView s a).touched, .codeVal a (loadView s a).code]
  | .set_balances a m' =>
      if dictEq (loadView s a).balances m' then [.touchedFlag a (loadView s a).touched]
      else [.touchedFlag a (loadView s a).touched, .balancesMap a (loadView s a).balances]
  | .set_token_balance a t v =>
      if v = (getk (loadView s a).balances t).getD 0 then
        [.touchedFlag a (loadView s a).touched]
      else
        [.touchedFlag a (loadView s a).touched,
         match getk (loadView s a).balances t with
         | none => .tokenPop a t
         | some pre => .tokenSet a t pre]
  | .delta_token_balance a t v =>
      if v = 0 then [.touchedFlag a (loadView s a).touched]
      else
        [.touchedFlag a (loadView s a).touched,
         match getk (loadView s a).balances t with
         | none => .tokenPop a t
         | some pre => .tokenSet a t pre]
  | .increment_nonce a =>
      [.touchedFlag a (loadView s a).touched, .nonceVal a (loadView s a).nonce]
  | .set_storage_data a k _ =>
      [.touchedFlag a (loadView s a).touched, .storageSet a k (storageView (loadView s a) k)]
  | .add_suicide _ => [.suicidesPop]
  | .add_log _ => [.logsPop]
  | .add_receipt _ => [.receiptsPop]
  | .set_param k _ => [.auxParam k (getAux k s.aux)]

/-- Account equivalence on the observable components: equal fields
except the storage slot cache, which only has to answer every slot query
identically. -/
def AccEquiv (o1 o2 : Account) : Prop :=
  o1.nonce = o2.nonce ∧ o1.balances = o2.balances ∧ o1.code = o2.code ∧
  o1.touched = o2.touched ∧ o1.deleted = o2.deleted ∧
  ∀ k, storageView o1 k = storageView o2 k

/-- The undo-replay invariant relating a state u back to the reference
state t: equal trie, configuration and auxiliary variables, every address
cached in t still cached in u, and every address view equivalent. -/
def RevRel (t u : State) : Prop :=
  u.trie = t.trie ∧ u.cfg = t.cfg ∧ u.aux = t.aux ∧
  ∀ x, (getk t.cache x ≠ none → getk u.cache x ≠ none) ∧
    AccEquiv (loadView u x) (loadView t x)

/-- A state whose restored block number lands inside the geth+parity
carve-out window, so revert re-touches address THREE. -/
def cexRevState : State :=
  { trie := []
    cache := []
    journal := []
    aux := { block_number := 2675100 }
    cfg := {} }

/-! ### Theorems -/

namespace AssocLemmas

theorem getk_setk_self {α : Type} (l : List (Nat × α)) (k : Nat) (v : α) :
    getk (setk l k v) k = some v := by
  induction l with
  | nil => simp [setk, getk]
  | cons p t ih =>
    by_cases h : p.1 = k
    · simp [setk, getk, h]
    · simp [setk, getk, h, ih]

theorem getk_setk_ne {α : Type} (l : List (Nat × α)) (k k' : Nat) (v : α)
    (hne : k' ≠ k) : getk (setk l k v) k' = getk l k' := by
  induction l with
  | nil => simp [setk, getk, Ne.symm hne]
  | cons p t ih =>
    by_cases h : p.1 = k
    · simp [setk, getk, h, Ne.symm hne]
    · by_cases h' : p.1 = k'
      · rw [setk, if_neg h, getk, if_pos h', getk, if_pos h']
      · rw [setk, if_neg h, getk, if_neg h', getk, if_neg h']
        exact ih

theorem setk_new {α : Type} (l : List (Nat × α)) (k : Nat) (v : α)
    (h : getk l k = none) : setk l k v = l ++ [(k, v)] := by
  induction l with
  | nil => simp [setk]
  | cons p t ih =>
    by_cases hp : p.1 = k
    · simp [getk, hp] at h
    · simp only [getk, hp, if_neg, not_false_iff] at h
      simp [setk, hp, ih h]

theorem popk_append_new {α : Type} (l : List (Nat × α)) (k : Nat) (v : α)
    (h : getk l k = none) : popk (l ++ [(k, v)]) k = l := by
  induction l with
  | nil => simp [popk, List.filter]
  | cons p t ih =>
    by_cases hp : p.1 = k
    · simp [getk, hp] at h
    · simp only [getk, hp, if_neg, not_false_iff] at h
      simp only [popk, List.cons_append, List.filter]
      have : (p.1 != k) = true := by simpa using hp
      rw [this]
      have := ih h
      simp only [popk] at this
      simp [this]

theorem popk_setk_new {α : Type} (l : List (Nat × α)) (k : Nat) (v : α)
    (h : getk l k = none) : popk (setk l k v) k = l := by
  rw [setk_new l k v h, popk_append_new l k v h]

theorem setk_setk_restore {α : Type} (l : List (Nat × α)) (k : Nat) (v v0 : α)
    (h : getk l k = some v0) : setk (setk l k v) k v0 = l := by
  induction l with
  | nil => simp [getk] at h
  | cons p t ih =>
    by_cases hp : p.1 = k
    · simp only [getk, hp, if_pos, Option.some.injEq] at h
      have hpe : p = (k, v0) := by
        cases p; simp_all
      simp [setk, hp, hpe]
    · simp only [getk, hp, if_neg, not_false_iff] at h
      simp [setk, hp, ih h]

theorem keysOf_setk {α : Type} (l : List (Nat × α)) (k : Nat) (v : α) :
    keysOf (setk l k v) = if k ∈ keysOf l then keysOf l else keysOf l ++ [k] := by
  induction l with
  | nil => simp [setk, keysOf]
  | cons p t ih =>
    by_cases hp : p.1 = k
    · simp [setk, keysOf, hp]
    · rw [setk, if_neg hp]
      show p.1 :: keysOf (setk t k v) = _
      rw [ih]
      by_cases ht : k ∈ keysOf t
      · have : k ∈ keysOf (p :: t) := by
          unfold keysOf at ht ⊢
          simpa using Or.inr ht
        simp only [ht, if_pos, this]
        rfl
      · have : k ∉ keysOf (p :: t) := by
          unfold keysOf at ht ⊢
          simp only [List.map_cons, List.mem_cons, not_or]
          exact ⟨fun h => hp h.symm, ht⟩
        simp only [ht, if_neg, not_false_iff, this]
        rfl

theorem keysNodup_setk {α : Type} (l : List (Nat × α)) (k : Nat) (v : α)
    (h : KeysNodup l) : KeysNodup (setk l k v) := by
  unfold KeysNodup
  rw [keysOf_setk]
  by_cases hm : k ∈ keysOf l
  · simpa [hm] using h
  · simp only [hm, if_neg, not_false_iff]
    rw [List.nodup_append]
    refine ⟨h, List.nodup_singleton k, ?_⟩
    intro a ha hb
    simp only [List.mem_singleton] at hb
    subst hb
    exact hm ha

theorem getk_eq_none_iff {α : Type} (l : List (Nat × α)) (k : Nat) :
    getk l k = none ↔ k ∉ keysOf l := by
  induction l with
  | nil => simp [getk, keysOf]
  | cons p t ih =>
    by_cases hp : p.1 = k
    · simp [getk, keysOf, hp]
    · simp [getk, keysOf, hp, ih, Ne.symm hp]

theorem getk_mem {α : Type} {l : List (Nat × α)} {k : Nat} {v : α}
    (h : getk l k = some v) : (k, v) ∈ l := by
  induction l with
  | nil => simp [getk] at h
  | cons p t ih =>
    by_cases hp : p.1 = k
    · simp only [getk, hp, if_pos, Option.some.injEq] at h
      cases p
      simp_all
    · simp only [getk, hp, if_neg, not_false_iff] at h
      exact List.mem_cons_of_mem _ (ih h)

theorem mem_getk {α : Type} {l : List (Nat × α)} {k : Nat} {v : α}
    (hnd : KeysNodup l) (h : (k, v) ∈ l) : getk l k = some v := by
  induction l with
  | nil => simp at h
  | cons p t ih =>
    unfold KeysNodup keysOf at hnd
    simp only [List.map_cons, List.nodup_cons] at hnd
    rcases List.mem_cons.mp h with h1 | h1
    · rw [← h1]
      simp [getk]
    · by_cases hp : p.1 = k
      · exfalso
        apply hnd.1
        rw [hp]
        exact List.mem_map.mpr ⟨(k, v), h1, rfl⟩
      · simp only [getk, hp, if_neg, not_false_iff]
        exact ih hnd.2 h1

end AssocLemmas

namespace SortLemmas

theorem insPair_perm (p : Nat × Int) (l : List (Nat × Int)) :
    (insPair p l).Perm (p :: l) := by
  induction l with
  | nil => simp [insPair]
  | cons q t ih =>
    by_cases h : p.1 ≤ q.1
    · simp [insPair, h]
    · rw [insPair, if_neg h]
      exact (List.Perm.cons q ih).trans (List.Perm.swap p q t)

theorem sortPairs_perm (l : List (Nat × Int)) : (sortPairs l).Perm l := by
  induction l with
  | nil => simp [sortPairs]
  | cons p t ih =>
    show (insPair p (sortPairs t)).Perm (p :: t)
    exact (insPair_perm p _).trans (List.Perm.cons p ih)

theorem insPair_sorted (p : Nat × Int) (l : List (Nat × Int))
    (h : SortedKeys l) : SortedKeys (insPair p l) := by
  induction l with
  | nil => simp [insPair, SortedKeys]
  | cons q t ih =>
    unfold SortedKeys at h
    rw [List.pairwise_cons] at h
    by_cases hle : p.1 ≤ q.1
    · rw [insPair, if_pos hle]
      unfold SortedKeys
      rw [List.pairwise_cons]
      constructor
      · intro b hb
        rcases List.mem_cons.mp hb with h1 | h1
        · rw [h1]; exact hle
        · exact le_trans hle (h.1 b h1)
      · rw [List.pairwise_cons]
        exact h
    · rw [insPair, if_neg hle]
      unfold SortedKeys
      rw [List.pairwise_cons]
      constructor
      · intro b hb
        have hb' := (insPair_perm p t).mem_iff.mp hb
        rcases List.mem_cons.mp hb' with h1 | h1
        · rw [h1]; exact le_of_not_le hle
        · exact h.1 b h1
      · exact ih h.2

theorem sortPairs_sorted (l : List (Nat × Int)) : SortedKeys (sortPairs l) := by
  induction l with
  | nil => simp [sortPairs, SortedKeys]
  | cons p t ih => exact insPair_sorted p (sortPairs t) ih

/-- Two key-sorted pair lists that are permutations of each other and have
duplicate-free keys are equal. -/
theorem sorted_perm_eq {l1 l2 : List (Nat × Int)}
    (hperm : l1.Perm l2) (h1 : SortedKeys l1) (h2 : SortedKeys l2)
    (hnd : KeysNodup l1) : l1 = l2 := by
  haveI : IsAntisymm (Nat × Int) (fun a b => a.1 < b.1) :=
    ⟨fun a b hab hba => absurd (lt_trans hab hba) (lt_irrefl _)⟩
  have hnd2 : KeysNodup l2 := by
    unfold KeysNodup keysOf at hnd ⊢
    exact (hperm.map Prod.fst).nodup_iff.mp hnd
  have key_ne1 : List.Pairwise (fun a b : Nat × Int => a.1 ≠ b.1) l1 := by
    unfold KeysNodup keysOf at hnd
    exact List.pairwise_map.mp hnd
  have key_ne2 : List.Pairwise (fun a b : Nat × Int => a.1 ≠ b.1) l2 := by
    unfold KeysNodup keysOf at hnd2
    exact List.pairwise_map.mp hnd2
  have hs1 : List.Sorted (fun a b : Nat × Int => a.1 < b.1) l1 := by
    have := (List.Pairwise.and h1 key_ne1)
    exact this.imp (fun h => lt_of_le_of_ne h.1 h.2)
  have hs2 : List.Sorted (fun a b : Nat × Int => a.1 < b.1) l2 := by
    have := (List.Pairwise.and h2 key_ne2)
    exact this.imp (fun h => lt_of_le_of_ne h.1 h.2)
  exact List.eq_of_perm_of_sorted hperm hs1 hs2

/-- Two dicts with duplicate-free keys and the same key-to-value mapping
sort to the same pair list. -/
theorem sortPairs_eq_of_lookup_eq {l1 l2 : List (Nat × Int)}
    (hnd1 : KeysNodup l1) (hnd2 : KeysNodup l2)
    (h : ∀ t, getk l1 t = getk l2 t) : sortPairs l1 = sortPairs l2 := by
  have hmem : ∀ x, x ∈ l1 ↔ x ∈ l2 := by
    intro x
    constructor
    · intro hx
      have := AssocLemmas.mem_getk hnd1 hx
      rw [h x.1] at this
      exact AssocLemmas.getk_mem this
    · intro hx
      have := AssocLemmas.mem_getk hnd2 hx
      rw [← h x.1] at this
      exact AssocLemmas.getk_mem this
  have hnodup1 : l1.Nodup := by
    unfold KeysNodup keysOf at hnd1
    exact List.Nodup.of_map Prod.fst hnd1
  have hnodup2 : l2.Nodup := by
    unfold KeysNodup keysOf at hnd2
    exact List.Nodup.of_map Prod.fst hnd2
  have hperm : l1.Perm l2 := (List.perm_ext_iff_of_nodup hnodup1 hnodup2).mpr hmem
  have hpermS : (sortPairs l1).Perm (sortPairs l2) :=
    ((sortPairs_perm l1).trans hperm).trans (sortPairs_perm l2).symm
  have hndS : KeysNodup (sortPairs l1) := by
    unfold KeysNodup keysOf
    exact ((sortPairs_perm l1).map Prod.fst).nodup_iff.mpr hnd1
  exact sorted_perm_eq hpermS (sortPairs_sorted l1) (sortPairs_sorted l2) hndS

end SortLemmas

theorem decInt_encInt (i : Int) : decInt (encInt i) = i := by
  cases i with
  | ofNat n =>
    simp [encInt, decInt, Nat.mul_mod_right]
  | negSucc n =>
    have h1 : (2 * n + 1) % 2 = 1 := by omega
    have h2 : (2 * n + 1 - 1) / 2 = n := by omega
    simp [encInt, decInt, h1, h2]

theorem decodePairs_encodePairs (l : List (Nat × Int)) :
    decodePairs (encodePairs l) = l := by
  induction l with
  | nil => simp [encodePairs, decodePairs]
  | cons p t ih =>
    show decodePairs (p.1 :: encInt p.2 :: encodePairs t) = p :: t
    rw [decodePairs, decInt_encInt, ih]

theorem setAux_getAux (k : AuxKey) (v : AuxVal) (a : Aux) :
    setAux k (getAux k a) (setAux k v a) = a := by
  cases k <;> cases v <;> rfl

/-! ### Claims about TokenBalances (C5, C8, C10) -/

theorem lookup_all_eq_nil {l1 l2 : List (Nat × Int)}
    (h : ∀ t, getk l1 t = getk l2 t) (h1 : l1 = []) : l2 = [] := by
  cases l2 with
  | nil => rfl
  | cons p t =>
    exfalso
    have := h p.1
    rw [h1] at this
    simp [getk] at this

/-- C5: TokenBalances serialization is deterministic: the pair list is
emitted sorted by ascending token id, so two TokenBalances in the
pair-list format whose balances dicts agree as maps serialize to the same
byte string; the empty dict serializes to the empty byte string whatever
the format byte, and decoding the empty byte string yields the empty
dict. -/
theorem token_serialization_deterministic :
    (∀ tb : TokenBalances, tb.enum = [0] → tb.balances ≠ [] →
      tb.serialize = .ok (0 :: encodePairs (sortPairs tb.balances)) ∧
      SortedKeys (sortPairs tb.balances)) ∧
    (∀ tb1 tb2 : TokenBalances, tb1.enum = [0] → tb2.enum = [0] →
      KeysNodup tb1.balances → KeysNodup tb2.balances →
      (∀ t, getk tb1.balances t = getk tb2.balances t) →
      tb1.serialize = tb2.serialize) ∧
    (∀ e : List Nat, TokenBalances.serialize { balances := [], enum := e } = .ok []) ∧
    TokenBalances.init [] = .ok { balances := [], enum := [0] } := by
  refine ⟨?_, ?_, ?_, ?_⟩
  · intro tb he hne
    have hlen : ¬ tb.balances.length = 0 := by
      simpa [List.length_eq_zero] using hne
    constructor
    · unfold TokenBalances.serialize serializeBal
      simp [hlen, he]
    · exact SortLemmas.sortPairs_sorted _
  · intro tb1 tb2 he1 he2 hnd1 hnd2 hlk
    by_cases h1 : tb1.balances = []
    · have h2 : tb2.balances = [] := lookup_all_eq_nil hlk h1
      unfold TokenBalances.serialize
      simp [h1, h2]
    · have h2 : tb2.balances ≠ [] := by
        intro h2
        exact h1 (lookup_all_eq_nil (fun t => (hlk t).symm) h2)
      have hsort := SortLemmas.sortPairs_eq_of_lookup_eq hnd1 hnd2 hlk
      have hlen1 : ¬ tb1.balances.length = 0 := by
        simpa [List.length_eq_zero] using h1
      have hlen2 : ¬ tb2.balances.length = 0 := by
        simpa [List.length_eq_zero] using h2
      unfold TokenBalances.serialize serializeBal
      simp [hlen1, hlen2, he1, he2, hsort]
  · intro e
    unfold TokenBalances.serialize
    simp
  · rfl

theorem token_serialization_deterministic_witness :
    ({ balances := [(1, 5), (2, 7)], enum := [0] } : TokenBalances).serialize
      = ({ balances := [(2, 7), (1, 5)], enum := [0] } : TokenBalances).serialize ∧
    ({ balances := [(1, 5), (2, 7)], enum := [0] } : TokenBalances).serialize
      = .ok (0 :: encodePairs (sortPairs [(1, 5), (2, 7)])) := by
  have hlk : ∀ t, getk [((1 : Nat), (5 : Int)), (2, 7)] t
      = getk [((2 : Nat), (7 : Int)), (1, 5)] t := by
    intro t
    by_cases h1 : (1 : Nat) = t
    · subst h1
      rfl
    · by_cases h2 : (2 : Nat) = t
      · subst h2
        rfl
      · simp [getk, h1, h2]
  constructor
  · exact token_serialization_deterministic.2.1
      { balances := [(1, 5), (2, 7)], enum := [0] }
      { balances := [(2, 7), (1, 5)], enum := [0] }
      rfl rfl (by decide) (by decide) hlk
  · exact (token_serialization_deterministic.1
      { balances := [(1, 5), (2, 7)], enum := [0] } rfl (by decide)).1

/-- C8: constructing TokenBalances from a non-empty byte string whose
version byte is 0x01 fails with the distinct not-implemented error;
any other version byte except 0x00 fails with the corrupt-encoding
error; the two failures are distinguishable. -/
theorem token_init_version_errors :
    (∀ data : List Nat, data ≠ [] → data.take 1 = [1] →
      TokenBalances.init data = .error .notImplemented) ∧
    (∀ data : List Nat, data ≠ [] → data.take 1 ≠ [0] → data.take 1 ≠ [1] →
      TokenBalances.init data = .error .unknownEnum) ∧
    TBErr.notImplemented ≠ TBErr.unknownEnum := by
  refine ⟨?_, ?_, by decide⟩
  · intro data hne h1
    have hlen : ¬ data.length = 0 := by
      simpa [List.length_eq_zero] using hne
    have h0 : ¬ data.take 1 = [0] := by
      rw [h1]
      decide
    unfold TokenBalances.init
    simp [hlen, h0, h1]
  · intro data hne h0 h1
    have hlen : ¬ data.length = 0 := by
      simpa [List.length_eq_zero] using hne
    unfold TokenBalances.init
    simp [hlen, h0, h1]

theorem token_init_version_errors_witness :
    TokenBalances.init [1, 99] = .error .notImplemented ∧
    TokenBalances.init [7] = .error .unknownEnum := by
  constructor
  · exact token_init_version_errors.1 [1, 99] (by decide) (by decide)
  · exact token_init_version_errors.2.1 [7] (by decide) (by decide) (by decide)

/-- C10: a balances dict that is non-empty but all-zero — reachable by a
delta_token_balance pair bringing a balance to zero — makes is_empty true
while serialize emits a non-empty byte string carrying the explicit zero
pairs; serialize yields the empty byte string exactly on the entry-free
dict, so two TokenBalances agreeing as balance functions can serialize
differently. -/
theorem zero_balances_serialize_nonempty :
    (∀ tb : TokenBalances, tb.enum = [0] → tb.balances ≠ [] →
      (∀ p ∈ tb.balances, p.2 = 0) →
      tb.is_empty = true ∧
      tb.serialize = .ok (0 :: encodePairs (sortPairs tb.balances)) ∧
      0 :: encodePairs (sortPairs tb.balances) ≠ []) ∧
    (∀ tb : TokenBalances, tb.serialize = .ok [] ↔ tb.balances = []) ∧
    (∃ tb1 tb2 : TokenBalances, (∀ t, tb1.balance t = tb2.balance t) ∧
      tb1.serialize ≠ tb2.serialize) ∧
    (loadView (((State.mk0 {}).delta_token_balance 9 1 5).delta_token_balance 9 1 (-5)) 9).balances
      = [(1, 0)] := by
  refine ⟨?_, ?_, ?_, ?_⟩
  · intro tb he hne hz
    refine ⟨?_, ?_, by simp⟩
    · unfold TokenBalances.is_empty
      rw [List.all_eq_true]
      intro p hp
      simpa using hz p hp
    · have hlen : ¬ tb.balances.length = 0 := by
        simpa [List.length_eq_zero] using hne
      unfold TokenBalances.serialize serializeBal
      simp [hlen, he]
  · intro tb
    constructor
    · intro h
      by_contra hne
      have hlen : ¬ tb.balances.length = 0 := by
        simpa [List.length_eq_zero] using hne
      unfold TokenBalances.serialize at h
      by_cases he0 : tb.enum = [0]
      · rw [if_neg hlen, if_pos he0] at h
        unfold serializeBal at h
        rw [if_neg hlen] at h
        simp at h
      · by_cases he1 : tb.enum = [1]
        · rw [if_neg hlen, if_neg he0, if_pos he1] at h
          simp at h
        · rw [if_neg hlen, if_neg he0, if_neg he1] at h
          simp at h
    · intro h
      unfold TokenBalances.serialize
      simp [h]
  · refine ⟨{ balances := [(0, 0)], enum := [0] }, { balances := [], enum := [0] }, ?_, ?_⟩
    case refine_2 =>
      have e1 : ({ balances := [(0, 0)], enum := [0] } : TokenBalances).serialize
          = .ok [0, 0, 0] := rfl
      have e2 : ({ balances := [], enum := [0] } : TokenBalances).serialize = .ok [] := rfl
      rw [e1, e2]
      simp
    intro t
    by_cases h0 : (0 : Nat) = t
    · subst h0
      rfl
    · simp [TokenBalances.balance, getk, h0]
  · rfl

theorem zero_balances_serialize_nonempty_witness :
    ({ balances := [(1, 0)], enum := [0] } : TokenBalances).is_empty = true ∧
    ({ balances := [(1, 0)], enum := [0] } : TokenBalances).serialize = .ok [0, 1, 0] ∧
    ({ balances := [], enum := [0] } : TokenBalances).serialize = .ok [] := by
  have h := zero_balances_serialize_nonempty.1 { balances := [(1, 0)], enum := [0] }
    rfl (by decide) (by decide)
  refine ⟨h.1, ?_, (zero_balances_serialize_nonempty.2.1 _).mpr rfl⟩
  rw [h.2.1]
  rfl

namespace StateLemmas

theorem gca_eq (s : State) (a : Nat) :
    s.get_and_cache_account a = (loadView s a, cacheFill s a) := by
  unfold State.get_and_cache_account cacheFill loadView
  cases hc : getk s.cache a with
  | some o => simp [hc]
  | none => cases ht : getk s.trie a <;> simp [hc, ht]

theorem cacheFill_trie (s : State) (a : Nat) : (cacheFill s a).trie = s.trie := by
  unfold cacheFill
  cases hc : getk s.cache a <;> rfl

theorem cacheFill_aux (s : State) (a : Nat) : (cacheFill s a).aux = s.aux := by
  unfold cacheFill
  cases hc : getk s.cache a <;> rfl

theorem cacheFill_cfg (s : State) (a : Nat) : (cacheFill s a).cfg = s.cfg := by
  unfold cacheFill
  cases hc : getk s.cache a <;> rfl

theorem cacheFill_journal (s : State) (a : Nat) : (cacheFill s a).journal = s.journal := by
  unfold cacheFill
  cases hc : getk s.cache a <;> rfl

theorem getk_cacheFill_self (s : State) (a : Nat) :
    getk (cacheFill s a).cache a = some (loadView s a) := by
  unfold cacheFill
  cases hc : getk s.cache a with
  | some o =>
    show getk s.cache a = _
    rw [hc]
    unfold loadView
    rw [hc]
  | none =>
    show getk (setk s.cache a (loadView s a)) a = _
    rw [AssocLemmas.getk_setk_self]

theorem getk_cacheFill_ne (s : State) (a x : Nat) (hx : x ≠ a) :
    getk (cacheFill s a).cache x = getk s.cache x := by
  unfold cacheFill
  cases hc : getk s.cache a with
  | some o => rfl
  | none =>
    show getk (setk s.cache a (loadView s a)) x = _
    rw [AssocLemmas.getk_setk_ne _ _ _ _ hx]

theorem loadView_cacheFill (s : State) (a x : Nat) :
    loadView (cacheFill s a) x = loadView s x := by
  by_cases hx : x = a
  · subst hx
    unfold loadView
    rw [getk_cacheFill_self]
    rfl
  · unfold loadView
    rw [getk_cacheFill_ne s a x hx, cacheFill_trie, cacheFill_aux, cacheFill_cfg]

/-- Cache lookup in a state whose cache got one account rewritten. -/
theorem shape_cache (s : State) (a : Nat) (o' : Account) (j : List JEntry) (x : Nat) :
    getk ({ s with cache := setk s.cache a o', journal := j } : State).cache x
      = if x = a then some o' else getk s.cache x := by
  by_cases hx : x = a
  · subst hx
    simp [AssocLemmas.getk_setk_self]
  · simp only [hx, if_neg, not_false_iff]
    exact AssocLemmas.getk_setk_ne _ _ _ _ hx

/-- Observable account view in a state whose cache got one account
rewritten. -/
theorem shape_loadView (s : State) (a : Nat) (o' : Account) (j : List JEntry) (x : Nat) :
    loadView ({ s with cache := setk s.cache a o', journal := j } : State) x
      = if x = a then o' else loadView s x := by
  unfold loadView
  rw [show ({ s with cache := setk s.cache a o', journal := j } : State).cache
      = setk s.cache a o' from rfl]
  by_cases hx : x = a
  · subst hx
    simp [AssocLemmas.getk_setk_self]
  · simp only [hx, if_neg, not_false_iff]
    rw [AssocLemmas.getk_setk_ne _ _ _ _ hx]

theorem jSetTouched_eq (s : State) (a : Nat) (v : Bool) (o : Account)
    (h : getk s.cache a = some o) :
    s.jSetTouched a v = { s with
      cache := setk s.cache a { o with touched := v }
      journal := JEntry.touchedFlag a o.touched :: s.journal } := by
  unfold State.jSetTouched
  rw [h]

theorem jSetNonce_eq (s : State) (a : Nat) (v : Int) (o : Account)
    (h : getk s.cache a = some o) :
    s.jSetNonce a v = { s with
      cache := setk s.cache a { o with nonce := v }
      journal := JEntry.nonceVal a o.nonce :: s.journal } := by
  unfold State.jSetNonce
  rw [h]

theorem jSetCode_eq (s : State) (a : Nat) (v : List Nat) (o : Account)
    (h : getk s.cache a = some o) :
    s.jSetCode a v = { s with
      cache := setk s.cache a { o with code := v }
      journal := JEntry.codeVal a o.code :: s.journal } := by
  unfold State.jSetCode
  rw [h]

theorem jSetBalances_eq (s : State) (a : Nat) (v : List (Nat × Int)) (o : Account)
    (h : getk s.cache a = some o) :
    s.jSetBalances a v = { s with
      cache := setk s.cache a { o with balances := v }
      journal := JEntry.balancesMap a o.balances :: s.journal } := by
  unfold State.jSetBalances
  rw [h]

theorem jSetDeleted_eq (s : State) (a : Nat) (v : Bool) (o : Account)
    (h : getk s.cache a = some o) :
    s.jSetDeleted a v = { s with
      cache := setk s.cache a { o with deleted := v }
      journal := JEntry.deletedFlag a o.deleted :: s.journal } := by
  unfold State.jSetDeleted
  rw [h]

theorem tbj_eq (s : State) (a t : Nat) (val : Int) (o : Account)
    (h : getk s.cache a = some o) :
    s.set_token_balance_and_journal a t val = { s with
      cache := setk s.cache a { o with balances := setk o.balances t val }
      journal := (match getk o.balances t with
        | none => JEntry.tokenPop a t
        | some preval => JEntry.tokenSet a t preval) :: s.journal } := by
  unfold State.set_token_balance_and_journal
  rw [h]

end StateLemmas

namespace StateLemmas

theorem loadView_delta (s : State) (a tok : Nat) (v : Int) (x : Nat) :
    loadView (s.delta_token_balance a tok v) x =
      if x = a then
        (if v = 0 then { loadView s a with touched := true }
         else { loadView s a with
                balances := setk (loadView s a).balances tok
                  ((getk (loadView s a).balances tok).getD 0 + v)
                touched := true })
      else loadView s x := by
  unfold State.delta_token_balance
  rw [gca_eq]
  by_cases hv : v = 0
  · subst hv
    simp only [if_pos]
    rw [jSetTouched_eq _ _ _ _ (getk_cacheFill_self s a)]
    rw [shape_loadView]
    by_cases hx : x = a
    · simp [hx]
    · simp [hx, loadView_cacheFill]
  · simp only [hv, if_neg, not_false_iff]
    rw [tbj_eq _ _ _ _ _ (getk_cacheFill_self s a)]
    rw [jSetTouched_eq _ _ _ ({ loadView s a with
        balances := setk (loadView s a).balances tok
          ((getk (loadView s a).balances tok).getD 0 + v) })
      (by rw [shape_cache]; simp)]
    rw [shape_loadView]
    by_cases hx : x = a
    · simp only [hx, if_pos]
    · simp only [hx, if_neg, not_false_iff]
      rw [shape_loadView]
      simp [hx, loadView_cacheFill]

theorem delta_frame (s : State) (a tok : Nat) (v : Int) :
    (s.delta_token_balance a tok v).aux = s.aux ∧
    (s.delta_token_balance a tok v).trie = s.trie ∧
    (s.delta_token_balance a tok v).cfg = s.cfg := by
  unfold State.delta_token_balance
  rw [gca_eq]
  by_cases hv : v = 0
  · subst hv
    simp only [if_pos]
    rw [jSetTouched_eq _ _ _ _ (getk_cacheFill_self s a)]
    exact ⟨cacheFill_aux s a, cacheFill_trie s a, cacheFill_cfg s a⟩
  · simp only [hv, if_neg, not_false_iff]
    rw [tbj_eq _ _ _ _ _ (getk_cacheFill_self s a)]
    rw [jSetTouched_eq _ _ _ ({ loadView s a with
        balances := setk (loadView s a).balances tok
          ((getk (loadView s a).balances tok).getD 0 + v) })
      (by rw [shape_cache]; simp)]
    exact ⟨cacheFill_aux s a, cacheFill_trie s a, cacheFill_cfg s a⟩

theorem balanceObs_cacheFill (s : State) (a x u : Nat) :
    balanceObs (cacheFill s a) x u = balanceObs s x u := by
  unfold balanceObs
  rw [loadView_cacheFill]

theorem balanceObs_delta_self (s : State) (a tok : Nat) (v : Int) :
    balanceObs (s.delta_token_balance a tok v) a tok = balanceObs s a tok + v := by
  unfold balanceObs
  rw [loadView_delta]
  by_cases hv : v = 0
  · simp [hv]
  · simp only [if_pos, hv, if_neg, not_false_iff]
    show (getk (setk _ tok _) tok).getD 0 = _
    rw [AssocLemmas.getk_setk_self]
    rfl

theorem balanceObs_delta_other (s : State) (a tok : Nat) (v : Int) (x u : Nat)
    (h : x ≠ a ∨ u ≠ tok) :
    balanceObs (s.delta_token_balance a tok v) x u = balanceObs s x u := by
  unfold balanceObs
  rw [loadView_delta]
  by_cases hx : x = a
  · subst hx
    have hu : u ≠ tok := h.resolve_left (by simp)
    by_cases hv : v = 0
    · simp [hv]
    · simp only [if_pos, hv, if_neg, not_false_iff]
      show (getk (setk _ tok _) u).getD 0 = _
      rw [AssocLemmas.getk_setk_ne _ _ _ _ hu]
  · simp [hx]

theorem get_balance_eq (s : State) (a tok : Nat) :
    s.get_balance a tok = (balanceObs s a tok, cacheFill s a) := by
  unfold State.get_balance balanceObs
  rw [gca_eq]

end StateLemmas

/-- C3: for nonnegative amounts, transfer_value succeeds exactly when the
sender balance covers the amount, debiting sender and crediting receiver
atomically (a self-transfer nets to no change); on failure it returns
False and leaves every balance untouched; deduct_value behaves the same
with no credit; and neither operation drives any balance negative when
all balances start nonnegative. -/
theorem transfer_deduct_value_correct :
    (∀ (s : State) (f t tok : Nat) (v : Int), 0 ≤ v →
      ∃ ok s', s.transfer_value f t tok v = some (ok, s') ∧
        (ok = true ↔ v ≤ balanceObs s f tok) ∧
        s'.trie = s.trie ∧ s'.aux = s.aux ∧
        (ok = false → ∀ x u, balanceObs s' x u = balanceObs s x u) ∧
        (ok = true → f ≠ t →
          balanceObs s' f tok = balanceObs s f tok - v ∧
          balanceObs s' t tok = balanceObs s t tok + v) ∧
        (ok = true → f = t → ∀ x u, balanceObs s' x u = balanceObs s x u) ∧
        (ok = true → ∀ x u, (x ≠ f ∧ x ≠ t) ∨ u ≠ tok →
          balanceObs s' x u = balanceObs s x u) ∧
        ((∀ x u, 0 ≤ balanceObs s x u) → ∀ x u, 0 ≤ balanceObs s' x u)) ∧
    (∀ (s : State) (f tok : Nat) (v : Int), 0 ≤ v →
      ∃ ok s', s.deduct_value f tok v = some (ok, s') ∧
        (ok = true ↔ v ≤ balanceObs s f tok) ∧
        s'.trie = s.trie ∧ s'.aux = s.aux ∧
        (ok = false → ∀ x u, balanceObs s' x u = balanceObs s x u) ∧
        (ok = true → balanceObs s' f tok = balanceObs s f tok - v) ∧
        (ok = true → ∀ x u, x ≠ f ∨ u ≠ tok → balanceObs s' x u = balanceObs s x u) ∧
        ((∀ x u, 0 ≤ balanceObs s x u) → ∀ x u, 0 ≤ balanceObs s' x u)) := by
  constructor
  · intro s f t tok v hv
    unfold State.transfer_value
    rw [if_neg (not_lt.mpr hv), StateLemmas.get_balance_eq]
    dsimp only
    by_cases hb : v ≤ balanceObs s f tok
    · rw [if_pos hb]
      refine ⟨true, _, rfl, by simp [hb], ?_, ?_, by simp, ?_, ?_, ?_, ?_⟩
      · rw [(StateLemmas.delta_frame _ _ _ _).2.1, (StateLemmas.delta_frame _ _ _ _).2.1,
          StateLemmas.cacheFill_trie]
      · rw [(StateLemmas.delta_frame _ _ _ _).1, (StateLemmas.delta_frame _ _ _ _).1,
          StateLemmas.cacheFill_aux]
      · intro _ hft
        constructor
        · rw [StateLemmas.balanceObs_delta_other _ _ _ _ _ _ (Or.inl hft),
            StateLemmas.balanceObs_delta_self, StateLemmas.balanceObs_cacheFill]
          ring
        · rw [StateLemmas.balanceObs_delta_self,
            StateLemmas.balanceObs_delta_other _ _ _ _ _ _ (Or.inl (Ne.symm hft)),
            StateLemmas.balanceObs_cacheFill]
      · intro _ hft x u
        subst hft
        by_cases hx : x = f
        · subst hx
          by_cases hu : u = tok
          · subst hu
            rw [StateLemmas.balanceObs_delta_self, StateLemmas.balanceObs_delta_self,
              StateLemmas.balanceObs_cacheFill]
            ring
          · rw [StateLemmas.balanceObs_delta_other _ _ _ _ _ _ (Or.inr hu),
              StateLemmas.balanceObs_delta_other _ _ _ _ _ _ (Or.inr hu),
              StateLemmas.balanceObs_cacheFill]
        · rw [StateLemmas.balanceObs_delta_other _ _ _ _ _ _ (Or.inl hx),
            StateLemmas.balanceObs_delta_other _ _ _ _ _ _ (Or.inl hx),
            StateLemmas.balanceObs_cacheFill]
      · intro _ x u hxu
        rcases hxu with ⟨hxf, hxt⟩ | hu
        · rw [StateLemmas.balanceObs_delta_other _ _ _ _ _ _ (Or.inl hxt),
            StateLemmas.balanceObs_delta_other _ _ _ _ _ _ (Or.inl hxf),
            StateLemmas.balanceObs_cacheFill]
        · rw [StateLemmas.balanceObs_delta_other _ _ _ _ _ _ (Or.inr hu),
            StateLemmas.balanceObs_delta_other _ _ _ _ _ _ (Or.inr hu),
            StateLemmas.balanceObs_cacheFill]
      · intro hall x u
        by_cases hx2 : x = t ∧ u = tok
        · rcases hx2 with ⟨hx, hu⟩
          subst hx
          subst hu
          by_cases hxf : x = f
          · subst hxf
            rw [StateLemmas.balanceObs_delta_self, StateLemmas.balanceObs_delta_self,
              StateLemmas.balanceObs_cacheFill]
            have := hall x u
            omega
          · rw [StateLemmas.balanceObs_delta_self,
              StateLemmas.balanceObs_delta_other _ _ _ _ _ _ (Or.inl hxf),
              StateLemmas.balanceObs_cacheFill]
            have := hall x u
            omega
        · have hother : x ≠ t ∨ u ≠ tok := by tauto
          rw [StateLemmas.balanceObs_delta_other _ _ _ _ _ _ hother]
          by_cases hxf : x = f ∧ u = tok
          · rcases hxf with ⟨hx, hu⟩
            subst hx
            subst hu
            rw [StateLemmas.balanceObs_delta_self, StateLemmas.balanceObs_cacheFill]
            have := hall x u
            omega
          · have hother2 : x ≠ f ∨ u ≠ tok := by tauto
            rw [StateLemmas.balanceObs_delta_other _ _ _ _ _ _ hother2,
              StateLemmas.balanceObs_cacheFill]
            exact hall x u
    · rw [if_neg hb]
      refine ⟨false, cacheFill s f, rfl, by simp [hb], StateLemmas.cacheFill_trie s f,
        StateLemmas.cacheFill_aux s f, ?_, by simp, by simp, by simp, ?_⟩
      · intro _ x u
        exact StateLemmas.balanceObs_cacheFill s f x u
      · intro hall x u
        rw [StateLemmas.balanceObs_cacheFill]
        exact hall x u
  · intro s f tok v hv
    unfold State.deduct_value
    rw [if_neg (not_lt.mpr hv), StateLemmas.get_balance_eq]
    dsimp only
    by_cases hb : v ≤ balanceObs s f tok
    · rw [if_pos hb]
      refine ⟨true, _, rfl, by simp [hb], ?_, ?_, by simp, ?_, ?_, ?_⟩
      · rw [(StateLemmas.delta_frame _ _ _ _).2.1, StateLemmas.cacheFill_trie]
      · rw [(StateLemmas.delta_frame _ _ _ _).1, StateLemmas.cacheFill_aux]
      · intro _
        rw [StateLemmas.balanceObs_delta_self, StateLemmas.balanceObs_cacheFill]
        ring
      · intro _ x u hxu
        rw [StateLemmas.balanceObs_delta_other _ _ _ _ _ _ hxu,
          StateLemmas.balanceObs_cacheFill]
      · intro hall x u
        by_cases hxf : x = f ∧ u = tok
        · rcases hxf with ⟨hx, hu⟩
          subst hx
          subst hu
          rw [StateLemmas.balanceObs_delta_self, StateLemmas.balanceObs_cacheFill]
          omega
        · have hother : x ≠ f ∨ u ≠ tok := by tauto
          rw [StateLemmas.balanceObs_delta_other _ _ _ _ _ _ hother,
            StateLemmas.balanceObs_cacheFill]
          exact hall x u
    · rw [if_neg hb]
      refine ⟨false, cacheFill s f, rfl, by simp [hb], StateLemmas.cacheFill_trie s f,
        StateLemmas.cacheFill_aux s f, ?_, by simp, by simp, ?_⟩
      · intro _ x u
        exact StateLemmas.balanceObs_cacheFill s f x u
      · intro hall x u
        rw [StateLemmas.balanceObs_cacheFill]
        exact hall x u

namespace AssocLemmas

theorem setk_setk_same {α : Type} (l : List (Nat × α)) (k : Nat) (w v : α) :
    setk (setk l k w) k v = setk l k v := by
  induction l with
  | nil => simp [setk]
  | cons p t ih =>
    by_cases hp : p.1 = k
    · simp [setk, hp]
    · simp [setk, hp, ih]

end AssocLemmas

namespace StateLemmas

/-- Full specification of set_nonce: the account view, its cache entry,
the untouched State components, and the journal growth. -/
theorem set_nonce_spec (s : State) (a : Nat) (v : Int) :
    (∀ x, loadView (s.set_nonce a v) x =
      if x = a then { loadView s a with nonce := v, touched := true } else loadView s x) ∧
    getk (s.set_nonce a v).cache a
      = some { loadView s a with nonce := v, touched := true } ∧
    (s.set_nonce a v).trie = s.trie ∧ (s.set_nonce a v).aux = s.aux ∧
    (s.set_nonce a v).cfg = s.cfg ∧
    (s.set_nonce a v).journal
      = JEntry.touchedFlag a (loadView s a).touched
        :: JEntry.nonceVal a (loadView s a).nonce :: s.journal := by
  unfold State.set_nonce
  rw [gca_eq]
  dsimp only
  rw [jSetNonce_eq _ _ _ _ (getk_cacheFill_self s a)]
  rw [jSetTouched_eq _ _ _ { loadView s a with nonce := v } (by rw [shape_cache]; simp)]
  refine ⟨?_, ?_, ?_, ?_, ?_, ?_⟩
  · intro x
    rw [shape_loadView]
    by_cases hx : x = a
    · simp [hx]
    · simp only [hx, if_neg, not_false_iff]
      rw [shape_loadView]
      simp [hx, loadView_cacheFill]
  · rw [shape_cache]
    simp
  · exact cacheFill_trie s a
  · exact cacheFill_aux s a
  · exact cacheFill_cfg s a
  · rw [cacheFill_journal]

/-- Full specification of set_code. -/
theorem set_code_spec (s : State) (a : Nat) (c : List Nat) :
    (∀ x, loadView (s.set_code a c) x =
      if x = a then { loadView s a with code := c, touched := true } else loadView s x) ∧
    getk (s.set_code a c).cache a
      = some { loadView s a with code := c, touched := true } ∧
    (s.set_code a c).trie = s.trie ∧ (s.set_code a c).aux = s.aux ∧
    (s.set_code a c).cfg = s.cfg ∧
    (s.set_code a c).journal
      = JEntry.touchedFlag a (loadView s a).touched
        :: JEntry.codeVal a (loadView s a).code :: s.journal := by
  unfold State.set_code
  rw [gca_eq]
  dsimp only
  rw [jSetCode_eq _ _ _ _ (getk_cacheFill_self s a)]
  rw [jSetTouched_eq _ _ _ { loadView s a with code := c } (by rw [shape_cache]; simp)]
  refine ⟨?_, ?_, ?_, ?_, ?_, ?_⟩
  · intro x
    rw [shape_loadView]
    by_cases hx : x = a
    · simp [hx]
    · simp only [hx, if_neg, not_false_iff]
      rw [shape_loadView]
      simp [hx, loadView_cacheFill]
  · rw [shape_cache]
    simp
  · exact cacheFill_trie s a
  · exact cacheFill_aux s a
  · exact cacheFill_cfg s a
  · rw [cacheFill_journal]

/-- Full specification of increment_nonce. -/
theorem increment_nonce_spec (s : State) (a : Nat) :
    (∀ x, loadView (s.increment_nonce a) x =
      if x = a then { loadView s a with nonce := (loadView s a).nonce + 1, touched := true }
      else loadView s x) ∧
    getk (s.increment_nonce a).cache a
      = some { loadView s a with nonce := (loadView s a).nonce + 1, touched := true } ∧
    (s.increment_nonce a).trie = s.trie ∧ (s.increment_nonce a).aux = s.aux ∧
    (s.increment_nonce a).cfg = s.cfg ∧
    (s.increment_nonce a).journal
      = JEntry.touchedFlag a (loadView s a).touched
        :: JEntry.nonceVal a (loadView s a).nonce :: s.journal := by
  unfold State.increment_nonce
  rw [gca_eq]
  dsimp only
  rw [jSetNonce_eq _ _ _ _ (getk_cacheFill_self s a)]
  rw [jSetTouched_eq _ _ _ { loadView s a with nonce := (loadView s a).nonce + 1 }
    (by rw [shape_cache]; simp)]
  refine ⟨?_, ?_, ?_, ?_, ?_, ?_⟩
  · intro x
    rw [shape_loadView]
    by_cases hx : x = a
    · simp [hx]
    · simp only [hx, if_neg, not_false_iff]
      rw [shape_loadView]
      simp [hx, loadView_cacheFill]
  · rw [shape_cache]
    simp
  · exact cacheFill_trie s a
  · exact cacheFill_aux s a
  · exact cacheFill_cfg s a
  · rw [cacheFill_journal]

/-- Full specification of set_balances (both branches). -/
theorem set_balances_spec (s : State) (a : Nat) (m : List (Nat × Int)) :
    (∀ x, loadView (s.set_balances a m) x =
      if x = a then
        (if dictEq (loadView s a).balances m then { loadView s a with touched := true }
         else { loadView s a with balances := m, touched := true })
      else loadView s x) ∧
    (s.set_balances a m).trie = s.trie ∧ (s.set_balances a m).aux = s.aux ∧
    (s.set_balances a m).cfg = s.cfg ∧
    (s.set_balances a m).journal
      = (if dictEq (loadView s a).balances m then
          JEntry.touchedFlag a (loadView s a).touched :: s.journal
        else
          JEntry.touchedFlag a (loadView s a).touched
            :: JEntry.balancesMap a (loadView s a).balances :: s.journal) := by
  unfold State.set_balances
  rw [gca_eq]
  dsimp only
  by_cases hd : dictEq (loadView s a).balances m
  · rw [if_pos hd]
    rw [jSetTouched_eq _ _ _ _ (getk_cacheFill_self s a)]
    refine ⟨?_, cacheFill_trie s a, cacheFill_aux s a, cacheFill_cfg s a, ?_⟩
    · intro x
      rw [shape_loadView]
      by_cases hx : x = a
      · simp [hx, hd]
      · simp [hx, loadView_cacheFill]
    · rw [if_pos hd, cacheFill_journal]
  · rw [if_neg hd]
    rw [jSetBalances_eq _ _ _ _ (getk_cacheFill_self s a)]
    rw [jSetTouched_eq _ _ _ { loadView s a with balances := m } (by rw [shape_cache]; simp)]
    refine ⟨?_, cacheFill_trie s a, cacheFill_aux s a, cacheFill_cfg s a, ?_⟩
    · intro x
      rw [shape_loadView]
      by_cases hx : x = a
      · simp [hx, hd]
      · simp only [hx, if_neg, not_false_iff]
        rw [shape_loadView]
        simp [hx, loadView_cacheFill]
    · rw [if_neg hd, cacheFill_journal]

/-- Full specification of set_token_balance (both branches). -/
theorem set_token_balance_spec (s : State) (a t : Nat) (val : Int) :
    (∀ x, loadView (s.set_token_balance a t val) x =
      if x = a then
        (if val = (getk (loadView s a).balances t).getD 0 then
          { loadView s a with touched := true }
         else { loadView s a with
                balances := setk (loadView s a).balances t val
                touched := true })
      else loadView s x) ∧
    (s.set_token_balance a t val).trie = s.trie ∧
    (s.set_token_balance a t val).aux = s.aux ∧
    (s.set_token_balance a t val).cfg = s.cfg ∧
    (s.set_token_balance a t val).journal
      = (if val = (getk (loadView s a).balances t).getD 0 then
          JEntry.touchedFlag a (loadView s a).touched :: s.journal
        else
          JEntry.touchedFlag a (loadView s a).touched
            :: (match getk (loadView s a).balances t with
                | none => JEntry.tokenPop a t
                | some preval => JEntry.tokenSet a t preval) :: s.journal) := by
  unfold State.set_token_balance
  rw [gca_eq]
  dsimp only
  by_cases hd : val = (getk (loadView s a).balances t).getD 0
  · rw [if_pos hd]
    rw [jSetTouched_eq _ _ _ _ (getk_cacheFill_self s a)]
    refine ⟨?_, cacheFill_trie s a, cacheFill_aux s a, cacheFill_cfg s a, ?_⟩
    · intro x
      rw [shape_loadView]
      by_cases hx : x = a
      · simp [hx, hd]
      · simp [hx, loadView_cacheFill]
    · rw [if_pos hd, cacheFill_journal]
  · rw [if_neg hd]
    rw [tbj_eq _ _ _ _ _ (getk_cacheFill_self s a)]
    rw [jSetTouched_eq _ _ _ { loadView s a with balances := setk (loadView s a).balances t val }
      (by rw [shape_cache]; simp)]
    refine ⟨?_, cacheFill_trie s a, cacheFill_aux s a, cacheFill_cfg s a, ?_⟩
    · intro x
      rw [shape_loadView]
      by_cases hx : x = a
      · simp [hx, hd]
      · simp only [hx, if_neg, not_false_iff]
        rw [shape_loadView]
        simp [hx, loadView_cacheFill]
    · rw [if_neg hd, cacheFill_journal]

/-- Full specification of set_storage_data. -/
theorem set_storage_data_spec (s : State) (a k : Nat) (v : Int) :
    (∀ x, loadView (s.set_storage_data a k v) x =
      if x = a then
        { loadView s a with
          storage_cache := setk (loadView s a).storage_cache k v
          touched := true }
      else loadView s x) ∧
    (s.set_storage_data a k v).trie = s.trie ∧ (s.set_storage_data a k v).aux = s.aux ∧
    (s.set_storage_data a k v).cfg = s.cfg ∧
    (s.set_storage_data a k v).journal
      = JEntry.touchedFlag a (loadView s a).touched
        :: JEntry.storageSet a k (storageView (loadView s a) k) :: s.journal := by
  unfold State.set_storage_data
  rw [gca_eq]
  dsimp only
  unfold Account.get_storage_data Account.set_storage_data storageView
  cases hk : getk (loadView s a).storage_cache k with
  | some w =>
    dsimp only
    rw [jSetTouched_eq _ _ _ { loadView s a with storage_cache := setk (loadView s a).storage_cache k v }
      (by rw [shape_cache]; simp)]
    refine ⟨?_, cacheFill_trie s a, cacheFill_aux s a, cacheFill_cfg s a, ?_⟩
    · intro x
      rw [shape_loadView]
      by_cases hx : x = a
      · simp [hx]
      · simp only [hx, if_neg, not_false_iff]
        rw [shape_loadView]
        simp [hx, loadView_cacheFill]
    · rw [cacheFill_journal]
  | none =>
    dsimp only
    rw [jSetTouched_eq _ _ _ { loadView s a with
        storage_cache := setk (setk (loadView s a).storage_cache k
          ((getk (loadView s a).storage_trie k).getD 0)) k v }
      (by rw [shape_cache]; simp)]
    have hss : setk (setk (loadView s a).storage_cache k
        ((getk (loadView s a).storage_trie k).getD 0)) k v
        = setk (loadView s a).storage_cache k v := AssocLemmas.setk_setk_same _ _ _ _
    refine ⟨?_, cacheFill_trie s a, cacheFill_aux s a, cacheFill_cfg s a, ?_⟩
    · intro x
      rw [shape_loadView]
      by_cases hx : x = a
      · simp [hx, hss]
      · simp only [hx, if_neg, not_false_iff]
        rw [shape_loadView]
        simp [hx, loadView_cacheFill]
    · rw [cacheFill_journal]

/-- Full specification of reset_storage: both storage components blank,
touched unchanged, two journal records. -/
theorem reset_storage_spec (s : State) (a : Nat) :
    (∀ x, loadView (s.reset_storage a) x =
      if x = a then { loadView s a with storage_cache := [], storage_trie := [] }
      else loadView s x) ∧
    getk (s.reset_storage a).cache a
      = some { loadView s a with storage_cache := [], storage_trie := [] } ∧
    (s.reset_storage a).trie = s.trie ∧ (s.reset_storage a).aux = s.aux ∧
    (s.reset_storage a).cfg = s.cfg ∧
    (s.reset_storage a).journal
      = JEntry.storageRootRestore a (loadView s a).storage_trie
        :: JEntry.storageCacheRestore a (loadView s a).storage_cache :: s.journal := by
  unfold State.reset_storage
  rw [gca_eq]
  dsimp only
  refine ⟨?_, ?_, cacheFill_trie s a, cacheFill_aux s a, cacheFill_cfg s a, ?_⟩
  · intro x
    rw [shape_loadView]
    by_cases hx : x = a
    · simp [hx]
    · simp [hx, loadView_cacheFill]
  · exact AssocLemmas.getk_setk_self _ _ _
  · rw [cacheFill_journal]

end StateLemmas

namespace AssocLemmas

theorem setk_getk_id {α : Type} {l : List (Nat × α)} {k : Nat} {v : α}
    (h : getk l k = some v) : setk l k v = l := by
  induction l with
  | nil => simp [getk] at h
  | cons p t ih =>
    by_cases hp : p.1 = k
    · simp only [getk, hp, if_pos, Option.some.injEq] at h
      have hpe : p = (k, v) := by
        cases p
        simp_all
    
      simp [setk, hp, hpe]
    · simp only [getk, hp, if_neg, not_false_iff] at h
      simp [setk, hp, ih h]

end AssocLemmas

namespace StateLemmas

theorem delta_journal_zero (s : State) (a t : Nat) :
    (s.delta_token_balance a t 0).journal
      = JEntry.touchedFlag a (loadView s a).touched :: s.journal := by
  unfold State.delta_token_balance
  rw [gca_eq]
  dsimp only
  rw [if_pos rfl, jSetTouched_eq _ _ _ _ (getk_cacheFill_self s a)]
  rw [show (({ cacheFill s a with
      cache := setk (cacheFill s a).cache a { loadView s a with touched := true }
      journal := JEntry.touchedFlag a (loadView s a).touched :: (cacheFill s a).journal } : State)).journal
    = JEntry.touchedFlag a (loadView s a).touched :: (cacheFill s a).journal from rfl]
  rw [cacheFill_journal]

/-- The touched and deleted flags after del_account: deleted set, touched
cleared. -/
theorem del_account_flags (s : State) (a : Nat) :
    touchedObs (s.del_account a) a = false ∧ deletedObs (s.del_account a) a = true := by
  unfold State.del_account
  dsimp only
  obtain ⟨_, hc4, _, _, _, _⟩ :=
    reset_storage_spec (((s.set_balances a []).set_nonce a 0).set_code a []) a
  rw [jSetDeleted_eq _ _ _ _ hc4]
  rw [jSetTouched_eq _ _ false
    { loadView (((s.set_balances a []).set_nonce a 0).set_code a []) a with
      storage_trie := []
      storage_cache := []
      deleted := true }
    (by rw [shape_cache]; simp)]
  unfold touchedObs deletedObs
  rw [shape_loadView, shape_loadView]
  simp

end StateLemmas

/-- C9 (amended): set_nonce, set_code, set_balances, set_token_balance,
delta_token_balance, increment_nonce and set_storage_data all leave the
target account touched; reset_storage leaves the touched flag unchanged,
and del_account ends with touched cleared (and deleted set, both
journaled). -/
theorem mutators_touch :
    (∀ (s : State) (a : Nat) (v : Int), touchedObs (s.set_nonce a v) a = true) ∧
    (∀ (s : State) (a : Nat) (c : List Nat), touchedObs (s.set_code a c) a = true) ∧
    (∀ (s : State) (a : Nat) (m : List (Nat × Int)),
      touchedObs (s.set_balances a m) a = true) ∧
    (∀ (s : State) (a t : Nat) (val : Int),
      touchedObs (s.set_token_balance a t val) a = true) ∧
    (∀ (s : State) (a t : Nat) (v : Int),
      touchedObs (s.delta_token_balance a t v) a = true) ∧
    (∀ (s : State) (a : Nat), touchedObs (s.increment_nonce a) a = true) ∧
    (∀ (s : State) (a k : Nat) (v : Int),
      touchedObs (s.set_storage_data a k v) a = true) ∧
    (∀ (s : State) (a : Nat), touchedObs (s.reset_storage a) a = touchedObs s a) ∧
    (∀ (s : State) (a : Nat),
      touchedObs (s.del_account a) a = false ∧ deletedObs (s.del_account a) a = true) := by
  refine ⟨?_, ?_, ?_, ?_, ?_, ?_, ?_, ?_, ?_⟩
  · intro s a v
    unfold touchedObs
    rw [(StateLemmas.set_nonce_spec s a v).1 a]
    simp
  · intro s a c
    unfold touchedObs
    rw [(StateLemmas.set_code_spec s a c).1 a]
    simp
  · intro s a m
    unfold touchedObs
    rw [(StateLemmas.set_balances_spec s a m).1 a]
    by_cases hd : dictEq (loadView s a).balances m <;> simp [hd]
  · intro s a t val
    unfold touchedObs
    rw [(StateLemmas.set_token_balance_spec s a t val).1 a]
    by_cases hd : val = (getk (loadView s a).balances t).getD 0 <;> simp [hd]
  · intro s a t v
    unfold touchedObs
    rw [StateLemmas.loadView_delta]
    by_cases hv : v = 0 <;> simp [hv]
  · intro s a
    unfold touchedObs
    rw [(StateLemmas.increment_nonce_spec s a).1 a]
    simp
  · intro s a k v
    unfold touchedObs
    rw [(StateLemmas.set_storage_data_spec s a k v).1 a]
    simp
  · intro s a
    unfold touchedObs
    rw [(StateLemmas.reset_storage_spec s a).1 a]
    simp
  · exact StateLemmas.del_account_flags

/-- C9 counterexample: the claim also asserts touched = True on return of
del_account and reset_storage, but del_account returns with the touched
flag False and reset_storage leaves an untouched account untouched. -/
theorem mutators_touch_cex :
    touchedObs ((State.mk0 {}).del_account 5) 5 = false ∧
    touchedObs ((State.mk0 {}).reset_storage 5) 5 = false := by
  constructor <;> rfl

theorem transfer_deduct_value_correct_witness :
    ∃ s', ((State.mk0 {}).delta_token_balance 5 1 100).transfer_value 5 6 1 30
        = some (true, s') ∧
      balanceObs s' 5 1 = 70 ∧ balanceObs s' 6 1 = 30 := by
  obtain ⟨ok, s', heq, hiff, _, _, _, hsucc, _, _, _⟩ :=
    transfer_deduct_value_correct.1 ((State.mk0 {}).delta_token_balance 5 1 100) 5 6 1 30
      (by decide)
  have hok : ok = true := hiff.mpr (by decide)
  subst hok
  refine ⟨s', heq, ?_, ?_⟩
  · rw [(hsucc rfl (by decide)).1]
    decide
  · rw [(hsucc rfl (by decide)).2]
    decide

namespace StateLemmas

/-- Account.commit is the identity on an account with an empty slot
cache. -/
theorem account_commit_id (o : Account) (h : o.storage_cache = []) : o.commit = o := by
  unfold Account.commit
  rw [h]
  dsimp only [List.foldl]
  rw [← h]

/-- The trie produced by State.commit over a one-account cache. -/
theorem commit_trie_singleton (s : State) (a : Nat) (o : Account)
    (hc : s.cache = [(a, o)]) (htd : (o.touched || o.deleted) = true) :
    (s.commit).trie =
      if existsAfterCommit s.cfg s.aux.block_number o.commit then
        setk s.trie a o.commit.toRecord
      else popk s.trie a := by
  unfold State.commit
  rw [hc]
  dsimp only [List.foldl]
  rw [htd]
  simp

/-- The cache of cacheFill over an empty cache. -/
theorem cacheFill_cache_of_empty (s : State) (a : Nat) (h : s.cache = []) :
    (cacheFill s a).cache = [(a, loadView s a)] := by
  unfold cacheFill
  rw [h]
  simp only [getk]
  simp [setk]

end StateLemmas

/-- C7 (amended): writing a token balance equal to the current value, or
a zero delta, appends exactly the touched-flag record to the journal and
no balance-restoring record; and when the target account already sits in
the trie as a canonically-encoded non-blank record (clean cache),
committing after such a write leaves the trie unchanged.  (Without the
non-blank proviso the touch alone makes commit insert or delete the
record, moving the root — see the counterexample.) -/
theorem idempotent_write_journal_and_root :
    (∀ (s : State) (a t : Nat),
      (s.set_token_balance a t (balanceObs s a t)).journal
        = JEntry.touchedFlag a (touchedObs s a) :: s.journal) ∧
    (∀ (s : State) (a t : Nat),
      (s.delta_token_balance a t 0).journal
        = JEntry.touchedFlag a (touchedObs s a) :: s.journal) ∧
    (∀ (s : State) (a t : Nat) (r : AccountRecord),
      s.cache = [] → getk s.trie a = some r →
      serializeBal (decodeBal r.token_balances) = r.token_balances →
      (Account.ofRecord r).is_blank = false →
      ((s.set_token_balance a t (balanceObs s a t)).commit).trie = s.trie) := by
  refine ⟨?_, ?_, ?_⟩
  · intro s a t
    rw [(StateLemmas.set_token_balance_spec s a t (balanceObs s a t)).2.2.2.2]
    rw [if_pos (show balanceObs s a t = (getk (loadView s a).balances t).getD 0 from rfl)]
    rfl
  · intro s a t
    rw [StateLemmas.delta_journal_zero]
    rfl
  · intro s a t r hcache htrie hcanon hblank
    have hload : loadView s a = Account.ofRecord r := by
      unfold loadView
      rw [hcache]
      show (match getk s.trie a with
        | some r => Account.ofRecord r
        | none => Account.blank s.aux.full_shard_key s.cfg.account_initial_nonce) = _
      rw [htrie]
    obtain ⟨_, htr, hax, hcf, _⟩ := StateLemmas.set_token_balance_spec s a t (balanceObs s a t)
    have hcache' : (s.set_token_balance a t (balanceObs s a t)).cache
        = [(a, { Account.ofRecord r with touched := true })] := by
      unfold State.set_token_balance
      rw [StateLemmas.gca_eq]
      dsimp only
      rw [if_pos (show balanceObs s a t = (getk (loadView s a).balances t).getD 0 from rfl)]
      rw [StateLemmas.jSetTouched_eq _ _ _ _ (StateLemmas.getk_cacheFill_self s a)]
      show setk (cacheFill s a).cache a { loadView s a with touched := true } = _
      rw [StateLemmas.cacheFill_cache_of_empty s a hcache, hload]
      simp [setk]
    rw [StateLemmas.commit_trie_singleton _ a _ hcache' rfl]
    rw [StateLemmas.account_commit_id _ rfl]
    rw [htr, hax, hcf]
    have hex : existsAfterCommit s.cfg s.aux.block_number
        { Account.ofRecord r with touched := true } = true := by
      unfold existsAfterCommit
      by_cases hf : s.cfg.spurious_dragon_blknum ≤ s.aux.block_number
      · rw [if_pos hf]
        have hb : ({ Account.ofRecord r with touched := true } : Account).is_blank
            = (Account.ofRecord r).is_blank := rfl
        rw [hb, hblank]
        rfl
      · rw [if_neg hf]
        rfl
    rw [hex]
    have hrec : ({ Account.ofRecord r with touched := true } : Account).toRecord = r := by
      show ({ nonce := r.nonce, token_balances := serializeBal (decodeBal r.token_balances)
              storage := r.storage, code_hash := r.code_hash
              full_shard_key := r.full_shard_key } : AccountRecord) = r
      rw [hcanon]
    rw [if_pos rfl, hrec, AssocLemmas.setk_getk_id htrie]

theorem idempotent_write_journal_and_root_witness :
    (((State.mk0 {}).delta_token_balance 7 1 42).set_token_balance 7 1
        (balanceObs ((State.mk0 {}).delta_token_balance 7 1 42) 7 1)).journal
      = JEntry.touchedFlag 7 true :: ((State.mk0 {}).delta_token_balance 7 1 42).journal ∧
    (((blankRecordState.set_nonce 5 9).commit).set_token_balance 5 1
        (balanceObs ((blankRecordState.set_nonce 5 9).commit) 5 1)).commit.trie
      = ((blankRecordState.set_nonce 5 9).commit).trie := by
  constructor
  · rw [idempotent_write_journal_and_root.1 ((State.mk0 {}).delta_token_balance 7 1 42) 7 1]
    rfl
  · exact idempotent_write_journal_and_root.2.2 ((blankRecordState.set_nonce 5 9).commit) 5 1
      { nonce := 9, token_balances := [], storage := [], code_hash := [], full_shard_key := 0 }
      rfl (by decide) (by decide) (by decide)

/-- C7 counterexample: from a committed state whose trie holds a blank
record (post Spurious Dragon), the no-op write
set_token_balance(a, t, get_balance(a, t)) followed by commit removes the
record, so the trie root does change even though the journal only gained
the touched-flag entry. -/
theorem idempotent_write_root_cex :
    ((blankRecordState.set_token_balance 5 1 (balanceObs blankRecordState 5 1)).commit).trie
      ≠ blankRecordState.trie := by
  decide

namespace AssocLemmas

theorem getk_popk_ne {α : Type} (l : List (Nat × α)) (k a : Nat) (ha : a ≠ k) :
    getk (popk l k) a = getk l a := by
  induction l with
  | nil => simp [popk, getk]
  | cons p t ih =>
    by_cases hp : p.1 = k
    · have : (p.1 != k) = false := by simpa using hp
      simp only [popk, List.filter, this]
      rw [getk, if_neg (by rw [hp]; exact fun h => ha h.symm)]
      simpa [popk] using ih
    · have : (p.1 != k) = true := by simpa using hp
      simp only [popk, List.filter, this]
      rw [getk, getk]
      by_cases hpa : p.1 = a
      · simp [hpa]
      · simp only [hpa, if_neg, not_false_iff]
        simpa [popk] using ih

theorem getk_popk_self {α : Type} (l : List (Nat × α)) (k : Nat) :
    getk (popk l k) k = none := by
  induction l with
  | nil => simp [popk, getk]
  | cons p t ih =>
    by_cases hp : p.1 = k
    · have : (p.1 != k) = false := by simpa using hp
      simp only [popk, List.filter, this]
      simpa [popk] using ih
    · have : (p.1 != k) = true := by simpa using hp
      simp only [popk, List.filter, this]
      rw [getk, if_neg hp]
      simpa [popk] using ih

end AssocLemmas

namespace StateLemmas

/-- The trie entry of one address after the commit fold over a
duplicate-free cache: decided entirely by that address's cache entry. -/
theorem commit_fold_getk (cfg : Config) (bn : Int) (allow_empties : Bool)
    (cache : List (Nat × Account)) (tr : List (Nat × AccountRecord)) (a : Nat)
    (hnd : KeysNodup cache) :
    getk (cache.foldl (fun tr p =>
      if p.2.touched || p.2.deleted then
        let acct1 := p.2.commit
        if existsAfterCommit cfg bn acct1 || allow_empties then setk tr p.1 acct1.toRecord
        else popk tr p.1
      else tr) tr) a =
      match getk cache a with
      | some o =>
        if o.touched || o.deleted then
          (if existsAfterCommit cfg bn o.commit || allow_empties
           then some o.commit.toRecord else none)
        else getk tr a
      | none => getk tr a := by
  induction cache generalizing tr with
  | nil => simp [getk]
  | cons p rest ih =>
    have hndr : KeysNodup rest := by
      unfold KeysNodup keysOf at hnd ⊢
      simp only [List.map_cons, List.nodup_cons] at hnd
      exact hnd.2
    rw [List.foldl_cons]
    dsimp only
    by_cases hpa : p.1 = a
    · -- the head is a's (unique) entry: the tail never mentions a again
      have hrest : getk rest a = none := by
        rw [AssocLemmas.getk_eq_none_iff]
        unfold KeysNodup keysOf at hnd
        simp only [List.map_cons, List.nodup_cons] at hnd
        rw [← hpa]
        exact hnd.1
      rw [show getk (p :: rest) a = some p.2 from by rw [getk, if_pos hpa]]
      dsimp only
      by_cases htd : (p.2.touched || p.2.deleted) = true
      · rw [if_pos htd, if_pos htd]
        by_cases hex : (existsAfterCommit cfg bn p.2.commit || allow_empties) = true
        · rw [if_pos hex, if_pos hex, ih _ hndr, hrest, hpa, AssocLemmas.getk_setk_self]
        · rw [if_neg hex, if_neg hex, ih _ hndr, hrest, hpa, AssocLemmas.getk_popk_self]
      · rw [if_neg htd, if_neg htd, ih _ hndr, hrest]
    · -- a different head: its step leaves a's trie entry alone
      have hne : a ≠ p.1 := fun h => hpa h.symm
      rw [show getk (p :: rest) a = getk rest a from by rw [getk, if_neg hpa]]
      by_cases htd : (p.2.touched || p.2.deleted) = true
      · rw [if_pos htd]
        by_cases hex : (existsAfterCommit cfg bn p.2.commit || allow_empties) = true
        · rw [if_pos hex, ih _ hndr]
          cases hr : getk rest a with
          | some o => by_cases h2 : (o.touched || o.deleted) = true <;>
              simp [h2, AssocLemmas.getk_setk_ne _ _ _ _ hne]
          | none => simp [AssocLemmas.getk_setk_ne _ _ _ _ hne]
        · rw [if_neg hex, ih _ hndr]
          cases hr : getk rest a with
          | some o => by_cases h2 : (o.touched || o.deleted) = true <;>
              simp [h2, AssocLemmas.getk_popk_ne _ _ _ hne]
          | none => simp [AssocLemmas.getk_popk_ne _ _ _ hne]
      · rw [if_neg htd, ih _ hndr]

/-- Per-address description of the trie after State.commit. -/
theorem getk_commit_trie (s : State) (allow_empties : Bool) (a : Nat)
    (hnd : KeysNodup s.cache) :
    getk ((s.commit allow_empties).trie) a =
      match getk s.cache a with
      | some o =>
        if o.touched || o.deleted then
          (if existsAfterCommit s.cfg s.aux.block_number o.commit || allow_empties
           then some o.commit.toRecord else none)
        else getk s.trie a
      | none => getk s.trie a := by
  unfold State.commit
  exact commit_fold_getk s.cfg s.aux.block_number allow_empties s.cache s.trie a hnd

/-- Account.commit preserves blankness (it only moves storage). -/
theorem account_commit_is_blank (o : Account) : o.commit.is_blank = o.is_blank := rfl

end StateLemmas

/-- C4: a blank account that was never touched (and not deleted) and is
absent from the trie stays absent after commit; and from Spurious Dragon
onward a touched account that is blank at commit time is removed from
the trie by commit. -/
theorem blank_account_pruning :
    (∀ (s : State) (a : Nat), KeysNodup s.cache →
      getk s.trie a = none →
      (getk s.cache a = none ∨
        ∃ o, getk s.cache a = some o ∧ o.is_blank = true ∧
          o.touched = false ∧ o.deleted = false) →
      getk ((s.commit).trie) a = none) ∧
    (∀ (s : State) (a : Nat) (o : Account), KeysNodup s.cache →
      getk s.cache a = some o → o.touched = true → o.is_blank = true →
      s.is_SPURIOUS_DRAGON = true →
      getk ((s.commit).trie) a = none) := by
  constructor
  · intro s a hnd htrie hcase
    rw [StateLemmas.getk_commit_trie s false a hnd]
    rcases hcase with hnone | ⟨o, hsome, _, htch, hdel⟩
    · rw [hnone, htrie]
    · rw [hsome]
      dsimp only
      rw [htch, hdel]
      simp only [Bool.or_false]
      rw [if_neg (by simp), htrie]
  · intro s a o hnd hsome htch hblank hfork
    rw [StateLemmas.getk_commit_trie s false a hnd, hsome]
    dsimp only
    rw [htch]
    simp only [Bool.true_or, if_pos]
    have hex : existsAfterCommit s.cfg s.aux.block_number o.commit = false := by
      unfold existsAfterCommit
      have hsd : s.cfg.spurious_dragon_blknum ≤ s.aux.block_number := by
        unfold State.is_SPURIOUS_DRAGON at hfork
        simpa using hfork
      rw [if_pos hsd, StateLemmas.account_commit_is_blank, hblank]
      rfl
    rw [hex]
    rfl

theorem blank_account_pruning_witness :
    getk ((({ trie := [], cache := [(4, Account.blank 0 0)], journal := [], aux := {}
              cfg := {} } : State).commit).trie) 4 = none ∧
    getk ((({ trie := [(4, { nonce := 0, token_balances := [], storage := [], code_hash := []
                             full_shard_key := 0 })]
              cache := [(4, { Account.blank 0 0 with touched := true, existent_at_start := true })]
              journal := [], aux := {}, cfg := {} } : State).commit).trie) 4 = none := by
  constructor
  · exact blank_account_pruning.1 _ 4 (by decide) rfl
      (Or.inr ⟨Account.blank 0 0, rfl, rfl, rfl, rfl⟩)
  · exact blank_account_pruning.2 _ 4 { Account.blank 0 0 with touched := true, existent_at_start := true }
      (by decide) rfl rfl rfl rfl

namespace StateLemmas

theorem updateCached_trie (s : State) (a : Nat) (f : Account → Account) :
    (s.updateCached a f).trie = s.trie := by
  unfold State.updateCached
  cases h : getk s.cache a <;> rfl

theorem applyUndo_trie (e : JEntry) (s : State) : (applyUndo e s).trie = s.trie := by
  cases e <;> first
    | rfl
    | apply updateCached_trie

theorem replayJournal_trie (es : List JEntry) (s : State) :
    (replayJournal es s).trie = s.trie := by
  induction es generalizing s with
  | nil => rfl
  | cons e tail ih => rw [replayJournal, ih, applyUndo_trie]

theorem delta_cache_of_empty (s : State) (a t : Nat) (hc : s.cache = []) :
    (s.delta_token_balance a t 0).cache
      = [(a, { loadView s a with touched := true })] := by
  unfold State.delta_token_balance
  rw [gca_eq]
  dsimp only
  rw [if_pos rfl, jSetTouched_eq _ _ _ _ (getk_cacheFill_self s a)]
  show setk (cacheFill s a).cache a { loadView s a with touched := true } = _
  rw [cacheFill_cache_of_empty s a hc]
  simp [setk]

end StateLemmas

/-- C6 (amended): when the live trie root differs from the snapshotted
root, revert insists the snapshot's journal length be zero (the assert,
modelled as failure); in that case it resets the trie root to the
snapshotted root and discards the whole account cache, so after the
auxiliary restore the cache is empty — unless the geth+parity carve-out
then fires (THREE touched before the replay and restored block number in
(2675000, 2675200)), which immediately re-caches exactly THREE. -/
theorem revert_root_reset (s : State) (snap : Snapshot)
    (hne : snap.root ≠ s.trie) :
    (snap.journal_len ≠ 0 → s.revert snap = none) ∧
    (snap.journal_len = 0 →
      ∃ s', s.revert snap = some s' ∧ s'.trie = snap.root ∧ s'.aux = snap.auxvars ∧
        (¬ ((getk s.cache THREE).map Account.touched).getD false = true ∨
          ¬ (2675000 < snap.auxvars.block_number ∧ snap.auxvars.block_number < 2675200) →
          s'.cache = []) ∧
        (((getk s.cache THREE).map Account.touched).getD false = true ∧
          2675000 < snap.auxvars.block_number ∧ snap.auxvars.block_number < 2675200 →
          ∃ o, s'.cache = [(THREE, o)])) := by
  have htt : (match getk s.cache THREE with
      | some o => o.touched
      | none => false) = ((getk s.cache THREE).map Account.touched).getD false := by
    cases h : getk s.cache THREE <;> rfl
  unfold State.revert
  dsimp only
  rw [htt]
  rw [show ({ replayJournal (s.journal.take (s.journal.length - snap.journal_len)) s with
      journal := s.journal.drop (s.journal.length - snap.journal_len) } : State).trie
    = s.trie from StateLemmas.replayJournal_trie _ s]
  rw [if_neg hne]
  constructor
  · intro hlen
    rw [if_neg hlen]
  · intro hlen
    rw [if_pos hlen]
    set tt := ((getk s.cache THREE).map Account.touched).getD false with htt2
    set s3 : State := { replayJournal (s.journal.take (s.journal.length - snap.journal_len)) s with
      journal := s.journal.drop (s.journal.length - snap.journal_len)
      trie := snap.root
      cache := []
      aux := snap.auxvars } with hs3
    refine ⟨State.revertTail tt s3, rfl, ?_, ?_, ?_, ?_⟩
    · unfold State.revertTail
      by_cases hfire : tt = true ∧ 2675000 < s3.aux.block_number ∧ s3.aux.block_number < 2675200
      · rw [if_pos hfire, (StateLemmas.delta_frame _ _ _ _).2.1]
      · rw [if_neg hfire]
    · unfold State.revertTail
      by_cases hfire : tt = true ∧ 2675000 < s3.aux.block_number ∧ s3.aux.block_number < 2675200
      · rw [if_pos hfire, (StateLemmas.delta_frame _ _ _ _).1]
      · rw [if_neg hfire]
    · intro hnofire
      unfold State.revertTail
      rw [if_neg (by
        intro hfire
        rcases hnofire with h | h
        · exact h hfire.1
        · exact h hfire.2)]
    · intro hfire
      unfold State.revertTail
      rw [if_pos ⟨hfire.1, hfire.2⟩]
      exact ⟨_, StateLemmas.delta_cache_of_empty s3 THREE s3.cfg.default_chain_token rfl⟩

/-- C6 counterexample: in the root-reset case the claim says the cache
becomes empty, but when the carve-out fires the reverted state comes back
with THREE in the cache (one entry, not zero). -/
theorem revert_root_reset_cex :
    (revertCexState.revert revertCexSnap).map (fun s => s.cache.length) = some 1 := by
  decide

theorem revert_root_reset_witness :
    ∃ s', revertCexState.revert
        { root := [], journal_len := 0, auxvars := { block_number := 100 } } = some s' ∧
      s'.trie = [] ∧ s'.cache = [] := by
  obtain ⟨_, h0⟩ := revert_root_reset revertCexState
    { root := [], journal_len := 0, auxvars := { block_number := 100 } } (by decide)
  obtain ⟨s', heq, htrie, _, hcache, _⟩ := h0 rfl
  exact ⟨s', heq, htrie, hcache (Or.inr (by decide))⟩

namespace AssocLemmas

theorem getk_append_self {α : Type} (l : List (Nat × α)) (a : Nat) (v : α)
    (h : getk l a = none) : getk (l ++ [(a, v)]) a = some v := by
  rw [← setk_new l a v h, getk_setk_self]

theorem getk_append_ne {α : Type} (l : List (Nat × α)) (a b : Nat) (v : α)
    (hne : b ≠ a) : getk (l ++ [(a, v)]) b = getk l b := by
  induction l with
  | nil => simp [getk, Ne.symm hne]
  | cons p t ih =>
    rw [List.cons_append, getk, getk]
    by_cases hp : p.1 = b
    · simp [hp]
    · simp only [hp, if_neg, not_false_iff]
      exact ih

theorem setk_append_self {α : Type} (l : List (Nat × α)) (a : Nat) (v w : α)
    (h : getk l a = none) : setk (l ++ [(a, v)]) a w = l ++ [(a, w)] := by
  induction l with
  | nil => simp [setk]
  | cons p t ih =>
    by_cases hp : p.1 = a
    · simp [getk, hp] at h
    · simp only [getk, hp, if_neg, not_false_iff] at h
      simp [setk, hp, ih h]

theorem foldl_setk_disjoint {α : Type} (l : List (Nat × α)) :
    ∀ acc : List (Nat × α), KeysNodup l → (∀ p ∈ l, getk acc p.1 = none) →
    l.foldl (fun m p => setk m p.1 p.2) acc = acc ++ l := by
  induction l with
  | nil => intro acc _ _; simp
  | cons p t ih =>
    intro acc hnd hdisj
    have hndt : KeysNodup t := by
      unfold KeysNodup keysOf at hnd ⊢
      simp only [List.map_cons, List.nodup_cons] at hnd
      exact hnd.2
    have hacc : getk acc p.1 = none := hdisj p (List.mem_cons_self p t)
    rw [List.foldl_cons, setk_new acc p.1 p.2 hacc]
    rw [ih (acc ++ [(p.1, p.2)]) hndt ?_]
    · simp
    · intro q hq
      have hqp : q.1 ≠ p.1 := by
        intro hcontra
        unfold KeysNodup keysOf at hnd
        simp only [List.map_cons, List.nodup_cons] at hnd
        exact hnd.1 (hcontra ▸ List.mem_map.mpr ⟨q, hq, rfl⟩)
      rw [getk_append_ne _ _ _ _ hqp]
      exact hdisj q (List.mem_cons_of_mem p hq)

theorem flush_fold (slots : List (Nat × Int)) :
    ∀ acc : List (Nat × Int), KeysNodup slots → (∀ kv ∈ slots, kv.2 ≠ 0) →
    (∀ kv ∈ slots, getk acc kv.1 = none) →
    slots.foldl (fun tr kv => if kv.2 = 0 then popk tr kv.1 else setk tr kv.1 kv.2) acc
      = acc ++ slots := by
  induction slots with
  | nil => intro acc _ _ _; simp
  | cons p t ih =>
    intro acc hnd hnz hdisj
    have hndt : KeysNodup t := by
      unfold KeysNodup keysOf at hnd ⊢
      simp only [List.map_cons, List.nodup_cons] at hnd
      exact hnd.2
    rw [List.foldl_cons, if_neg (hnz p (List.mem_cons_self p t))]
    rw [setk_new acc p.1 p.2 (hdisj p (List.mem_cons_self p t))]
    rw [ih (acc ++ [(p.1, p.2)]) hndt (fun kv hkv => hnz kv (List.mem_cons_of_mem p hkv)) ?_]
    · simp
    · intro q hq
      have hqp : q.1 ≠ p.1 := by
        intro hcontra
        unfold KeysNodup keysOf at hnd
        simp only [List.map_cons, List.nodup_cons] at hnd
        exact hnd.1 (hcontra ▸ List.mem_map.mpr ⟨q, hq, rfl⟩)
      rw [getk_append_ne _ _ _ _ hqp]
      exact hdisj q (List.mem_cons_of_mem p hq)

theorem dictEq_nil_left {α : Type} [BEq α] (m : List (Nat × α)) :
    dictEq ([] : List (Nat × α)) m = true ↔ m = [] := by
  constructor
  · intro h
    cases m with
    | nil => rfl
    | cons p t =>
      exfalso
      unfold dictEq keysOf at h
      rw [List.all_eq_true] at h
      have hp := h p.1 (by simp)
      rw [show getk ([] : List (Nat × α)) p.1 = none from rfl] at hp
      rw [show getk (p :: t) p.1 = some p.2 from by rw [getk, if_pos rfl]] at hp
      simp at hp
  · intro h
    subst h
    rfl

end AssocLemmas

namespace StateLemmas

theorem loadView_of_cached (s : State) (a : Nat) (o : Account)
    (h : getk s.cache a = some o) : loadView s a = o := by
  unfold loadView
  rw [h]

theorem cacheFill_of_cached (s : State) (a : Nat) (o : Account)
    (h : getk s.cache a = some o) : cacheFill s a = s := by
  unfold cacheFill
  rw [h]

theorem loadView_of_blank (s : State) (a : Nat) (hm : getk s.cache a = none)
    (ht : getk s.trie a = none) :
    loadView s a = Account.blank s.aux.full_shard_key s.cfg.account_initial_nonce := by
  unfold loadView
  rw [hm, ht]

theorem cacheFill_of_miss (s : State) (a : Nat) (hm : getk s.cache a = none) :
    cacheFill s a = { s with cache := s.cache ++ [(a, loadView s a)] } := by
  unfold cacheFill
  rw [hm, AssocLemmas.setk_new _ _ _ hm]

theorem account_touched_absorb (x : Account) (sc : List (Nat × Int))
    (h : x.touched = true) :
    ({ x with storage_cache := sc, touched := true } : Account)
      = { x with storage_cache := sc } := by
  cases x
  simp_all

/-- The cache-filling prefix loop of State.to_dict. -/
theorem fill_fold_spec (ks : List Nat) : ∀ (st : State),
    ks.Nodup → (∀ a ∈ ks, getk st.cache a = none) →
    ks.foldl (fun st2 a => (st2.get_and_cache_account a).2) st
      = { st with cache := st.cache ++ ks.map (fun a => (a, loadView st a)) } := by
  induction ks with
  | nil =>
    intro st _ _
    simp
  | cons a ks' ih =>
    intro st hnd hmiss
    rw [List.foldl_cons]
    have ha : getk st.cache a = none := hmiss a (List.mem_cons_self a ks')
    have hfill : (st.get_and_cache_account a).2 = cacheFill st a := by rw [gca_eq]
    rw [hfill]
    rw [ih (cacheFill st a) (List.nodup_cons.mp hnd).2 ?_]
    · have hlv : (fun b => (b, loadView (cacheFill st a) b))
          = fun b => (b, loadView st b) := by
        funext b
        rw [loadView_cacheFill]
      rw [hlv, cacheFill_of_miss st a ha]
      simp
    · intro b hb
      have hba : b ≠ a := by
        intro hcontra
        exact (List.nodup_cons.mp hnd).1 (hcontra ▸ hb)
      rw [cacheFill_of_miss st a ha]
      show getk (st.cache ++ [(a, loadView st a)]) b = none
      rw [AssocLemmas.getk_append_ne _ _ _ _ hba]
      exact hmiss b (List.mem_cons_of_mem a hb)

/-- State.to_dict over a clean cache dumps exactly the trie records. -/
theorem to_dict_eq (s : State) (hc : s.cache = []) (hnd : KeysNodup s.trie) :
    (s.to_dict).1 = s.trie.map (fun p => (p.1, (Account.ofRecord p.2).to_dict)) := by
  unfold State.to_dict
  dsimp only
  rw [fill_fold_spec (keysOf s.trie) s hnd ?_]
  · rw [hc]
    show ((keysOf s.trie).map (fun a => (a, loadView s a))).map
        (fun p => (p.1, p.2.to_dict)) = _
    rw [List.map_map]
    unfold keysOf
    rw [List.map_map]
    apply List.map_congr_left
    intro p hp
    have hlv : loadView s p.1 = Account.ofRecord p.2 := by
      unfold loadView
      rw [hc]
      show (match getk s.trie p.1 with
        | some r => Account.ofRecord r
        | none => Account.blank s.aux.full_shard_key s.cfg.account_initial_nonce) = _
      rw [AssocLemmas.mem_getk hnd hp]
    show (p.1, (loadView s p.1).to_dict) = (p.1, (Account.ofRecord p.2).to_dict)
    rw [hlv]
  · intro a _
    rw [hc]
    rfl

/-- The storage-slot application loop of from_snapshot on a cached,
already-touched account. -/
theorem storage_fold_spec (slots : List (Nat × Int)) : ∀ (st : State) (addr : Nat)
    (pre : List (Nat × Account)) (o : Account),
    st.cache = pre ++ [(addr, o)] → getk pre addr = none → o.touched = true →
    ∃ J, slots.foldl (fun st2 kv => st2.set_storage_data addr kv.1 kv.2) st
      = { st with
          cache := pre ++ [(addr,
            { o with storage_cache := slots.foldl (fun m kv => setk m kv.1 kv.2) o.storage_cache })]
          journal := J } := by
  induction slots with
  | nil =>
    intro st addr pre o hc hpre _
    refine ⟨st.journal, ?_⟩
    show st = ({ st with cache := pre ++ [(addr, o)], journal := st.journal } : State)
    rw [← hc]
  | cons kv slots' ih =>
    intro st addr pre o hc hpre htch
    rw [List.foldl_cons]
    have hsome : getk st.cache addr = some o := by
      rw [hc]
      exact AssocLemmas.getk_append_self _ _ _ hpre
    have hstep : ∃ J2, st.set_storage_data addr kv.1 kv.2
        = { st with
            cache := pre ++ [(addr, { o with storage_cache := setk o.storage_cache kv.1 kv.2 })]
            journal := J2 } := by
      unfold State.set_storage_data
      rw [gca_eq, cacheFill_of_cached st addr o hsome, loadView_of_cached st addr o hsome]
      dsimp only
      unfold Account.get_storage_data Account.set_storage_data
      cases hk : getk o.storage_cache kv.1 with
      | some w =>
        dsimp only
        rw [jSetTouched_eq _ _ _ { o with storage_cache := setk o.storage_cache kv.1 kv.2 }
          (by rw [shape_cache]; simp)]
        rw [account_touched_absorb _ _ htch, hc]
        rw [AssocLemmas.setk_append_self _ _ _ _ hpre,
          AssocLemmas.setk_append_self _ _ _ _ hpre]
        exact ⟨_, rfl⟩
      | none =>
        dsimp only
        rw [jSetTouched_eq _ _ _ { o with
            storage_cache := setk (setk o.storage_cache kv.1
              ((getk o.storage_trie kv.1).getD 0)) kv.1 kv.2 }
          (by rw [shape_cache]; simp)]
        rw [AssocLemmas.setk_setk_same, account_touched_absorb _ _ htch, hc]
        rw [AssocLemmas.setk_append_self _ _ _ _ hpre,
          AssocLemmas.setk_append_self _ _ _ _ hpre]
        exact ⟨_, rfl⟩
    obtain ⟨J2, hstep⟩ := hstep
    rw [hstep]
    obtain ⟨J, hJ⟩ := ih ({ st with
        cache := pre ++ [(addr, { o with storage_cache := setk o.storage_cache kv.1 kv.2 })]
        journal := J2 } : State) addr pre
      { o with storage_cache := setk o.storage_cache kv.1 kv.2 } rfl hpre htch
    refine ⟨J, ?_⟩
    rw [hJ]
    rfl

theorem set_code_cached_spec (S : State) (addr : Nat) (pre : List (Nat × Account))
    (A : Account) (c : List Nat)
    (hc : S.cache = pre ++ [(addr, A)]) (hpre : getk pre addr = none) :
    ∃ J, S.set_code addr c
      = { S with
          cache := pre ++ [(addr, { A with code := c
                                           touched := true })]
          journal := J } := by
  have hsome : getk S.cache addr = some A := by
    rw [hc]
    exact AssocLemmas.getk_append_self _ _ _ hpre
  unfold State.set_code
  rw [gca_eq, cacheFill_of_cached S addr A hsome]
  dsimp only
  rw [jSetCode_eq _ _ _ _ hsome]
  rw [jSetTouched_eq _ _ _ { A with code := c } (by rw [shape_cache]; simp)]
  rw [hc, AssocLemmas.setk_append_self _ _ _ _ hpre,
    AssocLemmas.setk_append_self _ _ _ _ hpre]
  exact ⟨_, rfl⟩

theorem set_nonce_cached_spec (S : State) (addr : Nat) (pre : List (Nat × Account))
    (A : Account) (n : Int)
    (hc : S.cache = pre ++ [(addr, A)]) (hpre : getk pre addr = none) :
    ∃ J, S.set_nonce addr n
      = { S with
          cache := pre ++ [(addr, { A with nonce := n
                                           touched := true })]
          journal := J } := by
  have hsome : getk S.cache addr = some A := by
    rw [hc]
    exact AssocLemmas.getk_append_self _ _ _ hpre
  unfold State.set_nonce
  rw [gca_eq, cacheFill_of_cached S addr A hsome]
  dsimp only
  rw [jSetNonce_eq _ _ _ _ hsome]
  rw [jSetTouched_eq _ _ _ { A with nonce := n } (by rw [shape_cache]; simp)]
  rw [hc, AssocLemmas.setk_append_self _ _ _ _ hpre,
    AssocLemmas.setk_append_self _ _ _ _ hpre]
  exact ⟨_, rfl⟩

/-- State.set_balances applied to an address that is neither cached nor
in the trie: the blank account is created and its balances replaced by
the argument (a no-op replacement when the argument dict is empty). -/
theorem set_balances_blank_spec (st : State) (addr : Nat) (m : List (Nat × Int))
    (hmiss : getk st.cache addr = none) (htrie : getk st.trie addr = none) :
    ∃ J, st.set_balances addr m
      = { st with
          cache := st.cache ++ [(addr,
            { nonce := st.cfg.account_initial_nonce, balances := m, storage_trie := []
              storage_cache := [], code := [], full_shard_key := st.aux.full_shard_key
              touched := true, existent_at_start := false, deleted := false })]
          journal := J } := by
  have hload := loadView_of_blank st addr hmiss htrie
  unfold State.set_balances
  rw [gca_eq, hload, cacheFill_of_miss st addr hmiss, hload]
  dsimp only
  by_cases hm : m = []
  · subst hm
    rw [if_pos (by rfl)]
    rw [jSetTouched_eq _ _ _ (Account.blank st.aux.full_shard_key st.cfg.account_initial_nonce)
      (by dsimp only; exact AssocLemmas.getk_append_self _ _ _ hmiss)]
    dsimp only
    rw [AssocLemmas.setk_append_self _ _ _ _ hmiss]
    exact ⟨_, rfl⟩
  · rw [if_neg (show ¬(dictEq (Account.blank st.aux.full_shard_key
        st.cfg.account_initial_nonce).balances m = true) from
        fun h => hm ((AssocLemmas.dictEq_nil_left m).mp h))]
    rw [jSetBalances_eq _ _ _ (Account.blank st.aux.full_shard_key st.cfg.account_initial_nonce)
      (by dsimp only; exact AssocLemmas.getk_append_self _ _ _ hmiss)]
    dsimp only
    rw [AssocLemmas.setk_append_self _ _ _ _ hmiss]
    rw [jSetTouched_eq _ _ _ { Account.blank st.aux.full_shard_key st.cfg.account_initial_nonce
        with balances := m } (by dsimp only; exact AssocLemmas.getk_append_self _ _ _ hmiss)]
    dsimp only
    rw [AssocLemmas.setk_append_self _ _ _ _ hmiss]
    exact ⟨_, rfl⟩

theorem applyAccountDump_spec (st : State) (addr : Nat) (r : AccountRecord)
    (hmiss : getk st.cache addr = none) (htrie : getk st.trie addr = none)
    (hnds : KeysNodup r.storage) :
    ∃ J, applyAccountDump st addr ((Account.ofRecord r).to_dict)
      = { st with
          cache := st.cache ++ [(addr, rebuiltAccount st.aux.full_shard_key r)]
          journal := J } := by
  have hdmp : (Account.ofRecord r).to_dict
      = ({ token_balances := some (decodeBal r.token_balances), wei := none
           code := some r.code_hash, nonce := some r.nonce
           storage := some r.storage } : AccountDump) := rfl
  rw [hdmp]
  unfold applyAccountDump
  dsimp only
  obtain ⟨J1, h1⟩ := set_balances_blank_spec st addr (decodeBal r.token_balances) hmiss htrie
  rw [h1]
  obtain ⟨J2, h2⟩ := set_code_cached_spec
    ({ st with
        cache := st.cache ++ [(addr,
          { nonce := st.cfg.account_initial_nonce, balances := decodeBal r.token_balances
            storage_trie := [], storage_cache := [], code := []
            full_shard_key := st.aux.full_shard_key
            touched := true, existent_at_start := false, deleted := false })]
        journal := J1 } : State) addr st.cache
    { nonce := st.cfg.account_initial_nonce, balances := decodeBal r.token_balances
      storage_trie := [], storage_cache := [], code := []
      full_shard_key := st.aux.full_shard_key
      touched := true, existent_at_start := false, deleted := false }
    r.code_hash rfl hmiss
  rw [h2]
  dsimp only
  obtain ⟨J3, h3⟩ := set_nonce_cached_spec
    ({ st with
        cache := st.cache ++ [(addr,
          { nonce := st.cfg.account_initial_nonce, balances := decodeBal r.token_balances
            storage_trie := [], storage_cache := [], code := r.code_hash
            full_shard_key := st.aux.full_shard_key
            touched := true, existent_at_start := false, deleted := false })]
        journal := J2 } : State) addr st.cache
    { nonce := st.cfg.account_initial_nonce, balances := decodeBal r.token_balances
      storage_trie := [], storage_cache := [], code := r.code_hash
      full_shard_key := st.aux.full_shard_key
      touched := true, existent_at_start := false, deleted := false }
    r.nonce rfl hmiss
  rw [h3]
  dsimp only
  obtain ⟨J4, h4⟩ := storage_fold_spec r.storage
    ({ st with
        cache := st.cache ++ [(addr,
          { nonce := r.nonce, balances := decodeBal r.token_balances
            storage_trie := [], storage_cache := [], code := r.code_hash
            full_shard_key := st.aux.full_shard_key
            touched := true, existent_at_start := false, deleted := false })]
        journal := J3 } : State) addr st.cache
    { nonce := r.nonce, balances := decodeBal r.token_balances
      storage_trie := [], storage_cache := [], code := r.code_hash
      full_shard_key := st.aux.full_shard_key
      touched := true, existent_at_start := false, deleted := false }
    rfl hmiss rfl
  rw [h4]
  dsimp only
  have hfold : List.foldl (fun m kv => setk m kv.1 kv.2) ([] : List (Nat × Int)) r.storage
      = r.storage := by
    have h := AssocLemmas.foldl_setk_disjoint r.storage [] hnds (by intro p _; rfl)
    simpa using h
  rw [hfold]
  exact ⟨J4, rfl⟩

end StateLemmas

namespace StateLemmas

theorem commit_eq (s : State) (ae : Bool) :
    s.commit ae = { s with
      trie := s.cache.foldl (commitStep s.cfg s.aux.block_number ae) s.trie
      cache := []
      journal := [] } := rfl

/-- Restoring the auxiliary variables dumped without prev-block
suppression recovers them all, except the never-transported list
variables and cursor (reset to defaults) and the prev_headers
truncation. -/
theorem restore_dump_aux (s : State) :
    (dumpAuxVars s false).restore
      = { s.aux with
          logs := []
          receipts := []
          suicides := []
          xshard_list := []
          prev_headers := s.aux.prev_headers.take s.cfg.prev_header_depth
          xshard_tx_cursor_info := none } := rfl

/-- The alloc-application loop of from_snapshot over dumps of trie
records at fresh addresses: each address ends cached as its rebuilt
account. -/
theorem alloc_fold_spec (tr : List (Nat × AccountRecord)) : ∀ (st : State),
    KeysNodup tr →
    (∀ p ∈ tr, getk st.cache p.1 = none) →
    (∀ p ∈ tr, getk st.trie p.1 = none) →
    (∀ p ∈ tr, KeysNodup p.2.storage) →
    ∃ J, (tr.map (fun p => (p.1, (Account.ofRecord p.2).to_dict))).foldl
        (fun st2 q => applyAccountDump st2 q.1 q.2) st
      = { st with
          cache := st.cache
            ++ tr.map (fun p => (p.1, rebuiltAccount st.aux.full_shard_key p.2))
          journal := J } := by
  induction tr with
  | nil =>
    intro st _ _ _ _
    exact ⟨st.journal, by simp⟩
  | cons p t ih =>
    intro st hnd hmc hmt hnds
    have hndt : KeysNodup t := by
      unfold KeysNodup keysOf at hnd ⊢
      simp only [List.map_cons, List.nodup_cons] at hnd
      exact hnd.2
    rw [List.map_cons, List.foldl_cons]
    obtain ⟨J1, h1⟩ := applyAccountDump_spec st p.1 p.2
      (hmc p (List.mem_cons_self p t)) (hmt p (List.mem_cons_self p t))
      (hnds p (List.mem_cons_self p t))
    rw [h1]
    have hmc2 : ∀ q ∈ t, getk ({ st with
        cache := st.cache ++ [(p.1, rebuiltAccount st.aux.full_shard_key p.2)]
        journal := J1 } : State).cache q.1 = none := by
      intro q hq
      have hqp : q.1 ≠ p.1 := by
        intro hcontra
        unfold KeysNodup keysOf at hnd
        simp only [List.map_cons, List.nodup_cons] at hnd
        exact hnd.1 (hcontra ▸ List.mem_map.mpr ⟨q, hq, rfl⟩)
      show getk (st.cache ++ [(p.1, rebuiltAccount st.aux.full_shard_key p.2)]) q.1 = none
      rw [AssocLemmas.getk_append_ne _ _ _ _ hqp]
      exact hmc q (List.mem_cons_of_mem p hq)
    obtain ⟨J2, h2⟩ := ih ({ st with
        cache := st.cache ++ [(p.1, rebuiltAccount st.aux.full_shard_key p.2)]
        journal := J1 } : State) hndt hmc2
      (fun q hq => hmt q (List.mem_cons_of_mem p hq))
      (fun q hq => hnds q (List.mem_cons_of_mem p hq))
    rw [h2]
    refine ⟨J2, ?_⟩
    dsimp only
    rw [List.append_assoc, List.singleton_append]
    rfl

/-- The commit fold applied to a cache of rebuilt accounts with
canonical, non-blank source records writes back exactly those records. -/
theorem commit_fold_rebuilt (tr : List (Nat × AccountRecord)) :
    ∀ (acc : List (Nat × AccountRecord)) (cfg : Config) (bn : Int) (ae : Bool) (fsk : Nat),
    KeysNodup tr →
    (∀ p ∈ tr, serializeBal (decodeBal p.2.token_balances) = p.2.token_balances) →
    (∀ p ∈ tr, KeysNodup p.2.storage) →
    (∀ p ∈ tr, ∀ kv ∈ p.2.storage, kv.2 ≠ 0) →
    (∀ p ∈ tr, (Account.ofRecord p.2).is_blank = false) →
    (∀ p ∈ tr, p.2.full_shard_key = fsk) →
    (∀ p ∈ tr, getk acc p.1 = none) →
    (tr.map (fun p => (p.1, rebuiltAccount fsk p.2))).foldl (commitStep cfg bn ae) acc
      = acc ++ tr := by
  induction tr with
  | nil =>
    intro acc _ _ _ _ _ _ _ _ _ _
    simp
  | cons p t ih =>
    intro acc cfg bn ae fsk hnd hser hnds hnz hnb hfsk hdisj
    have hndt : KeysNodup t := by
      unfold KeysNodup keysOf at hnd ⊢
      simp only [List.map_cons, List.nodup_cons] at hnd
      exact hnd.2
    rw [List.map_cons, List.foldl_cons]
    have hcommit : (rebuiltAccount fsk p.2).commit
        = { rebuiltAccount fsk p.2 with storage_cache := [], storage_trie := p.2.storage } := by
      unfold Account.commit rebuiltAccount
      dsimp only
      rw [AssocLemmas.flush_fold p.2.storage [] (hnds p (List.mem_cons_self p t))
        (hnz p (List.mem_cons_self p t)) (fun kv _ => rfl)]
      rw [List.nil_append]
    have hbl : ({ rebuiltAccount fsk p.2 with
        storage_cache := [], storage_trie := p.2.storage } : Account).is_blank = false := by
      show (Account.ofRecord p.2).is_blank = false
      exact hnb p (List.mem_cons_self p t)
    have hex : existsAfterCommit cfg bn ({ rebuiltAccount fsk p.2 with
        storage_cache := [], storage_trie := p.2.storage } : Account) = true := by
      unfold existsAfterCommit
      by_cases hsd : cfg.spurious_dragon_blknum ≤ bn
      · rw [if_pos hsd, hbl]
        rfl
      · rw [if_neg hsd]
        rfl
    have hrec : ({ rebuiltAccount fsk p.2 with
        storage_cache := [], storage_trie := p.2.storage } : Account).toRecord = p.2 := by
      unfold Account.toRecord rebuiltAccount
      dsimp only
      rw [hser p (List.mem_cons_self p t), ← hfsk p (List.mem_cons_self p t)]
    have hstep : commitStep cfg bn ae acc (p.1, rebuiltAccount fsk p.2)
        = setk acc p.1 p.2 := by
      unfold commitStep
      dsimp only
      rw [if_pos (show ((rebuiltAccount fsk p.2).touched
        || (rebuiltAccount fsk p.2).deleted) = true from rfl)]
      rw [hcommit, hex]
      rw [if_pos (show (true || ae) = true from Bool.true_or ae)]
      rw [hrec]
    rw [hstep, AssocLemmas.setk_new acc p.1 p.2 (hdisj p (List.mem_cons_self p t))]
    rw [ih (acc ++ [(p.1, p.2)]) cfg bn ae fsk hndt
      (fun q hq => hser q (List.mem_cons_of_mem p hq))
      (fun q hq => hnds q (List.mem_cons_of_mem p hq))
      (fun q hq => hnz q (List.mem_cons_of_mem p hq))
      (fun q hq => hnb q (List.mem_cons_of_mem p hq))
      (fun q hq => hfsk q (List.mem_cons_of_mem p hq))
      ?_]
    · rw [List.append_assoc, List.singleton_append]
    · intro q hq
      have hqp : q.1 ≠ p.1 := by
        intro hcontra
        unfold KeysNodup keysOf at hnd
        simp only [List.map_cons, List.nodup_cons] at hnd
        exact hnd.1 (hcontra ▸ List.mem_map.mpr ⟨q, hq, rfl⟩)
      rw [AssocLemmas.getk_append_ne _ _ _ _ hqp]
      exact hdisj q (List.mem_cons_of_mem p hq)

/-- The dump half of to_snapshot without root_only. -/
theorem to_snapshot_full_eq (s : State) :
    (s.to_snapshot false false).1
      = ({ alloc := some ((s.to_dict).1), state_root := none
           vars := dumpAuxVars s false } : SnapshotDump) := by
  unfold State.to_snapshot
  dsimp only
  rcases hd : s.to_dict with ⟨alloc, s1⟩
  rfl

end StateLemmas

/-- C2 (amended): for a state with a clean cache whose trie records are
canonical for the snapshot codec — full_shard_key 0 (the dump omits the
key, so the rebuild substitutes the fresh state's default), canonical
token-balance encodings, duplicate-free all-nonzero storage, non-blank
content — from_snapshot ∘ to_snapshot (full dump, prev-blocks kept)
reproduces the trie exactly and restores the auxiliary variables except
the never-transported list variables and cursor (reset to defaults) and
the PREV_HEADER_DEPTH truncation of prev_headers. -/
theorem snapshot_roundtrip (s : State)
    (hc : s.cache = []) (hnd : KeysNodup s.trie)
    (hrec : ∀ p ∈ s.trie,
      p.2.full_shard_key = 0 ∧
      serializeBal (decodeBal p.2.token_balances) = p.2.token_balances ∧
      KeysNodup p.2.storage ∧ (∀ kv ∈ p.2.storage, kv.2 ≠ 0) ∧
      (Account.ofRecord p.2).is_blank = false) :
    ∃ s2, State.from_snapshot (s.to_snapshot false false).1 s.cfg = some s2 ∧
      s2.trie = s.trie ∧
      s2.aux = { s.aux with
        logs := []
        receipts := []
        suicides := []
        xshard_list := []
        prev_headers := s.aux.prev_headers.take s.cfg.prev_header_depth
        xshard_tx_cursor_info := none } := by
  rw [StateLemmas.to_snapshot_full_eq]
  unfold State.from_snapshot
  dsimp only
  rw [StateLemmas.to_dict_eq s hc hnd]
  obtain ⟨J, hfold⟩ := StateLemmas.alloc_fold_spec s.trie (State.mk0 s.cfg) hnd
    (fun p _ => rfl) (fun p _ => rfl) (fun p hp => (hrec p hp).2.2.1)
  rw [hfold]
  rw [StateLemmas.restore_dump_aux]
  rw [StateLemmas.commit_eq]
  dsimp only [State.mk0]
  rw [List.nil_append]
  rw [StateLemmas.commit_fold_rebuilt s.trie [] s.cfg s.aux.block_number false 0 hnd
    (fun p hp => (hrec p hp).2.1)
    (fun p hp => (hrec p hp).2.2.1)
    (fun p hp => (hrec p hp).2.2.2.1)
    (fun p hp => (hrec p hp).2.2.2.2)
    (fun p hp => (hrec p hp).1)
    (fun p _ => rfl)]
  rw [List.nil_append]
  exact ⟨_, rfl, rfl, rfl⟩

theorem snapshot_roundtrip_witness :
    ∃ s2, State.from_snapshot (wSnapState.to_snapshot false false).1 wSnapState.cfg
        = some s2 ∧
      s2.trie = wSnapState.trie ∧
      s2.aux = { wSnapState.aux with
        logs := []
        receipts := []
        suicides := []
        xshard_list := []
        prev_headers := wSnapState.aux.prev_headers.take wSnapState.cfg.prev_header_depth
        xshard_tx_cursor_info := none } :=
  snapshot_roundtrip wSnapState rfl (by decide) (by decide)

/-- The unqualified round-trip law fails: a trie record with
full_shard_key 1 is rebuilt with key 0, changing the trie. -/
theorem snapshot_roundtrip_cex :
    (State.from_snapshot (cexSnapState.to_snapshot false false).1 cexSnapState.cfg).map
        (fun s2 => s2.trie)
      ≠ some cexSnapState.trie := by decide

namespace StateLemmas

theorem accEquiv_refl (o : Account) : AccEquiv o o :=
  ⟨rfl, rfl, rfl, rfl, rfl, fun _ => rfl⟩

theorem accEquiv_trans {o1 o2 o3 : Account} (h1 : AccEquiv o1 o2) (h2 : AccEquiv o2 o3) :
    AccEquiv o1 o3 :=
  ⟨h1.1.trans h2.1, h1.2.1.trans h2.2.1, h1.2.2.1.trans h2.2.2.1,
   h1.2.2.2.1.trans h2.2.2.2.1, h1.2.2.2.2.1.trans h2.2.2.2.2.1,
   fun k => (h1.2.2.2.2.2 k).trans (h2.2.2.2.2.2 k)⟩

theorem accEquiv_blank (f1 f2 : Nat) (n : Int) :
    AccEquiv (Account.blank f1 n) (Account.blank f2 n) :=
  ⟨rfl, rfl, rfl, rfl, rfl, fun _ => rfl⟩

theorem rel_refl (s : State) : RevRel s s :=
  ⟨rfl, rfl, rfl, fun x => ⟨fun h => h, accEquiv_refl (loadView s x)⟩⟩

theorem replayJournal_append (A B : List JEntry) : ∀ s : State,
    replayJournal (A ++ B) s = replayJournal B (replayJournal A s) := by
  induction A with
  | nil => intro s; rfl
  | cons e es ih =>
    intro s
    rw [List.cons_append]
    show replayJournal (es ++ B) (applyUndo e s) = _
    rw [ih (applyUndo e s)]
    rfl

theorem loadView_congr (s1 s2 : State) (x : Nat)
    (hc : getk s1.cache x = getk s2.cache x) (ht : s1.trie = s2.trie)
    (ha : s1.aux.full_shard_key = s2.aux.full_shard_key)
    (hg : s1.cfg.account_initial_nonce = s2.cfg.account_initial_nonce) :
    loadView s1 x = loadView s2 x := by
  unfold loadView
  rw [hc, ht, ha, hg]

theorem storageView_congr (o1 o2 : Account) (hc : o1.storage_cache = o2.storage_cache)
    (ht : o1.storage_trie = o2.storage_trie) (k : Nat) :
    storageView o1 k = storageView o2 k := by
  unfold storageView
  rw [hc, ht]

theorem storageView_setk_ne (o : Account) (kk k' : Nat) (w : Int) (h : k' ≠ kk) :
    storageView ({ o with storage_cache := setk o.storage_cache kk w } : Account) k'
      = storageView o k' := by
  unfold storageView
  show (match getk (setk o.storage_cache kk w) k' with
    | some v => v
    | none => (getk o.storage_trie k').getD 0) = _
  rw [AssocLemmas.getk_setk_ne _ _ _ _ h]

theorem storageView_setk_self (o : Account) (kk : Nat) (w : Int) :
    storageView ({ o with storage_cache := setk o.storage_cache kk w } : Account) kk = w := by
  unfold storageView
  show (match getk (setk o.storage_cache kk w) kk with
    | some v => v
    | none => (getk o.storage_trie kk).getD 0) = _
  rw [AssocLemmas.getk_setk_self]

theorem updateCached_hit (u : State) (a : Nat) (f : Account → Account) (o : Account)
    (ho : getk u.cache a = some o) :
    u.updateCached a f = { u with cache := setk u.cache a (f o) } := by
  unfold State.updateCached
  rw [ho]

theorem updateCached_setk (u : State) (a : Nat) (o1 : Account) (f : Account → Account) :
    ({ u with cache := setk u.cache a o1 } : State).updateCached a f
      = { u with cache := setk u.cache a (f o1) } := by
  unfold State.updateCached
  show (match getk (setk u.cache a o1) a with
    | some o => { u with cache := setk (setk u.cache a o1) a (f o) }
    | none => { u with cache := setk u.cache a o1 }) = _
  rw [AssocLemmas.getk_setk_self]
  dsimp only
  rw [AssocLemmas.setk_setk_same]

end StateLemmas

namespace StateLemmas

/-- Master cancellation step for an account mutator: if u relates back to
the mutated state t and the pending undo records rewrite u's cached
account at the target address through F, then the replayed state relates
back to the original state s. -/
theorem rel_restore (s t u : State) (a : Nat) (A' : Account) (F : Account → Account)
    (E : List JEntry)
    (hrel : RevRel t u)
    (hmono : ∀ x, getk s.cache x ≠ none → getk t.cache x ≠ none)
    (hca : getk t.cache a ≠ none)
    (hload : ∀ x, loadView t x = if x = a then A' else loadView s x)
    (htrie : t.trie = s.trie) (haux : t.aux = s.aux) (hcfg : t.cfg = s.cfg)
    (hstep : ∀ o, getk u.cache a = some o →
      replayJournal E u = { u with cache := setk u.cache a (F o) })
    (hF : ∀ o, AccEquiv o A' → AccEquiv (F o) (loadView s a)) :
    RevRel s (replayJournal E u) := by
  obtain ⟨hut, huc, hua, hx⟩ := hrel
  have hcau : getk u.cache a ≠ none := (hx a).1 hca
  obtain ⟨o_u, ho⟩ : ∃ o, getk u.cache a = some o := by
    cases h : getk u.cache a with
    | none => exact absurd h hcau
    | some o => exact ⟨o, rfl⟩
  rw [hstep o_u ho]
  have hAe : AccEquiv o_u A' := by
    have h := (hx a).2
    rw [loadView_of_cached u a o_u ho, hload a, if_pos rfl] at h
    exact h
  refine ⟨?_, ?_, ?_, ?_⟩
  · show u.trie = s.trie
    rw [hut, htrie]
  · show u.cfg = s.cfg
    rw [huc, hcfg]
  · show u.aux = s.aux
    rw [hua, haux]
  · intro x
    constructor
    · intro hsx
      show getk (setk u.cache a (F o_u)) x ≠ none
      by_cases hxa : x = a
      · subst hxa
        rw [AssocLemmas.getk_setk_self]
        simp
      · rw [AssocLemmas.getk_setk_ne _ _ _ _ hxa]
        exact (hx x).1 (hmono x hsx)
    · have hrw : loadView ({ u with cache := setk u.cache a (F o_u) } : State) x
          = if x = a then F o_u else loadView u x := shape_loadView u a (F o_u) u.journal x
      rw [hrw]
      by_cases hxa : x = a
      · subst hxa
        rw [if_pos rfl]
        exact hF o_u hAe
      · rw [if_neg hxa]
        have h := (hx x).2
        rw [hload x, if_neg hxa] at h
        exact h

/-- Master cancellation step for an auxiliary-variable mutator: the
mutated state t shares cache, trie and configuration with s, and the undo
rewrites u's auxiliary variables back to s's. -/
theorem rel_aux_undo (s t u : State) (A : Aux)
    (hrel : RevRel t u)
    (hcache : t.cache = s.cache) (htrie : t.trie = s.trie) (hcfg : t.cfg = s.cfg)
    (hA : A = s.aux) :
    RevRel s ({ u with aux := A } : State) := by
  obtain ⟨hut, huc, hua, hx⟩ := hrel
  refine ⟨?_, ?_, ?_, ?_⟩
  · show u.trie = s.trie
    rw [hut, htrie]
  · show u.cfg = s.cfg
    rw [huc, hcfg]
  · exact hA
  · intro x
    constructor
    · intro hsx
      show getk u.cache x ≠ none
      exact (hx x).1 (by rw [hcache]; exact hsx)
    · cases hu : getk u.cache x with
      | some o =>
        have l1 : loadView ({ u with aux := A } : State) x = o :=
          loadView_of_cached _ _ _ hu
        have l2 : loadView u x = o := loadView_of_cached _ _ _ hu
        have base := (hx x).2
        rw [l2] at base
        rw [l1]
        cases hs : getk s.cache x with
        | some o2 =>
          have lt : loadView t x = o2 := loadView_of_cached _ _ _ (by rw [hcache]; exact hs)
          have ls : loadView s x = o2 := loadView_of_cached _ _ _ hs
          rw [lt] at base
          rw [ls]
          exact base
        | none =>
          have htc : getk t.cache x = none := by rw [hcache]; exact hs
          cases hst : getk s.trie x with
          | some r =>
            have lt : loadView t x = Account.ofRecord r := by
              unfold loadView
              rw [htc, htrie, hst]
            have ls : loadView s x = Account.ofRecord r := by
              unfold loadView
              rw [hs, hst]
            rw [lt] at base
            rw [ls]
            exact base
          | none =>
            have lt : loadView t x
                = Account.blank t.aux.full_shard_key t.cfg.account_initial_nonce := by
              unfold loadView
              rw [htc, htrie, hst]
            have ls : loadView s x
                = Account.blank s.aux.full_shard_key s.cfg.account_initial_nonce := by
              unfold loadView
              rw [hs, hst]
            rw [lt] at base
            rw [ls]
            refine accEquiv_trans base ?_
            rw [hcfg]
            exact accEquiv_blank _ _ _
      | none =>
        have hsc : getk s.cache x = none := by
          by_contra hne
          exact ((hx x).1 (by rw [hcache]; exact hne)) hu
        have hl1 : loadView ({ u with aux := A } : State) x
            = match getk s.trie x with
              | some r => Account.ofRecord r
              | none => Account.blank A.full_shard_key u.cfg.account_initial_nonce := by
          unfold loadView
          show (match getk u.cache x with
            | some o => o
            | none => match getk u.trie x with
              | some r => Account.ofRecord r
              | none => Account.blank A.full_shard_key u.cfg.account_initial_nonce) = _
          rw [hu, hut, htrie]
        rw [hl1]
        cases hst : getk s.trie x with
        | some r =>
          have ls : loadView s x = Account.ofRecord r := by
            unfold loadView
            rw [hsc, hst]
          rw [ls]
          exact accEquiv_refl _
        | none =>
          have ls : loadView s x
              = Account.blank s.aux.full_shard_key s.cfg.account_initial_nonce := by
            unfold loadView
            rw [hsc, hst]
          rw [ls]
          rw [huc, hcfg]
          exact accEquiv_blank _ _ _

end StateLemmas

namespace StateLemmas

/-- The cache-key clauses of a state whose cache got one key rewritten
over a base agreeing with s off that key. -/
theorem cache_clause (S : State) (a : Nat) (o' : Account) (j : List JEntry) (s : State)
    (hS : ∀ x, x ≠ a → getk S.cache x = getk s.cache x) :
    (∀ x, getk s.cache x ≠ none →
      getk ({ S with cache := setk S.cache a o', journal := j } : State).cache x ≠ none) ∧
    getk ({ S with cache := setk S.cache a o', journal := j } : State).cache a ≠ none := by
  constructor
  · intro x h
    rw [shape_cache]
    by_cases hx : x = a
    · simp [hx]
    · rw [if_neg hx, hS x hx]
      exact h
  · rw [shape_cache]
    simp

theorem set_nonce_cache (s : State) (a : Nat) (v : Int) :
    (∀ x, getk s.cache x ≠ none → getk (s.set_nonce a v).cache x ≠ none) ∧
    getk (s.set_nonce a v).cache a ≠ none := by
  unfold State.set_nonce
  rw [gca_eq]
  dsimp only
  rw [jSetNonce_eq _ _ _ _ (getk_cacheFill_self s a)]
  rw [jSetTouched_eq _ _ _ { loadView s a with nonce := v } (by rw [shape_cache]; simp)]
  apply cache_clause
  intro x hx
  rw [shape_cache, if_neg hx, getk_cacheFill_ne s a x hx]

theorem set_code_cache (s : State) (a : Nat) (c : List Nat) :
    (∀ x, getk s.cache x ≠ none → getk (s.set_code a c).cache x ≠ none) ∧
    getk (s.set_code a c).cache a ≠ none := by
  unfold State.set_code
  rw [gca_eq]
  dsimp only
  rw [jSetCode_eq _ _ _ _ (getk_cacheFill_self s a)]
  rw [jSetTouched_eq _ _ _ { loadView s a with code := c } (by rw [shape_cache]; simp)]
  apply cache_clause
  intro x hx
  rw [shape_cache, if_neg hx, getk_cacheFill_ne s a x hx]

theorem increment_nonce_cache (s : State) (a : Nat) :
    (∀ x, getk s.cache x ≠ none → getk (s.increment_nonce a).cache x ≠ none) ∧
    getk (s.increment_nonce a).cache a ≠ none := by
  unfold State.increment_nonce
  rw [gca_eq]
  dsimp only
  rw [jSetNonce_eq _ _ _ _ (getk_cacheFill_self s a)]
  rw [jSetTouched_eq _ _ _ { loadView s a with nonce := (loadView s a).nonce + 1 }
    (by rw [shape_cache]; simp)]
  apply cache_clause
  intro x hx
  rw [shape_cache, if_neg hx, getk_cacheFill_ne s a x hx]

theorem set_balances_cache (s : State) (a : Nat) (m : List (Nat × Int)) :
    (∀ x, getk s.cache x ≠ none → getk (s.set_balances a m).cache x ≠ none) ∧
    getk (s.set_balances a m).cache a ≠ none := by
  unfold State.set_balances
  rw [gca_eq]
  dsimp only
  by_cases hd : dictEq (loadView s a).balances m
  · rw [if_pos hd]
    rw [jSetTouched_eq _ _ _ _ (getk_cacheFill_self s a)]
    apply cache_clause
    intro x hx
    exact getk_cacheFill_ne s a x hx
  · rw [if_neg hd]
    rw [jSetBalances_eq _ _ _ _ (getk_cacheFill_self s a)]
    rw [jSetTouched_eq _ _ _ { loadView s a with balances := m } (by rw [shape_cache]; simp)]
    apply cache_clause
    intro x hx
    rw [shape_cache, if_neg hx, getk_cacheFill_ne s a x hx]

theorem set_token_balance_cache (s : State) (a t : Nat) (val : Int) :
    (∀ x, getk s.cache x ≠ none → getk (s.set_token_balance a t val).cache x ≠ none) ∧
    getk (s.set_token_balance a t val).cache a ≠ none := by
  unfold State.set_token_balance
  rw [gca_eq]
  dsimp only
  by_cases hd : val = (getk (loadView s a).balances t).getD 0
  · rw [if_pos hd]
    rw [jSetTouched_eq _ _ _ _ (getk_cacheFill_self s a)]
    apply cache_clause
    intro x hx
    exact getk_cacheFill_ne s a x hx
  · rw [if_neg hd]
    rw [tbj_eq _ _ _ _ _ (getk_cacheFill_self s a)]
    rw [jSetTouched_eq _ _ _ { loadView s a with balances := setk (loadView s a).balances t val }
      (by rw [shape_cache]; simp)]
    apply cache_clause
    intro x hx
    rw [shape_cache, if_neg hx, getk_cacheFill_ne s a x hx]

theorem delta_token_balance_cache (s : State) (a t : Nat) (v : Int) :
    (∀ x, getk s.cache x ≠ none → getk (s.delta_token_balance a t v).cache x ≠ none) ∧
    getk (s.delta_token_balance a t v).cache a ≠ none := by
  unfold State.delta_token_balance
  rw [gca_eq]
  dsimp only
  by_cases hv : v = 0
  · rw [if_pos hv]
    rw [jSetTouched_eq _ _ _ _ (getk_cacheFill_self s a)]
    apply cache_clause
    intro x hx
    exact getk_cacheFill_ne s a x hx
  · rw [if_neg hv]
    rw [tbj_eq _ _ _ _ _ (getk_cacheFill_self s a)]
    rw [jSetTouched_eq _ _ _ ({ loadView s a with
        balances := setk (loadView s a).balances t
          ((getk (loadView s a).balances t).getD 0 + v) })
      (by rw [shape_cache]; simp)]
    apply cache_clause
    intro x hx
    rw [shape_cache, if_neg hx, getk_cacheFill_ne s a x hx]

theorem set_storage_data_cache (s : State) (a k : Nat) (v : Int) :
    (∀ x, getk s.cache x ≠ none → getk (s.set_storage_data a k v).cache x ≠ none) ∧
    getk (s.set_storage_data a k v).cache a ≠ none := by
  unfold State.set_storage_data
  rw [gca_eq]
  dsimp only
  unfold Account.get_storage_data Account.set_storage_data
  cases hk : getk (loadView s a).storage_cache k with
  | some w =>
    dsimp only
    rw [jSetTouched_eq _ _ _
      { loadView s a with storage_cache := setk (loadView s a).storage_cache k v }
      (by rw [shape_cache]; simp)]
    apply cache_clause
    intro x hx
    rw [shape_cache, if_neg hx, getk_cacheFill_ne s a x hx]
  | none =>
    dsimp only
    rw [jSetTouched_eq _ _ _ { loadView s a with
        storage_cache := setk (setk (loadView s a).storage_cache k
          ((getk (loadView s a).storage_trie k).getD 0)) k v }
      (by rw [shape_cache]; simp)]
    apply cache_clause
    intro x hx
    rw [shape_cache, if_neg hx, getk_cacheFill_ne s a x hx]

end StateLemmas

namespace StateLemmas

theorem delta_journal (s : State) (a tok : Nat) (v : Int) :
    (s.delta_token_balance a tok v).journal
      = (if v = 0 then JEntry.touchedFlag a (loadView s a).touched :: s.journal
         else JEntry.touchedFlag a (loadView s a).touched
           :: (match getk (loadView s a).balances tok with
               | none => JEntry.tokenPop a tok
               | some pre => JEntry.tokenSet a tok pre) :: s.journal) := by
  unfold State.delta_token_balance
  rw [gca_eq]
  dsimp only
  by_cases hv : v = 0
  · rw [if_pos hv, if_pos hv]
    rw [jSetTouched_eq _ _ _ _ (getk_cacheFill_self s a)]
    show JEntry.touchedFlag a (loadView s a).touched :: (cacheFill s a).journal = _
    rw [cacheFill_journal]
  · rw [if_neg hv, if_neg hv]
    rw [tbj_eq _ _ _ _ _ (getk_cacheFill_self s a)]
    rw [jSetTouched_eq _ _ _ ({ loadView s a with
        balances := setk (loadView s a).balances tok
          ((getk (loadView s a).balances tok).getD 0 + v) })
      (by rw [shape_cache]; simp)]
    show JEntry.touchedFlag a (loadView s a).touched
      :: (match getk (loadView s a).balances tok with
          | none => JEntry.tokenPop a tok
          | some pre => JEntry.tokenSet a tok pre) :: (cacheFill s a).journal = _
    rw [cacheFill_journal]

theorem cancel_set_nonce (s u : State) (a : Nat) (v : Int)
    (hrel : RevRel (s.set_nonce a v) u) :
    RevRel s (replayJournal (mutJournal (.set_nonce a v) s) u) := by
  have S := set_nonce_spec s a v
  have C := set_nonce_cache s a v
  refine rel_restore s (s.set_nonce a v) u a
    { loadView s a with nonce := v, touched := true }
    (fun o => { o with touched := (loadView s a).touched, nonce := (loadView s a).nonce })
    _ hrel C.1 C.2 S.1 S.2.2.1 S.2.2.2.1 S.2.2.2.2.1 ?_ ?_
  · intro o ho
    show applyUndo (JEntry.nonceVal a (loadView s a).nonce)
      (applyUndo (JEntry.touchedFlag a (loadView s a).touched) u) = _
    rw [show applyUndo (JEntry.touchedFlag a (loadView s a).touched) u
        = u.updateCached a (fun o2 => { o2 with touched := (loadView s a).touched }) from rfl]
    rw [updateCached_hit u a _ o ho]
    rw [show applyUndo (JEntry.nonceVal a (loadView s a).nonce)
        ({ u with cache := setk u.cache a { o with touched := (loadView s a).touched } } : State)
        = ({ u with
            cache := setk u.cache a { o with touched := (loadView s a).touched } } : State).updateCached
          a (fun o2 => { o2 with nonce := (loadView s a).nonce }) from rfl]
    rw [updateCached_setk]
  · intro o h
    exact ⟨rfl, h.2.1, h.2.2.1, rfl, h.2.2.2.2.1, fun k => h.2.2.2.2.2 k⟩

end StateLemmas

namespace StateLemmas

theorem cancel_set_code (s u : State) (a : Nat) (c : List Nat)
    (hrel : RevRel (s.set_code a c) u) :
    RevRel s (replayJournal (mutJournal (.set_code a c) s) u) := by
  have S := set_code_spec s a c
  have C := set_code_cache s a c
  refine rel_restore s (s.set_code a c) u a
    { loadView s a with code := c, touched := true }
    (fun o => { o with touched := (loadView s a).touched, code := (loadView s a).code })
    _ hrel C.1 C.2 S.1 S.2.2.1 S.2.2.2.1 S.2.2.2.2.1 ?_ ?_
  · intro o ho
    show applyUndo (JEntry.codeVal a (loadView s a).code)
      (applyUndo (JEntry.touchedFlag a (loadView s a).touched) u) = _
    rw [show applyUndo (JEntry.touchedFlag a (loadView s a).touched) u
        = u.updateCached a (fun o2 => { o2 with touched := (loadView s a).touched }) from rfl]
    rw [updateCached_hit u a _ o ho]
    rw [show applyUndo (JEntry.codeVal a (loadView s a).code)
        ({ u with cache := setk u.cache a { o with touched := (loadView s a).touched } } : State)
        = ({ u with
            cache := setk u.cache a { o with touched := (loadView s a).touched } } : State).updateCached
          a (fun o2 => { o2 with code := (loadView s a).code }) from rfl]
    rw [updateCached_setk]
  · intro o h
    exact ⟨h.1, h.2.1, rfl, rfl, h.2.2.2.2.1, fun k => h.2.2.2.2.2 k⟩

theorem cancel_increment_nonce (s u : State) (a : Nat)
    (hrel : RevRel (s.increment_nonce a) u) :
    RevRel s (replayJournal (mutJournal (.increment_nonce a) s) u) := by
  have S := increment_nonce_spec s a
  have C := increment_nonce_cache s a
  refine rel_restore s (s.increment_nonce a) u a
    { loadView s a with nonce := (loadView s a).nonce + 1, touched := true }
    (fun o => { o with touched := (loadView s a).touched, nonce := (loadView s a).nonce })
    _ hrel C.1 C.2 S.1 S.2.2.1 S.2.2.2.1 S.2.2.2.2.1 ?_ ?_
  · intro o ho
    show applyUndo (JEntry.nonceVal a (loadView s a).nonce)
      (applyUndo (JEntry.touchedFlag a (loadView s a).touched) u) = _
    rw [show applyUndo (JEntry.touchedFlag a (loadView s a).touched) u
        = u.updateCached a (fun o2 => { o2 with touched := (loadView s a).touched }) from rfl]
    rw [updateCached_hit u a _ o ho]
    rw [show applyUndo (JEntry.nonceVal a (loadView s a).nonce)
        ({ u with cache := setk u.cache a { o with touched := (loadView s a).touched } } : State)
        = ({ u with
            cache := setk u.cache a { o with touched := (loadView s a).touched } } : State).updateCached
          a (fun o2 => { o2 with nonce := (loadView s a).nonce }) from rfl]
    rw [updateCached_setk]
  · intro o h
    exact ⟨rfl, h.2.1, h.2.2.1, rfl, h.2.2.2.2.1, fun k => h.2.2.2.2.2 k⟩

theorem cancel_set_balances (s u : State) (a : Nat) (m : List (Nat × Int))
    (hrel : RevRel (s.set_balances a m) u) :
    RevRel s (replayJournal (mutJournal (.set_balances a m) s) u) := by
  have S := set_balances_spec s a m
  have C := set_balances_cache s a m
  by_cases hd : dictEq (loadView s a).balances m
  · have hload : ∀ x, loadView (s.set_balances a m) x
        = if x = a then { loadView s a with touched := true } else loadView s x := by
      intro x
      rw [S.1 x, if_pos hd]
    have hE : mutJournal (.set_balances a m) s
        = [JEntry.touchedFlag a (loadView s a).touched] := by
      simp only [mutJournal]
      rw [if_pos hd]
    rw [hE]
    refine rel_restore s (s.set_balances a m) u a
      { loadView s a with touched := true }
      (fun o => { o with touched := (loadView s a).touched })
      _ hrel C.1 C.2 hload S.2.1 S.2.2.1 S.2.2.2.1 ?_ ?_
    · intro o ho
      show applyUndo (JEntry.touchedFlag a (loadView s a).touched) u = _
      rw [show applyUndo (JEntry.touchedFlag a (loadView s a).touched) u
          = u.updateCached a (fun o2 => { o2 with touched := (loadView s a).touched }) from rfl]
      rw [updateCached_hit u a _ o ho]
    · intro o h
      exact ⟨h.1, h.2.1, h.2.2.1, rfl, h.2.2.2.2.1, fun k => h.2.2.2.2.2 k⟩
  · have hload : ∀ x, loadView (s.set_balances a m) x
        = if x = a then { loadView s a with balances := m, touched := true }
          else loadView s x := by
      intro x
      rw [S.1 x, if_neg hd]
    have hE : mutJournal (.set_balances a m) s
        = [JEntry.touchedFlag a (loadView s a).touched,
           JEntry.balancesMap a (loadView s a).balances] := by
      simp only [mutJournal]
      rw [if_neg hd]
    rw [hE]
    refine rel_restore s (s.set_balances a m) u a
      { loadView s a with balances := m, touched := true }
      (fun o => { o with touched := (loadView s a).touched, balances := (loadView s a).balances })
      _ hrel C.1 C.2 hload S.2.1 S.2.2.1 S.2.2.2.1 ?_ ?_
    · intro o ho
      show applyUndo (JEntry.balancesMap a (loadView s a).balances)
        (applyUndo (JEntry.touchedFlag a (loadView s a).touched) u) = _
      rw [show applyUndo (JEntry.touchedFlag a (loadView s a).touched) u
          = u.updateCached a (fun o2 => { o2 with touched := (loadView s a).touched }) from rfl]
      rw [updateCached_hit u a _ o ho]
      rw [show applyUndo (JEntry.balancesMap a (loadView s a).balances)
          ({ u with cache := setk u.cache a { o with touched := (loadView s a).touched } } : State)
          = ({ u with
              cache := setk u.cache a { o with touched := (loadView s a).touched } } : State).updateCached
            a (fun o2 => { o2 with balances := (loadView s a).balances }) from rfl]
      rw [updateCached_setk]
    · intro o h
      exact ⟨h.1, rfl, h.2.2.1, rfl, h.2.2.2.2.1, fun k => h.2.2.2.2.2 k⟩

end StateLemmas

namespace StateLemmas

theorem cancel_set_token_balance (s u : State) (a t : Nat) (val : Int)
    (hrel : RevRel (s.set_token_balance a t val) u) :
    RevRel s (replayJournal (mutJournal (.set_token_balance a t val) s) u) := by
  have S := set_token_balance_spec s a t val
  have C := set_token_balance_cache s a t val
  by_cases hd : val = (getk (loadView s a).balances t).getD 0
  · have hload : ∀ x, loadView (s.set_token_balance a t val) x
        = if x = a then { loadView s a with touched := true } else loadView s x := by
      intro x
      rw [S.1 x, if_pos hd]
    have hE : mutJournal (.set_token_balance a t val) s
        = [JEntry.touchedFlag a (loadView s a).touched] := by
      simp only [mutJournal]
      rw [if_pos hd]
    rw [hE]
    refine rel_restore s (s.set_token_balance a t val) u a
      { loadView s a with touched := true }
      (fun o => { o with touched := (loadView s a).touched })
      _ hrel C.1 C.2 hload S.2.1 S.2.2.1 S.2.2.2.1 ?_ ?_
    · intro o ho
      show applyUndo (JEntry.touchedFlag a (loadView s a).touched) u = _
      rw [show applyUndo (JEntry.touchedFlag a (loadView s a).touched) u
          = u.updateCached a (fun o2 => { o2 with touched := (loadView s a).touched }) from rfl]
      rw [updateCached_hit u a _ o ho]
    · intro o h
      exact ⟨h.1, h.2.1, h.2.2.1, rfl, h.2.2.2.2.1, fun k => h.2.2.2.2.2 k⟩
  · have hload : ∀ x, loadView (s.set_token_balance a t val) x
        = if x = a then
            { loadView s a with balances := setk (loadView s a).balances t val, touched := true }
          else loadView s x := by
      intro x
      rw [S.1 x, if_neg hd]
    cases hg : getk (loadView s a).balances t with
    | none =>
      have hE : mutJournal (.set_token_balance a t val) s
          = [JEntry.touchedFlag a (loadView s a).touched, JEntry.tokenPop a t] := by
        simp only [mutJournal]
        rw [if_neg hd, hg]
      rw [hE]
      refine rel_restore s (s.set_token_balance a t val) u a
        { loadView s a with balances := setk (loadView s a).balances t val, touched := true }
        (fun o => { o with touched := (loadView s a).touched, balances := popk o.balances t })
        _ hrel C.1 C.2 hload S.2.1 S.2.2.1 S.2.2.2.1 ?_ ?_
      · intro o ho
        show applyUndo (JEntry.tokenPop a t)
          (applyUndo (JEntry.touchedFlag a (loadView s a).touched) u) = _
        rw [show applyUndo (JEntry.touchedFlag a (loadView s a).touched) u
            = u.updateCached a (fun o2 => { o2 with touched := (loadView s a).touched }) from rfl]
        rw [updateCached_hit u a _ o ho]
        rw [show applyUndo (JEntry.tokenPop a t)
            ({ u with cache := setk u.cache a { o with touched := (loadView s a).touched } } : State)
            = ({ u with
                cache := setk u.cache a { o with touched := (loadView s a).touched } } : State).updateCached
              a (fun o2 => { o2 with balances := popk o2.balances t }) from rfl]
        rw [updateCached_setk]
      · intro o h
        have hb : o.balances = setk (loadView s a).balances t val := h.2.1
        refine ⟨h.1, ?_, h.2.2.1, rfl, h.2.2.2.2.1, fun k => h.2.2.2.2.2 k⟩
        show popk o.balances t = (loadView s a).balances
        rw [hb, AssocLemmas.popk_setk_new _ _ _ hg]
    | some pre =>
      have hE : mutJournal (.set_token_balance a t val) s
          = [JEntry.touchedFlag a (loadView s a).touched, JEntry.tokenSet a t pre] := by
        simp only [mutJournal]
        rw [if_neg hd, hg]
      rw [hE]
      refine rel_restore s (s.set_token_balance a t val) u a
        { loadView s a with balances := setk (loadView s a).balances t val, touched := true }
        (fun o => { o with touched := (loadView s a).touched, balances := setk o.balances t pre })
        _ hrel C.1 C.2 hload S.2.1 S.2.2.1 S.2.2.2.1 ?_ ?_
      · intro o ho
        show applyUndo (JEntry.tokenSet a t pre)
          (applyUndo (JEntry.touchedFlag a (loadView s a).touched) u) = _
        rw [show applyUndo (JEntry.touchedFlag a (loadView s a).touched) u
            = u.updateCached a (fun o2 => { o2 with touched := (loadView s a).touched }) from rfl]
        rw [updateCached_hit u a _ o ho]
        rw [show applyUndo (JEntry.tokenSet a t pre)
            ({ u with cache := setk u.cache a { o with touched := (loadView s a).touched } } : State)
            = ({ u with
                cache := setk u.cache a { o with touched := (loadView s a).touched } } : State).updateCached
              a (fun o2 => { o2 with balances := setk o2.balances t pre }) from rfl]
        rw [updateCached_setk]
      · intro o h
        have hb : o.balances = setk (loadView s a).balances t val := h.2.1
        refine ⟨h.1, ?_, h.2.2.1, rfl, h.2.2.2.2.1, fun k => h.2.2.2.2.2 k⟩
        show setk o.balances t pre = (loadView s a).balances
        rw [hb, AssocLemmas.setk_setk_restore _ _ _ _ hg]

theorem cancel_delta_token_balance (s u : State) (a t : Nat) (v : Int)
    (hrel : RevRel (s.delta_token_balance a t v) u) :
    RevRel s (replayJournal (mutJournal (.delta_token_balance a t v) s) u) := by
  have D := delta_frame s a t v
  have C := delta_token_balance_cache s a t v
  by_cases hv : v = 0
  · have hload : ∀ x, loadView (s.delta_token_balance a t v) x
        = if x = a then { loadView s a with touched := true } else loadView s x := by
      intro x
      rw [loadView_delta s a t v x, if_pos hv]
    have hE : mutJournal (.delta_token_balance a t v) s
        = [JEntry.touchedFlag a (loadView s a).touched] := by
      simp only [mutJournal]
      rw [if_pos hv]
    rw [hE]
    refine rel_restore s (s.delta_token_balance a t v) u a
      { loadView s a with touched := true }
      (fun o => { o with touched := (loadView s a).touched })
      _ hrel C.1 C.2 hload D.2.1 D.1 D.2.2 ?_ ?_
    · intro o ho
      show applyUndo (JEntry.touchedFlag a (loadView s a).touched) u = _
      rw [show applyUndo (JEntry.touchedFlag a (loadView s a).touched) u
          = u.updateCached a (fun o2 => { o2 with touched := (loadView s a).touched }) from rfl]
      rw [updateCached_hit u a _ o ho]
    · intro o h
      exact ⟨h.1, h.2.1, h.2.2.1, rfl, h.2.2.2.2.1, fun k => h.2.2.2.2.2 k⟩
  · have hload : ∀ x, loadView (s.delta_token_balance a t v) x
        = if x = a then
            { loadView s a with
              balances := setk (loadView s a).balances t
                ((getk (loadView s a).balances t).getD 0 + v)
              touched := true }
          else loadView s x := by
      intro x
      rw [loadView_delta s a t v x, if_neg hv]
    cases hg : getk (loadView s a).balances t with
    | none =>
      have hE : mutJournal (.delta_token_balance a t v) s
          = [JEntry.touchedFlag a (loadView s a).touched, JEntry.tokenPop a t] := by
        simp only [mutJournal]
        rw [if_neg hv, hg]
      rw [hE]
      refine rel_restore s (s.delta_token_balance a t v) u a
        { loadView s a with
          balances := setk (loadView s a).balances t
            ((getk (loadView s a).balances t).getD 0 + v)
          touched := true }
        (fun o => { o with touched := (loadView s a).touched, balances := popk o.balances t })
        _ hrel C.1 C.2 hload D.2.1 D.1 D.2.2 ?_ ?_
      · intro o ho
        show applyUndo (JEntry.tokenPop a t)
          (applyUndo (JEntry.touchedFlag a (loadView s a).touched) u) = _
        rw [show applyUndo (JEntry.touchedFlag a (loadView s a).touched) u
            = u.updateCached a (fun o2 => { o2 with touched := (loadView s a).touched }) from rfl]
        rw [updateCached_hit u a _ o ho]
        rw [show applyUndo (JEntry.tokenPop a t)
            ({ u with cache := setk u.cache a { o with touched := (loadView s a).touched } } : State)
            = ({ u with
                cache := setk u.cache a { o with touched := (loadView s a).touched } } : State).updateCached
              a (fun o2 => { o2 with balances := popk o2.balances t }) from rfl]
        rw [updateCached_setk]
      · intro o h
        have hb : o.balances = setk (loadView s a).balances t
            ((getk (loadView s a).balances t).getD 0 + v) := h.2.1
        refine ⟨h.1, ?_, h.2.2.1, rfl, h.2.2.2.2.1, fun k => h.2.2.2.2.2 k⟩
        show popk o.balances t = (loadView s a).balances
        rw [hb, AssocLemmas.popk_setk_new _ _ _ hg]
    | some pre =>
      have hE : mutJournal (.delta_token_balance a t v) s
          = [JEntry.touchedFlag a (loadView s a).touched, JEntry.tokenSet a t pre] := by
        simp only [mutJournal]
        rw [if_neg hv, hg]
      rw [hE]
      refine rel_restore s (s.delta_token_balance a t v) u a
        { loadView s a with
          balances := setk (loadView s a).balances t
            ((getk (loadView s a).balances t).getD 0 + v)
          touched := true }
        (fun o => { o with touched := (loadView s a).touched, balances := setk o.balances t pre })
        _ hrel C.1 C.2 hload D.2.1 D.1 D.2.2 ?_ ?_
      · intro o ho
        show applyUndo (JEntry.tokenSet a t pre)
          (applyUndo (JEntry.touchedFlag a (loadView s a).touched) u) = _
        rw [show applyUndo (JEntry.touchedFlag a (loadView s a).touched) u
            = u.updateCached a (fun o2 => { o2 with touched := (loadView s a).touched }) from rfl]
        rw [updateCached_hit u a _ o ho]
        rw [show applyUndo (JEntry.tokenSet a t pre)
            ({ u with cache := setk u.cache a { o with touched := (loadView s a).touched } } : State)
            = ({ u with
                cache := setk u.cache a { o with touched := (loadView s a).touched } } : State).updateCached
              a (fun o2 => { o2 with balances := setk o2.balances t pre }) from rfl]
        rw [updateCached_setk]
      · intro o h
        have hb : o.balances = setk (loadView s a).balances t
            ((getk (loadView s a).balances t).getD 0 + v) := h.2.1
        refine ⟨h.1, ?_, h.2.2.1, rfl, h.2.2.2.2.1, fun k => h.2.2.2.2.2 k⟩
        show setk o.balances t pre = (loadView s a).balances
        rw [hb, AssocLemmas.setk_setk_restore _ _ _ _ hg]

end StateLemmas

namespace StateLemmas

theorem cancel_set_storage_data (s u : State) (a k : Nat) (v : Int)
    (hrel : RevRel (s.set_storage_data a k v) u) :
    RevRel s (replayJournal (mutJournal (.set_storage_data a k v) s) u) := by
  have S := set_storage_data_spec s a k v
  have C := set_storage_data_cache s a k v
  refine rel_restore s (s.set_storage_data a k v) u a
    { loadView s a with storage_cache := setk (loadView s a).storage_cache k v, touched := true }
    (fun o => { o with
      touched := (loadView s a).touched
      storage_cache := setk o.storage_cache k (storageView (loadView s a) k) })
    _ hrel C.1 C.2 S.1 S.2.1 S.2.2.1 S.2.2.2.1 ?_ ?_
  · intro o ho
    show applyUndo (JEntry.storageSet a k (storageView (loadView s a) k))
      (applyUndo (JEntry.touchedFlag a (loadView s a).touched) u) = _
    rw [show applyUndo (JEntry.touchedFlag a (loadView s a).touched) u
        = u.updateCached a (fun o2 => { o2 with touched := (loadView s a).touched }) from rfl]
    rw [updateCached_hit u a _ o ho]
    rw [show applyUndo (JEntry.storageSet a k (storageView (loadView s a) k))
        ({ u with cache := setk u.cache a { o with touched := (loadView s a).touched } } : State)
        = ({ u with
            cache := setk u.cache a { o with touched := (loadView s a).touched } } : State).updateCached
          a (fun o2 => o2.set_storage_data k (storageView (loadView s a) k)) from rfl]
    rw [updateCached_setk]
    rfl
  · intro o h
    refine ⟨h.1, h.2.1, h.2.2.1, rfl, h.2.2.2.2.1, ?_⟩
    intro k'
    by_cases hk' : k' = k
    · subst hk'
      calc storageView ({ o with
              touched := (loadView s a).touched
              storage_cache := setk o.storage_cache k' (storageView (loadView s a) k') }) k'
          = storageView ({ o with
              storage_cache := setk o.storage_cache k' (storageView (loadView s a) k') }) k' :=
            storageView_congr _ _ rfl rfl k'
        _ = storageView (loadView s a) k' := storageView_setk_self o k' _
    · calc storageView ({ o with
              touched := (loadView s a).touched
              storage_cache := setk o.storage_cache k (storageView (loadView s a) k) }) k'
          = storageView ({ o with
              storage_cache := setk o.storage_cache k (storageView (loadView s a) k) }) k' :=
            storageView_congr _ _ rfl rfl k'
        _ = storageView o k' := storageView_setk_ne o k k' _ hk'
        _ = storageView ({ loadView s a with
              storage_cache := setk (loadView s a).storage_cache k v
              touched := true }) k' := h.2.2.2.2.2 k'
        _ = storageView ({ loadView s a with
              storage_cache := setk (loadView s a).storage_cache k v }) k' :=
            storageView_congr _ _ rfl rfl k'
        _ = storageView (loadView s a) k' := storageView_setk_ne (loadView s a) k k' v hk'

theorem cancel_add_suicide (s u : State) (a : Nat) (hrel : RevRel (s.add_suicide a) u) :
    RevRel s (replayJournal (mutJournal (.add_suicide a) s) u) := by
  show RevRel s ({ u with
    aux := { u.aux with suicides := u.aux.suicides.dropLast } } : State)
  have hA : ({ u.aux with suicides := u.aux.suicides.dropLast } : Aux) = s.aux := by
    have hu : u.aux = (s.add_suicide a).aux := hrel.2.2.1
    rw [hu]
    show ({ s.aux with suicides := (s.aux.suicides ++ [a]).dropLast } : Aux) = s.aux
    rw [List.dropLast_concat]
  exact rel_aux_undo s (s.add_suicide a) u _ hrel rfl rfl rfl hA

theorem cancel_add_log (s u : State) (l : Nat) (hrel : RevRel (s.add_log l) u) :
    RevRel s (replayJournal (mutJournal (.add_log l) s) u) := by
  show RevRel s ({ u with aux := { u.aux with logs := u.aux.logs.dropLast } } : State)
  have hA : ({ u.aux with logs := u.aux.logs.dropLast } : Aux) = s.aux := by
    have hu : u.aux = (s.add_log l).aux := hrel.2.2.1
    rw [hu]
    show ({ s.aux with logs := (s.aux.logs ++ [l]).dropLast } : Aux) = s.aux
    rw [List.dropLast_concat]
  exact rel_aux_undo s (s.add_log l) u _ hrel rfl rfl rfl hA

theorem cancel_add_receipt (s u : State) (r : Nat) (hrel : RevRel (s.add_receipt r) u) :
    RevRel s (replayJournal (mutJournal (.add_receipt r) s) u) := by
  show RevRel s ({ u with aux := { u.aux with receipts := u.aux.receipts.dropLast } } : State)
  have hA : ({ u.aux with receipts := u.aux.receipts.dropLast } : Aux) = s.aux := by
    have hu : u.aux = (s.add_receipt r).aux := hrel.2.2.1
    rw [hu]
    show ({ s.aux with receipts := (s.aux.receipts ++ [r]).dropLast } : Aux) = s.aux
    rw [List.dropLast_concat]
  exact rel_aux_undo s (s.add_receipt r) u _ hrel rfl rfl rfl hA

theorem cancel_set_param (s u : State) (k : AuxKey) (v : AuxVal)
    (hrel : RevRel (s.set_param k v) u) :
    RevRel s (replayJournal (mutJournal (.set_param k v) s) u) := by
  show RevRel s ({ u with aux := setAux k (getAux k s.aux) u.aux } : State)
  have hA : setAux k (getAux k s.aux) u.aux = s.aux := by
    have hu : u.aux = (s.set_param k v).aux := hrel.2.2.1
    rw [hu]
    show setAux k (getAux k s.aux) (setAux k v s.aux) = s.aux
    exact setAux_getAux k v s.aux
  exact rel_aux_undo s (s.set_param k v) u _ hrel rfl rfl rfl hA

/-- Per-call cancellation: replaying the undo records a mutator pushed
takes any related state back to a state related to the pre-call state. -/
theorem mut_cancel (m : Mutation) (s u : State) (hrel : RevRel (applyMutation m s) u) :
    RevRel s (replayJournal (mutJournal m s) u) := by
  cases m with
  | set_nonce a v => exact cancel_set_nonce s u a v hrel
  | set_code a c => exact cancel_set_code s u a c hrel
  | set_balances a m' => exact cancel_set_balances s u a m' hrel
  | set_token_balance a t v => exact cancel_set_token_balance s u a t v hrel
  | delta_token_balance a t v => exact cancel_delta_token_balance s u a t v hrel
  | increment_nonce a => exact cancel_increment_nonce s u a hrel
  | set_storage_data a k v => exact cancel_set_storage_data s u a k v hrel
  | add_suicide a => exact cancel_add_suicide s u a hrel
  | add_log l => exact cancel_add_log s u l hrel
  | add_receipt r => exact cancel_add_receipt s u r hrel
  | set_param k v => exact cancel_set_param s u k v hrel

/-- Each mutator pushes exactly its mutJournal entries. -/
theorem mut_journal_eq (m : Mutation) (s : State) :
    (applyMutation m s).journal = mutJournal m s ++ s.journal := by
  cases m with
  | set_nonce a v => exact (set_nonce_spec s a v).2.2.2.2.2
  | set_code a c => exact (set_code_spec s a c).2.2.2.2.2
  | set_balances a m' =>
    show (s.set_balances a m').journal = _
    rw [(set_balances_spec s a m').2.2.2.2]
    simp only [mutJournal]
    by_cases hd : dictEq (loadView s a).balances m'
    · rw [if_pos hd, if_pos hd]
      rfl
    · rw [if_neg hd, if_neg hd]
      rfl
  | set_token_balance a t v =>
    show (s.set_token_balance a t v).journal = _
    rw [(set_token_balance_spec s a t v).2.2.2.2]
    simp only [mutJournal]
    by_cases hd : v = (getk (loadView s a).balances t).getD 0
    · rw [if_pos hd, if_pos hd]
      rfl
    · rw [if_neg hd, if_neg hd]
      rfl
  | delta_token_balance a t v =>
    show (s.delta_token_balance a t v).journal = _
    rw [delta_journal s a t v]
    simp only [mutJournal]
    by_cases hv : v = 0
    · rw [if_pos hv, if_pos hv]
      rfl
    · rw [if_neg hv, if_neg hv]
      rfl
  | increment_nonce a => exact (increment_nonce_spec s a).2.2.2.2.2
  | set_storage_data a k v => exact (set_storage_data_spec s a k v).2.2.2.2
  | add_suicide a => rfl
  | add_log l => rfl
  | add_receipt r => rfl
  | set_param k v => rfl

/-- The accumulated journal of a mutation sequence, and the cancellation
of the whole sequence by replaying it. -/
theorem mutations_cancel (M : List Mutation) : ∀ s : State,
    ∃ P, (applyMutations M s).journal = P ++ s.journal ∧
      RevRel s (replayJournal P (applyMutations M s)) := by
  induction M with
  | nil =>
    intro s
    exact ⟨[], rfl, rel_refl s⟩
  | cons m M' ih =>
    intro s
    obtain ⟨P', hJ', hR'⟩ := ih (applyMutation m s)
    refine ⟨P' ++ mutJournal m s, ?_, ?_⟩
    · show (applyMutations M' (applyMutation m s)).journal = _
      rw [hJ', mut_journal_eq m s, List.append_assoc]
    · show RevRel s
        (replayJournal (P' ++ mutJournal m s) (applyMutations M' (applyMutation m s)))
      rw [replayJournal_append]
      exact mut_cancel m s _ hR'

end StateLemmas

/-- C1 (amended): for any mutator sequence M (set_nonce, set_code,
set_balances, set_token_balance, delta_token_balance, increment_nonce,
set_storage_data, add_suicide, add_log, add_receipt, set_param) applied
after a snapshot with no intervening commit, revert succeeds and restores
every observable — auxiliary variables, trie, and every account's nonce,
code, touched and deleted flags, token balances and storage slots —
provided the block number at snapshot time lies outside the
geth+parity carve-out window (2675000, 2675200); inside that window the
carve-out may leave address THREE re-touched. -/
theorem revert_restores_observables (s : State) (M : List Mutation)
    (hwin : ¬(2675000 < s.aux.block_number ∧ s.aux.block_number < 2675200)) :
    ∃ s', (applyMutations M s).revert s.snapshot = some s' ∧ ObsEq s' s := by
  obtain ⟨P, hJ, hRel⟩ := StateLemmas.mutations_cancel M s
  obtain ⟨hut, huc, hua, hx⟩ := hRel
  unfold State.revert
  dsimp only [State.snapshot]
  rw [hJ]
  have hn : (P ++ s.journal).length - s.journal.length = P.length := by simp
  rw [hn, List.take_left, List.drop_left]
  rw [if_pos hut.symm]
  unfold State.revertTail
  dsimp only
  rw [if_neg (fun h => hwin h.2)]
  refine ⟨_, rfl, rfl, hut, ?_⟩
  intro a
  have hlv : loadView ({ { replayJournal P (applyMutations M s) with journal := s.journal }
        with aux := s.aux } : State) a = loadView (replayJournal P (applyMutations M s)) a :=
    StateLemmas.loadView_congr _ _ a rfl rfl (congrArg Aux.full_shard_key hua).symm rfl
  obtain ⟨hn1, hb1, hc1, ht1, hd1, hs1⟩ := (hx a).2
  refine ⟨?_, ?_, ?_, ?_, ?_, ?_⟩
  · show nonceObs _ a = nonceObs s a
    unfold nonceObs
    rw [hlv]
    exact hn1
  · show codeObs _ a = codeObs s a
    unfold codeObs
    rw [hlv]
    exact hc1
  · show touchedObs _ a = touchedObs s a
    unfold touchedObs
    rw [hlv]
    exact ht1
  · show deletedObs _ a = deletedObs s a
    unfold deletedObs
    rw [hlv]
    exact hd1
  · intro t
    show balanceObs _ a t = balanceObs s a t
    unfold balanceObs
    rw [hlv, hb1]
  · intro k
    show storageView (loadView _ a) k = storageView (loadView s a) k
    rw [hlv]
    exact hs1 k

theorem revert_restores_observables_witness :
    ∃ s', (applyMutations [Mutation.set_nonce 7 5] (State.mk0 {})).revert
        (State.mk0 {}).snapshot = some s' ∧ ObsEq s' (State.mk0 {}) :=
  revert_restores_observables (State.mk0 {}) [Mutation.set_nonce 7 5] (by decide)

/-- The unqualified revert law fails inside the carve-out window: after
mutating THREE and reverting, THREE's touched flag reads true though it
was false at snapshot time. -/
theorem revert_touched_cex :
    ((cexRevState.increment_nonce THREE).revert cexRevState.snapshot).map
        (fun s' => touchedObs s' THREE)
      = some true ∧
    touchedObs cexRevState THREE = false := by decide
